import Mathlib

/-!
# CTF metadata field-class reference resolver: shallow embedding

A verification development for the CTF metadata field-class reference
resolver (`src/plugins/ctf/common/src/metadata/tsdl/ctf-meta-resolve.cpp`).
The resolver walks a trace class's scope-root field-class trees and, for
every sequence (variant) field class, turns its textual length (tag)
reference into a validated field path plus a back-reference to the target
field class.

The data model (`ctf_scope`, `ctf_field_path`, `ctf_field_class`,
`ctf_trace_class` / `ctf_stream_class` / `ctf_event_class`, and the small
accessors over them) lives in `ctf-meta.hpp`, which is not part of the
excerpt; those definitions are modelled from the specification's §3 data
model and carry a `Modelled from the spec:` note.  Everything else is a
direct translation of `ctf-meta-resolve.cpp`; each definition cites the
function it embeds.

Modelling conventions:
* machine integers (`int64_t` indices, `INT64_MAX`) become `Int` with the
  explicit constant `int64Max`; member counts in any real metadata tree are
  far below `2^63`, so no overflow arithmetic arises in the embedded code;
* the C code mutates trees in place through aliased pointers; the embedding
  rebuilds trees functionally.  The resolver only ever *writes* the four
  resolved-reference fields (`length_path`, `length_fc`, `tag_path`,
  `tag_fc`) and never *reads* them, so functional rebuilding is
  observationally identical (noted again at each place it matters);
* fallible functions returning `0`/`-1` become `Except Unit`; functions
  returning a nullable pointer become `Option`.
-/

namespace CtfMetaResolve

/-- Modelled from the spec: the closed set of root scopes (§3 "Field Path",
§4.2 table), in the fixed scope order packet-header < packet-context <
event-header < event-common-context < event-specific-context <
event-payload, plus the `CTF_SCOPE_PACKET_UNKNOWN` sentinel returned by the
classifier for relative paths.  (`enum ctf_scope` is declared in
`ctf-meta.hpp`, outside the excerpt.) -/
inductive Scope where
  | packetHeader
  | packetContext
  | eventHeader
  | eventCommonContext
  | eventSpecContext
  | eventPayload
  | unknown
deriving DecidableEq, Repr

/-- Modelled from the spec: the numeric value of a scope in the fixed scope
order; the resolver compares roots numerically (`target_field_path->root >
ctx_field_path.root`).  The sentinel's value is irrelevant: the resolver
only ever compares the six real root scopes. -/
def Scope.val : Scope → Int
  | .packetHeader => 0
  | .packetContext => 1
  | .eventHeader => 2
  | .eventCommonContext => 3
  | .eventSpecContext => 4
  | .eventPayload => 5
  | .unknown => -1

/-- Modelled from the spec: a field path (§3): a root scope tag plus an
ordered sequence of child indices; `-1` is the sentinel index selecting the
single element class of an array/sequence parent (`struct ctf_field_path`). -/
structure FieldPath where
  root : Scope
  path : List Int
deriving DecidableEq, Repr

/-- Modelled from the spec: the field-class tree (§3, and §9 "Tagged
variants over inheritance"): a sum over {Int, Enum, Float, String, Struct,
Variant, Array, Sequence}.  Only the attributes the resolver touches are
kept: signedness for integers (an enumeration is "an integer plus labeled
ranges" and, in the source, `ctf_field_class_enum` extends
`ctf_field_class_int`, so it also carries the integer's signedness), the
member/option lists with their original (TSDL) names, the element class,
and the textual reference plus resolved path/class of sequences and
variants.  The resolved `tagFc`/`lengthFc` back-references are stored as
copies of the target node (the source stores a non-owning pointer). -/
inductive FieldClass where
  | int (isSigned : Bool)
  | enum (isSigned : Bool)
  | float
  | str
  | strct (members : List (String × FieldClass))
  | variant (tagRef : String) (tagPath : Option FieldPath) (tagFc : Option FieldClass)
      (options : List (String × FieldClass))
  | array (elemFc : FieldClass)
  | sequence (lengthRef : String) (lengthPath : Option FieldPath) (lengthFc : Option FieldClass)
      (elemFc : FieldClass)

/-- `struct field_class_stack_frame`: a compound field class plus the index
of the child under visit within it (-1 below array/sequence frames). -/
structure Frame where
  fc : FieldClass
  index : Int

/-- The six scope slots of `resolve_context::scopes` (null = absent). -/
structure ScopeClasses where
  packetHeader : Option FieldClass
  packetContext : Option FieldClass
  eventHeader : Option FieldClass
  eventCommonContext : Option FieldClass
  eventSpecContext : Option FieldClass
  eventPayload : Option FieldClass

/-- Modelled from the spec: an event class (§3): its two scope roots
(possibly absent) and its translated flag (`struct ctf_event_class`). -/
structure EventClass where
  isTranslated : Bool
  specContextFc : Option FieldClass
  payloadFc : Option FieldClass

/-- Modelled from the spec: a stream class (§3): its three scope roots,
its ordered event classes, and its translated flag
(`struct ctf_stream_class`). -/
structure StreamClass where
  isTranslated : Bool
  packetContextFc : Option FieldClass
  eventHeaderFc : Option FieldClass
  eventCommonContextFc : Option FieldClass
  eventClasses : List EventClass

/-- Modelled from the spec: a trace class (§3): its packet-header root, its
ordered stream classes, and its translated flag (`struct ctf_trace_class`). -/
structure TraceClass where
  isTranslated : Bool
  packetHeaderFc : Option FieldClass
  streamClasses : List StreamClass

/-- `struct resolve_context`.  Of the referenced trace/stream/event classes
the resolver only ever reads presence and the `is_translated` flag, so the
`tc`/`sc`/`ec` pointers are modelled by just that much.  `rootEntryStacks`
is ghost instrumentation: it records the stack contents at each
`resolve_root_class` entry (mirroring its `BT_ASSERT` that the stack is
empty there); no resolver decision reads it. -/
structure ResolveContext where
  tcIsTranslated : Bool
  scIsTranslated : Option Bool
  ecIsTranslated : Option Bool
  scopes : ScopeClasses
  rootScope : Scope
  fieldClassStack : List Frame
  curFc : Option FieldClass
  rootEntryStacks : List (List Frame)

/-- `INT64_MAX`, the "source is contained in `fc`" sentinel source index. -/
def int64Max : Int := 9223372036854775807

/-- `absolute_path_prefixes` (ctf-meta-resolve.cpp:67): the TSDL dynamic
scope prefix for each root scope. -/
def absolutePathPrefixFor : Scope → String
  | .packetHeader => "trace.packet.header."
  | .packetContext => "stream.packet.context."
  | .eventHeader => "stream.event.header."
  | .eventCommonContext => "stream.event.context."
  | .eventSpecContext => "event.context."
  | .eventPayload => "event.fields."
  | .unknown => ""

/-- `absolute_path_prefix_ptoken_counts` (ctf-meta-resolve.cpp:77). -/
def absolutePathPrefixPtokenCountFor : Scope → Nat
  | .packetHeader => 3
  | .packetContext => 3
  | .eventHeader => 3
  | .eventCommonContext => 3
  | .eventSpecContext => 2
  | .eventPayload => 2
  | .unknown => 0

/-- The six real root scopes in declaration order, as iterated by
`get_root_scope_from_absolute_pathstr`. -/
def rootScopesInOrder : List Scope :=
  [.packetHeader, .packetContext, .eventHeader, .eventCommonContext,
   .eventSpecContext, .eventPayload]

/-- `field_class_stack_push` (ctf-meta-resolve.cpp:116): appends a frame
whose index is zero-initialized (`g_new0`).  The stack is kept in
`GPtrArray` order: position 0 is the outermost (first pushed) frame. -/
def fieldClassStackPush (stack : List Frame) (fc : FieldClass) : List Frame :=
  stack ++ [⟨fc, 0⟩]

/-- Sets the `index` of the top (innermost) frame, as done through
`field_class_stack_peek(...)->index = ...` (ctf-meta-resolve.cpp:1050). -/
def fieldClassStackSetTopIndex : List Frame → Int → List Frame
  | [], _ => []
  | [f], i => [⟨f.fc, i⟩]
  | f :: rest, i => f :: fieldClassStackSetTopIndex rest i

/-- `field_class_stack_pop` (ctf-meta-resolve.cpp:190): removes the top
frame if any. -/
def fieldClassStackPop (stack : List Frame) : List Frame :=
  stack.dropLast

/-- `borrow_class_from_ctx` (ctf-meta-resolve.cpp:205).  The `unknown` case
is `bt_common_abort()` in the source and unreachable (every caller passes a
real root scope); it is modelled as absence. -/
def borrowClassFromCtx (ctx : ResolveContext) : Scope → Option FieldClass
  | .packetHeader => ctx.scopes.packetHeader
  | .packetContext => ctx.scopes.packetContext
  | .eventHeader => ctx.scopes.eventHeader
  | .eventCommonContext => ctx.scopes.eventCommonContext
  | .eventSpecContext => ctx.scopes.eventSpecContext
  | .eventPayload => ctx.scopes.eventPayload
  | .unknown => none

/-- The `strncmp(pathstr, prefix, strlen(prefix)) == 0` test of
`get_root_scope_from_absolute_pathstr`: character-by-character prefix
comparison. -/
def strncmpIsPrefix : List Char → List Char → Bool
  | [], _ => true
  | _ :: _, [] => false
  | p :: ps, c :: cs => p == c && strncmpIsPrefix ps cs

/-- `get_root_scope_from_absolute_pathstr` (ctf-meta-resolve.cpp:232):
the first scope whose prefix starts the path string (`strncmp` over the
prefix's length is exactly a prefix test), else `CTF_SCOPE_PACKET_UNKNOWN`. -/
def getRootScopeFromAbsolutePathstr (pathstr : String) : Scope :=
  match rootScopesInOrder.find?
      (fun s => strncmpIsPrefix (absolutePathPrefixFor s).data pathstr.data) with
  | some s => s
  | none => .unknown

/-- The character-scanning loop of `pathstr_to_ptokens`
(ctf-meta-resolve.cpp:306): `cur` holds the characters of the token being
accumulated (between `last` and `at`), `acc` the completed tokens.  At each
`.` or at end-of-string an empty pending token is an error, otherwise the
token is appended. -/
def ptokensLoop : List Char → List Char → List String → Option (List String)
  | [], cur, acc => if cur.isEmpty then none else some (acc ++ [String.mk cur])
  | c :: rest, cur, acc =>
    if c = '.' then
      if cur.isEmpty then none else ptokensLoop rest [] (acc ++ [String.mk cur])
    else
      ptokensLoop rest (cur ++ [c]) acc

/-- `pathstr_to_ptokens` (ctf-meta-resolve.cpp:306): splits a path string
into its `.`-separated tokens; any empty token is an error (`NULL`). -/
def pathstrToPtokens (pathstr : String) : Option (List String) :=
  ptokensLoop pathstr.data [] []

/-- Modelled from the spec: the specification-side splitter (§4.1): the
expression is consumed left-to-right, a token ending at each `.` or at
end-of-string.  Stated over character lists; used only to state the lexer
claim, never by the embedded resolver. -/
def splitDotsSpec : List Char → List (List Char)
  | [] => [[]]
  | c :: rest =>
    if c = '.' then [] :: splitDotsSpec rest
    else
      match splitDotsSpec rest with
      | [] => [[c]]
      | t :: ts => (c :: t) :: ts

/-- Modelled from the spec:
`ctf_field_class_compound_get_field_class_index_from_orig_name`
(declared in `ctf-meta.hpp`): the index of the first member/option whose
original (TSDL) name matches, `-1` when none does or when the class is not
a structure or variant. -/
def getFieldClassIndexFromOrigName (fc : FieldClass) (name : String) : Int :=
  match fc with
  | .strct members =>
    match members.findIdx? (fun p => p.1 == name) with
    | some i => (i : Int)
    | none => -1
  | .variant _ _ _ options =>
    match options.findIdx? (fun p => p.1 == name) with
    | some i => (i : Int)
    | none => -1
  | _ => -1

/-- Modelled from the spec:
`ctf_field_class_compound_borrow_field_class_by_index` (declared in
`ctf-meta.hpp`): the child selected by an index (§3 "Field Path"): the
member/option at that position for structures/variants, the single element
class for arrays/sequences (whatever the index, which is `-1` there),
nothing for leaves. -/
def borrowFieldClassByIndex (fc : FieldClass) (i : Int) : Option FieldClass :=
  match fc with
  | .strct members => if i < 0 then none else (members.get? i.toNat).map (·.2)
  | .variant _ _ _ options => if i < 0 then none else (options.get? i.toNat).map (·.2)
  | .array elemFc => some elemFc
  | .sequence _ _ _ elemFc => some elemFc
  | _ => none

/-- One step of the target-locating loop of `ptokens_to_field_path`
(ctf-meta-resolve.cpp:361-414), for the current path token: below an array
or sequence no token is consumed, the sentinel index `-1` is appended and
descent enters the element class; otherwise the token is looked up
(failure when no member/option has that name, or when the index is located
after the source index while the first structure/variant level is not yet
done), the token is consumed and `first_level_done` becomes true.  Returns
the appended indices, the class descended to, and the updated
`first_level_done` flag. -/
def locateOne (fc : FieldClass) (ftName : String) (srcIndex : Int) (firstLevelDone : Bool) :
    Option (List Int × FieldClass × Bool) :=
  match fc with
  | .array elemFc =>
    (locateOne elemFc ftName srcIndex firstLevelDone).map
      (fun r => (-1 :: r.1, r.2.1, r.2.2))
  | .sequence _ _ _ elemFc =>
    (locateOne elemFc ftName srcIndex firstLevelDone).map
      (fun r => (-1 :: r.1, r.2.1, r.2.2))
  | _ =>
    let childIndex := getFieldClassIndexFromOrigName fc ftName
    if childIndex < 0 then
      none
    else if childIndex > srcIndex && !firstLevelDone then
      none
    else
      (borrowFieldClassByIndex fc childIndex).map (fun childFc => ([childIndex], childFc, true))

/-- The loop of `ptokens_to_field_path` (ctf-meta-resolve.cpp:352):
consumes the path tokens one at a time (each array/sequence level crossed
on the way contributes a `-1` index without consuming a token), returning
the ordered child indices appended to the output field path, or `none` on
lookup/causality failure. -/
def ptokensToFieldPathAux : List String → FieldClass → Int → Bool → Option (List Int)
  | [], _, _, _ => some []
  | ftName :: rest, fc, srcIndex, firstLevelDone =>
    match locateOne fc ftName srcIndex firstLevelDone with
    | none => none
    | some (idxs, childFc, fld) =>
      (ptokensToFieldPathAux rest childFc srcIndex fld).map (fun tail => idxs ++ tail)

/-- `ptokens_to_field_path` (ctf-meta-resolve.cpp:352): `first_level_done`
starts false. -/
def ptokensToFieldPath (ptokens : List String) (fc : FieldClass) (srcIndex : Int) :
    Option (List Int) :=
  ptokensToFieldPathAux ptokens fc srcIndex false

/-- The head-stitching loop of `relative_ptokens_to_field_path`
(ctf-meta-resolve.cpp:560-571): walks the stack from the outermost frame,
appending each frame's index until the frame holding the matched parent
class is reached.  The source compares heap pointers (`cur_class ==
parent_class`); the embedding compares the trees structurally, written as
the executable equality `feq` defined below.  The parent class is always a
frame of the stack, so the empty case is unreachable. -/
def stitchHead (feq : FieldClass → FieldClass → Bool) :
    List Frame → FieldClass → List Int
  | [], _ => []
  | f :: rest, parentClass =>
    if feq f.fc parentClass then [] else f.index :: stitchHead feq rest parentClass

mutual

/-- Structural equality of field classes, standing in for the source's
pointer comparison `cur_class == parent_class`
(ctf-meta-resolve.cpp:565).  Whenever that comparison runs, the candidate
classes are distinct frames of one ancestor chain — pairwise distinct
trees — so structural equality decides exactly what pointer equality does. -/
def feq : FieldClass → FieldClass → Bool
  | .int a, .int b => a == b
  | .enum a, .enum b => a == b
  | .float, .float => true
  | .str, .str => true
  | .strct m1, .strct m2 => feqList m1 m2
  | .variant r1 p1 t1 o1, .variant r2 p2 t2 o2 =>
    r1 == r2 && p1 == p2 && feqOpt t1 t2 && feqList o1 o2
  | .array e1, .array e2 => feq e1 e2
  | .sequence r1 p1 l1 e1, .sequence r2 p2 l2 e2 =>
    r1 == r2 && p1 == p2 && feqOpt l1 l2 && feq e1 e2
  | _, _ => false

def feqOpt : Option FieldClass → Option FieldClass → Bool
  | none, none => true
  | some a, some b => feq a b
  | _, _ => false

def feqList : List (String × FieldClass) → List (String × FieldClass) → Bool
  | [], [] => true
  | (n1, f1) :: r1, (n2, f2) :: r2 => n1 == n2 && feq f1 f2 && feqList r1 r2
  | _, _ => false

end

/-- The ancestor-search loop of `relative_ptokens_to_field_path`
(ctf-meta-resolve.cpp:537-587): `k` is one more than the stack position
`parent_pos_in_stack` under try; positions are visited innermost
(`size - 1`) to outermost (`0`), locating the target from each frame's
class with that frame's index as source index; the first success stitches
the head (stack prefix before the matched frame) to the located tail;
exhaustion is failure. -/
def relativeLoop (ptokens : List String) (stack : List Frame) : Nat → Except Unit (List Int)
  | 0 => .error ()
  | k + 1 =>
    let frame := stack.getD k ⟨.str, 0⟩
    match ptokensToFieldPath ptokens frame.fc frame.index with
    | some tail => .ok (stitchHead feq stack frame.fc ++ tail)
    | none => relativeLoop ptokens stack k

/-- `relative_ptokens_to_field_path` (ctf-meta-resolve.cpp:527): returns
the indices appended to the output field path (whose root the caller has
already fixed). -/
def relativePtokensToFieldPath (ptokens : List String) (ctx : ResolveContext) :
    Except Unit (List Int) :=
  relativeLoop ptokens ctx.fieldClassStack ctx.fieldClassStack.length

/-- `absolute_ptokens_to_field_path` (ctf-meta-resolve.cpp:427): checks the
layer-translation preconditions for the matched root scope, skips the
prefix tokens, and locates the target from the root class with source
index `INT64_MAX`.  The `unknown` case is `bt_common_abort()` in the
source, unreachable (the caller only passes a matched real root scope). -/
def absolutePtokensToFieldPath (ptokens : List String) (root : Scope) (ctx : ResolveContext) :
    Except Unit (List Int) :=
  let precondOk : Bool :=
    match root with
    | .packetHeader => !ctx.tcIsTranslated
    | .packetContext | .eventHeader | .eventCommonContext =>
      match ctx.scIsTranslated with
      | none => false
      | some t => !t
    | .eventSpecContext | .eventPayload =>
      match ctx.ecIsTranslated with
      | none => false
      | some t => !t
    | .unknown => false
  if !precondOk then
    .error ()
  else
    let curPtokens := ptokens.drop (absolutePathPrefixPtokenCountFor root)
    match borrowClassFromCtx ctx root with
    | none => .error ()
    | some fc =>
      match ptokensToFieldPath curPtokens fc int64Max with
      | none => .error ()
      | some idxs => .ok idxs

/-- `pathstr_to_field_path` (ctf-meta-resolve.cpp:597): lexes the path
string; a string matching no absolute prefix is relative and rooted at the
context's current root scope, otherwise the matched root scope is used. -/
def pathstrToFieldPath (pathstr : String) (ctx : ResolveContext) : Except Unit FieldPath :=
  match pathstrToPtokens pathstr with
  | none => .error ()
  | some ptokens =>
    let rootScope := getRootScopeFromAbsolutePathstr pathstr
    if rootScope = .unknown then
      match relativePtokensToFieldPath ptokens ctx with
      | .error _ => .error ()
      | .ok idxs => .ok ⟨ctx.rootScope, idxs⟩
    else
      match absolutePtokensToFieldPath ptokens rootScope ctx with
      | .error _ => .error ()
      | .ok idxs => .ok ⟨rootScope, idxs⟩

/-- `field_path_to_field_class` (ctf-meta-resolve.cpp:664): walks the field
path from its root class, child by child.  The source asserts each child
exists (`BT_ASSERT(child_fc)`); absence is modelled as `none`. -/
def walkFieldPath : Option FieldClass → List Int → Option FieldClass
  | none, _ => none
  | some fc, [] => some fc
  | some fc, i :: rest => walkFieldPath (borrowFieldClassByIndex fc i) rest

/-- `field_path_to_field_class` (ctf-meta-resolve.cpp:664). -/
def fieldPathToFieldClass (fieldPath : FieldPath) (ctx : ResolveContext) : Option FieldClass :=
  walkFieldPath (borrowClassFromCtx ctx fieldPath.root) fieldPath.path

/-- `get_ctx_stack_field_path` (ctf-meta-resolve.cpp:699): the field path
equivalent of the context's stack: current root scope plus each frame's
index, outermost first. -/
def getCtxStackFieldPath (ctx : ResolveContext) : FieldPath :=
  ⟨ctx.rootScope, ctx.fieldClassStack.map (·.index)⟩

/-- The first-mismatch loop of `get_field_paths_lca_index`
(ctf-meta-resolve.cpp:737-766): `acc` is the running `lca_index`;
reaching the end of either path means one path is an ancestor of the
other, which is the error `-1`. -/
def lcaLoop : List Int → List Int → Int → Int
  | [], _, _ => -1
  | _, [], _ => -1
  | a :: as1, b :: bs1, acc => if a ≠ b then acc else lcaLoop as1 bs1 (acc + 1)

/-- `get_field_paths_lca_index` (ctf-meta-resolve.cpp:718): the index of
the first mismatch between two field paths sharing a root, or `-1` when
either path is a prefix of the other. -/
def getFieldPathsLcaIndex (fieldPath1 fieldPath2 : FieldPath) : Int :=
  lcaLoop fieldPath1.path fieldPath2.path 0

/-- `ctf_field_path_borrow_index_by_index` (declared in `ctf-meta.hpp`):
the index at a position; every source call site is in bounds. -/
def fieldPathBorrowIndexByIndex (fieldPath : FieldPath) (i : Nat) : Int :=
  fieldPath.path.getD i 0

/-- `validate_target_field_path` (ctf-meta-resolve.cpp:775): rejects a
root target (length 0); rejects a target root after the source root;
within one root, rejects when the LCA computation fails (ancestor /
descendant) or when the target's index at the LCA is not strictly before
the source's; finally checks the target's class: an enumeration for a
variant tag, an unsigned integer (including an enumeration, whose source
type extends the integer type) for a sequence length.  The default branch
over `cur_fc` is `bt_common_abort()`, unreachable from
`resolve_sequence_or_variant_field_class`. -/
def validateTargetFieldPath (targetFieldPath : FieldPath) (targetFc : FieldClass)
    (ctx : ResolveContext) : Except Unit Unit :=
  let ctxFieldPath := getCtxStackFieldPath ctx
  if targetFieldPath.path.length = 0 then
    .error ()
  else if targetFieldPath.root.val > ctxFieldPath.root.val then
    .error ()
  else
    let sameRootOk : Bool :=
      if targetFieldPath.root = ctxFieldPath.root then
        let lcaIndex := getFieldPathsLcaIndex targetFieldPath ctxFieldPath
        if lcaIndex < 0 then
          false
        else
          let targetIndex := fieldPathBorrowIndexByIndex targetFieldPath lcaIndex.toNat
          let ctxIndex := fieldPathBorrowIndexByIndex ctxFieldPath lcaIndex.toNat
          !(targetIndex ≥ ctxIndex)
      else
        true
    if !sameRootOk then
      .error ()
    else
      match ctx.curFc with
      | some (.variant _ _ _ _) =>
        match targetFc with
        | .enum _ => .ok ()
        | _ => .error ()
      | some (.sequence _ _ _ _) =>
        match targetFc with
        | .int isSigned => if isSigned then .error () else .ok ()
        | .enum isSigned => if isSigned then .error () else .ok ()
        | _ => .error ()
      | _ => .error ()

/-- `resolve_sequence_or_variant_field_class` (ctf-meta-resolve.cpp:899):
reads the node's length/tag reference string, converts it to a field path,
fetches the target class by walking that path, and validates the pair.
Returns the validated target field path and target class; the store onto
the node (lines 963-983, `length_path`/`length_fc` or `tag_path`/`tag_fc`,
the class cast with `ctf_field_class_as_int` / `as_enum` being the
identity on the stored object) is performed by the immediate caller
`resolveFieldClassCore` so that the tree rebuilding stays structural; no
later step of resolution reads those fields, so the placement is
observationally identical.  The default branch over the node's type is
`bt_common_abort()`, unreachable from `resolve_field_class`; a reference
string is always present in the model (`if (!pathstr)` cannot fire). -/
def resolveSequenceOrVariantFieldClass (fc : FieldClass) (ctx : ResolveContext) :
    Except Unit (FieldPath × FieldClass) :=
  let pathstrOpt : Option String :=
    match fc with
    | .sequence lengthRef _ _ _ => some lengthRef
    | .variant tagRef _ _ _ => some tagRef
    | _ => none
  match pathstrOpt with
  | none => .error ()
  | some pathstr =>
    match pathstrToFieldPath pathstr ctx with
    | .error _ => .error ()
    | .ok targetFieldPath =>
      match fieldPathToFieldClass targetFieldPath ctx with
      | none => .error ()
      | some targetFc =>
        match validateTargetFieldPath targetFieldPath targetFc ctx with
        | .error _ => .error ()
        | .ok _ => .ok (targetFieldPath, targetFc)

mutual

/-- `resolve_field_class` (ctf-meta-resolve.cpp:993), for a present field
class: records it as `cur_fc`, resolves its reference first when it is a
sequence or variant, then, for any compound class, pushes it and resolves
every child in declared order (the stack's top index being the child's
position, `-1` below an array/sequence), popping on exit.  The frame holds
the node as it was on entry: the source pushes the heap object whose
tag/length metadata was possibly just updated, but nothing below ever
reads that metadata, and the pre-update node keeps every frame a strict
subterm of its root. -/
def resolveFieldClassCore (ctx : ResolveContext) (fc : FieldClass) :
    Except Unit (FieldClass × ResolveContext) :=
  let ctx0 := { ctx with curFc := some fc }
  match fc with
  | .strct members =>
    let ctx1 := { ctx0 with
      fieldClassStack := fieldClassStackPush ctx0.fieldClassStack (.strct members) }
    match resolveCompoundChildren ctx1 0 members with
    | .error e => .error e
    | .ok (members2, ctx2) =>
      .ok (.strct members2,
        { ctx2 with fieldClassStack := fieldClassStackPop ctx2.fieldClassStack })
  | .variant tagRef tagPath tagFc options =>
    match resolveSequenceOrVariantFieldClass (.variant tagRef tagPath tagFc options) ctx0 with
    | .error e => .error e
    | .ok (targetFieldPath, targetFc) =>
      let ctx1 := { ctx0 with
        fieldClassStack :=
          fieldClassStackPush ctx0.fieldClassStack (.variant tagRef tagPath tagFc options) }
      match resolveCompoundChildren ctx1 0 options with
      | .error e => .error e
      | .ok (options2, ctx2) =>
        .ok (.variant tagRef (some targetFieldPath) (some targetFc) options2,
          { ctx2 with fieldClassStack := fieldClassStackPop ctx2.fieldClassStack })
  | .array elemFc =>
    let ctx1 := { ctx0 with
      fieldClassStack :=
        fieldClassStackSetTopIndex
          (fieldClassStackPush ctx0.fieldClassStack (.array elemFc)) (-1) }
    match resolveFieldClassCore ctx1 elemFc with
    | .error e => .error e
    | .ok (elem2, ctx2) =>
      .ok (.array elem2,
        { ctx2 with fieldClassStack := fieldClassStackPop ctx2.fieldClassStack })
  | .sequence lengthRef lengthPath lengthFc elemFc =>
    match
      resolveSequenceOrVariantFieldClass (.sequence lengthRef lengthPath lengthFc elemFc) ctx0
    with
    | .error e => .error e
    | .ok (targetFieldPath, targetFc) =>
      let ctx1 := { ctx0 with
        fieldClassStack :=
          fieldClassStackSetTopIndex
            (fieldClassStackPush ctx0.fieldClassStack
              (.sequence lengthRef lengthPath lengthFc elemFc)) (-1) }
      match resolveFieldClassCore ctx1 elemFc with
      | .error e => .error e
      | .ok (elem2, ctx2) =>
        .ok (.sequence lengthRef (some targetFieldPath) (some targetFc) elem2,
          { ctx2 with fieldClassStack := fieldClassStackPop ctx2.fieldClassStack })
  | other => .ok (other, ctx0)

/-- The child-iterating loop of `resolve_field_class`
(ctf-meta-resolve.cpp:1042-1064) for a structure's members or a variant's
options: sets the stack's top index to the child's position and recurses. -/
def resolveCompoundChildren (ctx : ResolveContext) (i : Nat) :
    List (String × FieldClass) → Except Unit (List (String × FieldClass) × ResolveContext)
  | [] => .ok ([], ctx)
  | (name, childFc) :: rest =>
    let ctx1 := { ctx with
      fieldClassStack := fieldClassStackSetTopIndex ctx.fieldClassStack (i : Int) }
    match resolveFieldClassCore ctx1 childFc with
    | .error e => .error e
    | .ok (child2, ctx2) =>
      match resolveCompoundChildren ctx2 (i + 1) rest with
      | .error e => .error e
      | .ok (rest2, ctx3) => .ok ((name, child2) :: rest2, ctx3)

end

/-- `resolve_field_class` (ctf-meta-resolve.cpp:993): an absent field
class is still valid. -/
def resolveFieldClass (ctx : ResolveContext) :
    Option FieldClass → Except Unit (Option FieldClass × ResolveContext)
  | none => .ok (none, ctx)
  | some fc =>
    match resolveFieldClassCore ctx fc with
    | .error e => .error e
    | .ok (fc2, ctx2) => .ok (some fc2, ctx2)

/-- `resolve_root_class` (ctf-meta-resolve.cpp:1080): records the stack at
entry (the ghost image of `BT_ASSERT(field_class_stack_size(...) == 0)`),
sets the current root scope, resolves the root's class, and resets the
root scope to unknown. -/
def resolveRootClass (rootScope : Scope) (ctx : ResolveContext) :
    Except Unit (Option FieldClass × ResolveContext) :=
  let ctx1 := { ctx with
    rootEntryStacks := ctx.rootEntryStacks ++ [ctx.fieldClassStack],
    rootScope := rootScope }
  match resolveFieldClass ctx1 (borrowClassFromCtx ctx1 rootScope) with
  | .error e => .error e
  | .ok (ofc, ctx2) => .ok (ofc, { ctx2 with rootScope := .unknown })

/-- `resolve_event_class_field_classes` (ctf-meta-resolve.cpp:1091): a
translated event class is skipped entirely.  Otherwise the
event-specific-context slot is set and `resolve_root_class` is invoked
with `CTF_SCOPE_EVENT_COMMON_CONTEXT` (line 1105) — embedded verbatim,
although the adjoining diagnostic speaks of the event specific context —
then the payload slot is set and the payload root resolved.  The resolved
common-context tree is the stream's object, mutated through the aliased
slot, so the slot keeps the updated tree for the caller; both event slots
and the event-class pointer are cleared on exit. -/
def resolveEventClassFieldClasses (ctx : ResolveContext) (ec : EventClass) :
    Except Unit (EventClass × ResolveContext) :=
  if ec.isTranslated then
    .ok (ec, { ctx with
      scopes := { ctx.scopes with eventSpecContext := none, eventPayload := none },
      ecIsTranslated := none })
  else
    let ctx1 := { ctx with
      ecIsTranslated := some ec.isTranslated,
      scopes := { ctx.scopes with eventSpecContext := ec.specContextFc } }
    match resolveRootClass .eventCommonContext ctx1 with
    | .error e => .error e
    | .ok (ecc2, ctx2) =>
      let ctx3 := { ctx2 with
        scopes := { ctx2.scopes with eventCommonContext := ecc2, eventPayload := ec.payloadFc } }
      match resolveRootClass .eventPayload ctx3 with
      | .error e => .error e
      | .ok (payload2, ctx4) =>
        .ok ({ ec with payloadFc := payload2 },
          { ctx4 with
            scopes := { ctx4.scopes with eventSpecContext := none, eventPayload := none },
            ecIsTranslated := none })

/-- The event-class loop of `resolve_stream_class_field_classes`
(ctf-meta-resolve.cpp:1178-1189). -/
def resolveEventClassesLoop (ctx : ResolveContext) :
    List EventClass → Except Unit (List EventClass × ResolveContext)
  | [] => .ok ([], ctx)
  | ec :: rest =>
    match resolveEventClassFieldClasses ctx ec with
    | .error e => .error e
    | .ok (ec2, ctx2) =>
      match resolveEventClassesLoop ctx2 rest with
      | .error e => .error e
      | .ok (rest2, ctx3) => .ok (ec2 :: rest2, ctx3)

/-- `resolve_stream_class_field_classes` (ctf-meta-resolve.cpp:1131): for
an untranslated stream class, resolves the packet-context, event-header
and event-common-context roots in that order, each slot being set just
before its resolution; the slots then hold the stream's (possibly
resolved) trees — the unconditional re-assignments of lines 1174-1176
re-read the same aliased objects — and every event class is resolved (the
event loop can further mutate the aliased common-context tree).  The final
stream class carries the slots' trees; the three slots and the
stream-class pointer are cleared on exit. -/
def resolveStreamClassFieldClasses (ctx : ResolveContext) (sc : StreamClass) :
    Except Unit (StreamClass × ResolveContext) :=
  let ctx0 := { ctx with scIsTranslated := some sc.isTranslated }
  let rootsStep : Except Unit ResolveContext :=
    if sc.isTranslated then
      .ok { ctx0 with scopes := { ctx0.scopes with
        packetContext := sc.packetContextFc,
        eventHeader := sc.eventHeaderFc,
        eventCommonContext := sc.eventCommonContextFc } }
    else
      let ctxA := { ctx0 with
        scopes := { ctx0.scopes with packetContext := sc.packetContextFc } }
      match resolveRootClass .packetContext ctxA with
      | .error e => .error e
      | .ok (pc2, ctxB0) =>
        let ctxB := { ctxB0 with
          scopes := { ctxB0.scopes with packetContext := pc2, eventHeader := sc.eventHeaderFc } }
        match resolveRootClass .eventHeader ctxB with
        | .error e => .error e
        | .ok (eh2, ctxC0) =>
          let ctxC := { ctxC0 with
            scopes := { ctxC0.scopes with
              eventHeader := eh2, eventCommonContext := sc.eventCommonContextFc } }
          match resolveRootClass .eventCommonContext ctxC with
          | .error e => .error e
          | .ok (ecc2, ctxD0) =>
            .ok { ctxD0 with
              scopes := { ctxD0.scopes with eventCommonContext := ecc2 } }
  match rootsStep with
  | .error e => .error e
  | .ok ctx1 =>
    match resolveEventClassesLoop ctx1 sc.eventClasses with
    | .error e => .error e
    | .ok (eventClasses2, ctx2) =>
      .ok ({ sc with
          packetContextFc := ctx2.scopes.packetContext,
          eventHeaderFc := ctx2.scopes.eventHeader,
          eventCommonContextFc := ctx2.scopes.eventCommonContext,
          eventClasses := eventClasses2 },
        { ctx2 with
          scopes := { ctx2.scopes with
            packetContext := none, eventHeader := none, eventCommonContext := none },
          scIsTranslated := none })

/-- The stream-class loop of `ctf_trace_class_resolve_field_classes`
(ctf-meta-resolve.cpp:1234-1245). -/
def resolveStreamClassesLoop (ctx : ResolveContext) :
    List StreamClass → Except Unit (List StreamClass × ResolveContext)
  | [] => .ok ([], ctx)
  | sc :: rest =>
    match resolveStreamClassFieldClasses ctx sc with
    | .error e => .error e
    | .ok (sc2, ctx2) =>
      match resolveStreamClassesLoop ctx2 rest with
      | .error e => .error e
      | .ok (rest2, ctx3) => .ok (sc2 :: rest2, ctx3)

/-- `ctf_trace_class_resolve_field_classes` (ctf-meta-resolve.cpp:1199):
builds the fresh context (empty stack, packet-header slot preset, root
scope packet-header), resolves the packet-header root when the trace class
is untranslated (the unconditional re-assignment of line 1232 re-reads the
same aliased object), then resolves every stream class in order.  Returns
the resolved trace class together with the ghost record of the stack at
each `resolve_root_class` entry. -/
def ctfTraceClassResolveFieldClasses (tc : TraceClass) :
    Except Unit (TraceClass × List (List Frame)) :=
  let ctx0 : ResolveContext :=
    { tcIsTranslated := tc.isTranslated, scIsTranslated := none, ecIsTranslated := none,
      scopes := ⟨tc.packetHeaderFc, none, none, none, none, none⟩,
      rootScope := .packetHeader, fieldClassStack := [], curFc := none, rootEntryStacks := [] }
  let headerStep : Except Unit ResolveContext :=
    if tc.isTranslated then
      .ok ctx0
    else
      match resolveRootClass .packetHeader ctx0 with
      | .error e => .error e
      | .ok (ph2, ctx1) =>
        .ok { ctx1 with scopes := { ctx1.scopes with packetHeader := ph2 } }
  match headerStep with
  | .error e => .error e
  | .ok ctx1 =>
    match resolveStreamClassesLoop ctx1 tc.streamClasses with
    | .error e => .error e
    | .ok (streamClasses2, ctx2) =>
      .ok ({ tc with
          packetHeaderFc := ctx2.scopes.packetHeader, streamClasses := streamClasses2 },
        ctx2.rootEntryStacks)

/-! ## Predicates and erasure used to state the claims -/

/-- A resolved length class is an unsigned integer: in the source type
hierarchy `ctf_field_class_enum` extends `ctf_field_class_int`, so an
unsigned enumeration is an unsigned integer field class. -/
def isUnsignedIntClass : FieldClass → Bool
  | .int isSigned => !isSigned
  | .enum isSigned => !isSigned
  | _ => false

/-- A variant-tag class must be an enumeration. -/
def isEnumClass : FieldClass → Bool
  | .enum _ => true
  | _ => false

mutual

/-- Every variant node whose resolved tag class is set carries an
enumeration; every sequence node whose resolved length class is set
carries an unsigned integer (§3 invariant, §8). -/
def resolvedTypesOK : FieldClass → Bool
  | .int _ => true
  | .enum _ => true
  | .float => true
  | .str => true
  | .strct members => resolvedTypesOKList members
  | .variant _ _ tagFc options =>
    (match tagFc with
     | none => true
     | some t => isEnumClass t) && resolvedTypesOKList options
  | .array elemFc => resolvedTypesOK elemFc
  | .sequence _ _ lengthFc elemFc =>
    (match lengthFc with
     | none => true
     | some l => isUnsignedIntClass l) && resolvedTypesOK elemFc

def resolvedTypesOKList : List (String × FieldClass) → Bool
  | [] => true
  | (_, fc) :: rest => resolvedTypesOK fc && resolvedTypesOKList rest

end

mutual

/-- A freshly parsed tree (§6 inbound interface): every sequence/variant
node still carries unresolved references — no resolved path or class. -/
def unresolvedFC : FieldClass → Bool
  | .int _ => true
  | .enum _ => true
  | .float => true
  | .str => true
  | .strct members => unresolvedList members
  | .variant _ tagPath tagFc options =>
    tagPath.isNone && tagFc.isNone && unresolvedList options
  | .array elemFc => unresolvedFC elemFc
  | .sequence _ lengthPath lengthFc elemFc =>
    lengthPath.isNone && lengthFc.isNone && unresolvedFC elemFc

def unresolvedList : List (String × FieldClass) → Bool
  | [] => true
  | (_, fc) :: rest => unresolvedFC fc && unresolvedList rest

end

/-- Lifts a tree predicate to an absent-or-present root. -/
def optFCHolds (p : FieldClass → Bool) : Option FieldClass → Bool
  | none => true
  | some fc => p fc

/-- The claim predicate over an event class's roots. -/
def eventClassFCs (p : FieldClass → Bool) (ec : EventClass) : Bool :=
  optFCHolds p ec.specContextFc && optFCHolds p ec.payloadFc

/-- The claim predicate over a stream class's roots and event classes. -/
def streamClassFCs (p : FieldClass → Bool) (sc : StreamClass) : Bool :=
  optFCHolds p sc.packetContextFc && optFCHolds p sc.eventHeaderFc &&
    optFCHolds p sc.eventCommonContextFc && sc.eventClasses.all (eventClassFCs p)

/-- The claim predicate over a trace class's roots and stream classes. -/
def traceClassFCs (p : FieldClass → Bool) (tc : TraceClass) : Bool :=
  optFCHolds p tc.packetHeaderFc && tc.streamClasses.all (streamClassFCs p)

/-- All three layers are marked translated (§4.8 state machine). -/
def allTranslated (tc : TraceClass) : Bool :=
  tc.isTranslated &&
    tc.streamClasses.all (fun sc =>
      sc.isTranslated && sc.eventClasses.all (fun ec => ec.isTranslated))

mutual

/-- Erases the four resolved-reference fields everywhere: the part of a
tree the resolver reads.  Two trees with the same erasure are
indistinguishable to every read the resolver performs. -/
def eraseFC : FieldClass → FieldClass
  | .int isSigned => .int isSigned
  | .enum isSigned => .enum isSigned
  | .float => .float
  | .str => .str
  | .strct members => .strct (eraseList members)
  | .variant tagRef _ _ options => .variant tagRef none none (eraseList options)
  | .array elemFc => .array (eraseFC elemFc)
  | .sequence lengthRef _ _ elemFc => .sequence lengthRef none none (eraseFC elemFc)

def eraseList : List (String × FieldClass) → List (String × FieldClass)
  | [] => []
  | (name, fc) :: rest => (name, eraseFC fc) :: eraseList rest

end

/-- Erasure on an optional tree. -/
def eraseOpt (ofc : Option FieldClass) : Option FieldClass :=
  ofc.map eraseFC

/-- Erasure on a stack frame (the descent index is kept). -/
def eraseFrame (f : Frame) : Frame :=
  ⟨eraseFC f.fc, f.index⟩

/-- Erasure on the scope slots. -/
def eraseScopes (s : ScopeClasses) : ScopeClasses :=
  ⟨eraseOpt s.packetHeader, eraseOpt s.packetContext, eraseOpt s.eventHeader,
   eraseOpt s.eventCommonContext, eraseOpt s.eventSpecContext, eraseOpt s.eventPayload⟩

/-- Erasure on the whole context; the ghost record is dropped.  Contexts
with the same erasure drive the resolver identically. -/
def eraseCtx (ctx : ResolveContext) : ResolveContext :=
  { ctx with
    scopes := eraseScopes ctx.scopes,
    fieldClassStack := ctx.fieldClassStack.map eraseFrame,
    curFc := eraseOpt ctx.curFc,
    rootEntryStacks := [] }

/-- Erasure on an event class. -/
def eraseEC (ec : EventClass) : EventClass :=
  { ec with specContextFc := eraseOpt ec.specContextFc, payloadFc := eraseOpt ec.payloadFc }

/-- Erasure on a stream class. -/
def eraseSC (sc : StreamClass) : StreamClass :=
  { sc with
    packetContextFc := eraseOpt sc.packetContextFc,
    eventHeaderFc := eraseOpt sc.eventHeaderFc,
    eventCommonContextFc := eraseOpt sc.eventCommonContextFc,
    eventClasses := sc.eventClasses.map eraseEC }

/-- Erasure on a trace class. -/
def eraseTC (tc : TraceClass) : TraceClass :=
  { tc with
    packetHeaderFc := eraseOpt tc.packetHeaderFc,
    streamClasses := tc.streamClasses.map eraseSC }

/-- An ancestor chain: each frame's class is a strict subterm of the
previous frame's class, so the classes are pairwise structurally distinct
— the regime in which structural equality coincides with the source's
pointer equality.  Stated through the automatically derived size. -/
def framesStrictlyShrinking (stack : List Frame) : Prop :=
  List.Pairwise (fun a b => sizeOf b.fc < sizeOf a.fc) stack

/-! ## Concrete instances (spec §8 scenarios) used by witnesses -/

/-- Glues a pending token prefix onto the first component of a split. -/
def glueFirst (cur : List Char) : List (List Char) → List (List Char)
  | [] => [cur]
  | t :: ts => (cur ++ t) :: ts

/-- §8 scenario 1: a sequence referring to its sibling `len`. -/
def sampleSeq : FieldClass := .sequence "len" none none (.int false)

/-- §8 scenario 1: event payload `{len: uint, data: seq [len]}`. -/
def samplePayload : FieldClass := .strct [("len", .int false), ("data", sampleSeq)]

/-- §8 scenario 1, resolved: length path `{event-payload, [0]}`. -/
def sampleResolvedPayload : FieldClass :=
  .strct [("len", .int false),
    ("data", .sequence "len" (some ⟨.eventPayload, [0]⟩) (some (.int false)) (.int false))]

/-- §8 scenario 1 packaged as a trace class. -/
def sampleTrace : TraceClass :=
  ⟨false, none, [⟨false, none, none, none, [⟨false, none, some samplePayload⟩]⟩]⟩

/-- §8 scenario 1's expected resolver output. -/
def sampleResolvedTrace : TraceClass :=
  ⟨false, none, [⟨false, none, none, none, [⟨false, none, some sampleResolvedPayload⟩]⟩]⟩

/-- The context as it stands when scenario 1's sequence is being resolved:
event-payload root, the payload on the stack with index 1 (the sequence's
position), the sequence as current class. -/
def sampleCtx : ResolveContext :=
  { tcIsTranslated := false, scIsTranslated := some false, ecIsTranslated := some false,
    scopes := ⟨none, none, none, none, none, some samplePayload⟩,
    rootScope := .eventPayload,
    fieldClassStack := [⟨samplePayload, 1⟩],
    curFc := some sampleSeq,
    rootEntryStacks := [] }

/-- A context resolving a packet-header scope: untranslated trace class,
packet-header root present. -/
def headerCtx : ResolveContext :=
  { tcIsTranslated := false, scIsTranslated := none, ecIsTranslated := none,
    scopes := ⟨some samplePayload, none, none, none, none, none⟩,
    rootScope := .packetHeader,
    fieldClassStack := [],
    curFc := some sampleSeq,
    rootEntryStacks := [] }

/-- §8 scenario 6's inner structure `{b: uint, c: seq [b]}`. -/
def innerStruct : FieldClass :=
  .strct [("b", .int false), ("c", .sequence "b" none none (.int false))]

/-- §8 scenario 6's payload `{a: {b: uint, c: seq [b]}}`. -/
def outerStruct : FieldClass := .strct [("a", innerStruct)]

/-- A trace class whose (untranslated) event class carries a resolvable
sequence in its event-specific-context root and nothing else. -/
def specContextTrace : TraceClass :=
  ⟨false, none, [⟨false, none, none, none, [⟨false, some samplePayload, none⟩]⟩]⟩

/-- A fully translated trace class (every layer flagged). -/
def translatedTrace : TraceClass :=
  ⟨true, some samplePayload,
   [⟨true, some samplePayload, none, none, [⟨true, some samplePayload, some samplePayload⟩]⟩]⟩

/-- The context as it stands when scenario 6's inner sequence is being
resolved: the payload and the inner structure on the stack. -/
def relCtx : ResolveContext :=
  { tcIsTranslated := false, scIsTranslated := some false, ecIsTranslated := some false,
    scopes := ⟨none, none, none, none, none, some outerStruct⟩,
    rootScope := .eventPayload,
    fieldClassStack := [⟨outerStruct, 0⟩, ⟨innerStruct, 1⟩],
    curFc := some (.sequence "b" none none (.int false)),
    rootEntryStacks := [] }

/-- Everything `resolve_field_class` leaves untouched in the context: the
layer pointers and flags, the scope slots, the current root scope, and the
ghost record (only the stack and `cur_fc` are written during a field-class
visit). -/
def sameButStackCur (a b : ResolveContext) : Prop :=
  a.tcIsTranslated = b.tcIsTranslated ∧ a.scIsTranslated = b.scIsTranslated ∧
    a.ecIsTranslated = b.ecIsTranslated ∧ a.scopes = b.scopes ∧
    a.rootScope = b.rootScope ∧ a.rootEntryStacks = b.rootEntryStacks

/-- The causality condition of §4.7 on a target field path against the
source (context) field path: the target's root scope is not after the
source's in the fixed scope order and, within one root scope, the two
paths diverge strictly before the end of both (proper lowest common
ancestor: neither is a prefix of the other) with the target's index at the
divergence strictly less than the source's. -/
def causalityOK (target ctxPath : FieldPath) : Prop :=
  target.root.val ≤ ctxPath.root.val ∧
    (target.root = ctxPath.root →
      ∃ n : Nat,
        n < target.path.length ∧ n < ctxPath.path.length ∧
          target.path.take n = ctxPath.path.take n ∧
          target.path.getD n 0 < ctxPath.path.getD n 0)

/-- The part of the context the field-class resolver core reads, up to
erasure: layer flags, erased scope slots, current root scope, and the
erased stack.  (`cur_fc` is excluded: the core overwrites it before any
read.)  Two contexts so related drive the core identically. -/
def coreCtxRel (a b : ResolveContext) : Prop :=
  a.tcIsTranslated = b.tcIsTranslated ∧ a.scIsTranslated = b.scIsTranslated ∧
    a.ecIsTranslated = b.ecIsTranslated ∧ eraseScopes a.scopes = eraseScopes b.scopes ∧
    a.rootScope = b.rootScope ∧
    a.fieldClassStack.map eraseFrame = b.fieldClassStack.map eraseFrame

/-- The relation between a rerun context and the original context at an
event-class boundary of the driver: flags and root scope agree, the scope
slots agree up to erasure and exactly on every slot except the
event-common-context one, and both stacks are empty. -/
def bndCtxRel (a b : ResolveContext) : Prop :=
  a.tcIsTranslated = b.tcIsTranslated ∧ a.scIsTranslated = b.scIsTranslated ∧
    a.ecIsTranslated = b.ecIsTranslated ∧ a.rootScope = b.rootScope ∧
    eraseScopes a.scopes = eraseScopes b.scopes ∧
    a.scopes.packetHeader = b.scopes.packetHeader ∧
    a.scopes.packetContext = b.scopes.packetContext ∧
    a.scopes.eventHeader = b.scopes.eventHeader ∧
    a.scopes.eventSpecContext = b.scopes.eventSpecContext ∧
    a.scopes.eventPayload = b.scopes.eventPayload ∧
    a.fieldClassStack = [] ∧ b.fieldClassStack = []

/-! ## Properties of the structural equality `feq` -/

mutual

theorem feq_refl : ∀ a, feq a a = true := by
  intro a
  match a with
  | .int b => simp [feq]
  | .enum b => simp [feq]
  | .float => simp [feq]
  | .str => simp [feq]
  | .strct ms => simpa [feq] using feqList_refl ms
  | .variant r p t o => simp [feq, feqOpt_refl t, feqList_refl o]
  | .array e => simpa [feq] using feq_refl e
  | .sequence r p l e => simp [feq, feqOpt_refl l, feq_refl e]

theorem feqOpt_refl : ∀ a, feqOpt a a = true := by
  intro a
  match a with
  | none => simp [feqOpt]
  | some fc => simpa [feqOpt] using feq_refl fc

theorem feqList_refl : ∀ ms, feqList ms ms = true := by
  intro ms
  match ms with
  | [] => simp [feqList]
  | (n, f) :: rest => simp [feqList, feq_refl f, feqList_refl rest]

end

mutual

theorem feq_sizeOf : ∀ a b, feq a b = true → sizeOf a = sizeOf b := by
  intro a b h
  match a, b with
  | .int x, .int y => simp [feq] at h; simp [h]
  | .enum x, .enum y => simp [feq] at h; simp [h]
  | .float, .float => rfl
  | .str, .str => rfl
  | .strct m1, .strct m2 =>
    simp only [feq] at h
    simp [feqList_sizeOf m1 m2 h]
  | .variant r1 p1 t1 o1, .variant r2 p2 t2 o2 =>
    simp only [feq, Bool.and_eq_true, beq_iff_eq] at h
    obtain ⟨⟨⟨hr, hp⟩, ht⟩, ho⟩ := h
    simp [hr, hp, feqOpt_sizeOf t1 t2 ht, feqList_sizeOf o1 o2 ho]
  | .array e1, .array e2 =>
    simp only [feq] at h
    simp [feq_sizeOf e1 e2 h]
  | .sequence r1 p1 l1 e1, .sequence r2 p2 l2 e2 =>
    simp only [feq, Bool.and_eq_true, beq_iff_eq] at h
    obtain ⟨⟨⟨hr, hp⟩, hl⟩, he⟩ := h
    simp [hr, hp, feqOpt_sizeOf l1 l2 hl, feq_sizeOf e1 e2 he]

theorem feqOpt_sizeOf : ∀ a b, feqOpt a b = true → sizeOf a = sizeOf b := by
  intro a b h
  match a, b with
  | none, none => rfl
  | some x, some y =>
    simp only [feqOpt] at h
    simp [feq_sizeOf x y h]

theorem feqList_sizeOf : ∀ a b, feqList a b = true → sizeOf a = sizeOf b := by
  intro a b h
  match a, b with
  | [], [] => rfl
  | (n1, f1) :: r1, (n2, f2) :: r2 =>
    simp only [feqList, Bool.and_eq_true, beq_iff_eq] at h
    obtain ⟨⟨hn, hf⟩, hr⟩ := h
    simp [hn, feq_sizeOf f1 f2 hf, feqList_sizeOf r1 r2 hr]

end

/-- Structurally unequal-sized classes are never `feq`. -/
theorem feq_eq_false_of_sizeOf_ne {a b : FieldClass} (h : sizeOf a ≠ sizeOf b) :
    feq a b = false := by
  cases hf : feq a b with
  | false => rfl
  | true => exact absurd (feq_sizeOf a b hf) h

/-! ## C8: the path lexer -/

theorem splitDotsSpec_ne_nil : ∀ cs, splitDotsSpec cs ≠ [] := by
  intro cs
  match cs with
  | [] => simp [splitDotsSpec]
  | c :: rest =>
    by_cases h : c = '.'
    · simp [splitDotsSpec, h]
    · simp only [splitDotsSpec, if_neg h]
      cases hs : splitDotsSpec rest with
      | nil => simp
      | cons t ts => simp

theorem glueFirst_nil (l : List (List Char)) (h : l ≠ []) : glueFirst [] l = l := by
  cases l with
  | nil => exact absurd rfl h
  | cons t ts => simp [glueFirst]

theorem ptokensLoop_eq :
    ∀ (cs cur : List Char) (acc : List String),
      ptokensLoop cs cur acc =
        if (glueFirst cur (splitDotsSpec cs)).any (fun t => t.isEmpty) then none
        else some (acc ++ (glueFirst cur (splitDotsSpec cs)).map (fun t => String.mk t)) := by
  intro cs
  induction cs with
  | nil =>
    intro cur acc
    cases h : cur.isEmpty <;>
      simp_all [ptokensLoop, splitDotsSpec, glueFirst, List.isEmpty_iff]
  | cons c rest ih =>
    intro cur acc
    by_cases hc : c = '.'
    · subst hc
      cases h : cur.isEmpty with
      | true =>
        simp_all [ptokensLoop, splitDotsSpec, glueFirst, List.isEmpty_iff]
      | false =>
        rw [show ptokensLoop ('.' :: rest) cur acc
              = ptokensLoop rest [] (acc ++ [String.mk cur]) by simp [ptokensLoop, h]]
        rw [ih [] (acc ++ [String.mk cur])]
        rw [glueFirst_nil _ (splitDotsSpec_ne_nil rest)]
        have hsplit : splitDotsSpec ('.' :: rest) = [] :: splitDotsSpec rest := by
          simp [splitDotsSpec]
        rw [hsplit]
        simp [glueFirst, h]
    · rw [show ptokensLoop (c :: rest) cur acc = ptokensLoop rest (cur ++ [c]) acc by
            simp [ptokensLoop, hc]]
      rw [ih (cur ++ [c]) acc]
      simp only [splitDotsSpec, if_neg hc]
      cases hs : splitDotsSpec rest with
      | nil => exact absurd hs (splitDotsSpec_ne_nil rest)
      | cons t ts =>
        simp [glueFirst, List.append_assoc]

/-- C8: for every input string, the path lexer splits on the `.` separator
left-to-right: when every component is non-empty it returns exactly the
ordered components as tokens, and whenever any component is empty (empty
input, leading or trailing `.`, or `..`) it returns an error. -/
theorem c8_lexer_splits (s : String) :
    pathstrToPtokens s =
      if (splitDotsSpec s.data).any (fun t => t.isEmpty) then none
      else some ((splitDotsSpec s.data).map (fun t => String.mk t)) := by
  have h := ptokensLoop_eq s.data [] []
  rwa [glueFirst_nil _ (splitDotsSpec_ne_nil s.data), List.nil_append] at h

/-! ## C3: first-level causality in the target locator -/

theorem locateOne_src_independent_of_done :
    ∀ (fc : FieldClass) (tok : String) (s1 s2 : Int),
      locateOne fc tok s1 true = locateOne fc tok s2 true := by
  intro fc
  match fc with
  | .array e =>
    intro tok s1 s2
    simp only [locateOne]
    rw [locateOne_src_independent_of_done e tok s1 s2]
  | .sequence r p l e =>
    intro tok s1 s2
    simp only [locateOne]
    rw [locateOne_src_independent_of_done e tok s1 s2]
  | .int b => intro tok s1 s2; simp [locateOne]
  | .enum b => intro tok s1 s2; simp [locateOne]
  | .float => intro tok s1 s2; simp [locateOne]
  | .str => intro tok s1 s2; simp [locateOne]
  | .strct ms => intro tok s1 s2; simp [locateOne]
  | .variant r p t o => intro tok s1 s2; simp [locateOne]

theorem locateOne_done_stays :
    ∀ (fc : FieldClass) (tok : String) (s : Int) (out : List Int × FieldClass × Bool),
      locateOne fc tok s true = some out → out.2.2 = true := by
  intro fc
  match fc with
  | .array e =>
    intro tok s out h
    simp only [locateOne, Option.map_eq_some'] at h
    obtain ⟨r, hr, hout⟩ := h
    have := locateOne_done_stays e tok s r hr
    simp [← hout, this]
  | .sequence r p l e =>
    intro tok s out h
    simp only [locateOne, Option.map_eq_some'] at h
    obtain ⟨r1, hr, hout⟩ := h
    have := locateOne_done_stays e tok s r1 hr
    simp [← hout, this]
  | .int b =>
    intro tok s out h
    simp only [locateOne] at h
    split at h <;> simp_all [Option.map_eq_some']
    obtain ⟨a, ha, hout⟩ := h
    simp [← hout]
  | .enum b =>
    intro tok s out h
    simp only [locateOne] at h
    split at h <;> simp_all [Option.map_eq_some']
    obtain ⟨a, ha, hout⟩ := h
    simp [← hout]
  | .float =>
    intro tok s out h
    simp only [locateOne] at h
    split at h <;> simp_all [Option.map_eq_some']
    obtain ⟨a, ha, hout⟩ := h
    simp [← hout]
  | .str =>
    intro tok s out h
    simp only [locateOne] at h
    split at h <;> simp_all [Option.map_eq_some']
    obtain ⟨a, ha, hout⟩ := h
    simp [← hout]
  | .strct ms =>
    intro tok s out h
    simp only [locateOne] at h
    split at h <;> simp_all [Option.map_eq_some']
    obtain ⟨a, ha, hout⟩ := h
    simp [← hout]
  | .variant r p t o =>
    intro tok s out h
    simp only [locateOne] at h
    split at h <;> simp_all [Option.map_eq_some']
    obtain ⟨a, ha, hout⟩ := h
    simp [← hout]

theorem ptokensAux_src_independent_after_first :
    ∀ (toks : List String) (fc : FieldClass) (s1 s2 : Int),
      ptokensToFieldPathAux toks fc s1 true = ptokensToFieldPathAux toks fc s2 true := by
  intro toks
  induction toks with
  | nil => intro fc s1 s2; rfl
  | cons tok rest ih =>
    intro fc s1 s2
    simp only [ptokensToFieldPathAux]
    rw [locateOne_src_independent_of_done fc tok s1 s2]
    cases h : locateOne fc tok s2 true with
    | none => rfl
    | some out =>
      obtain ⟨idxs, childFc, fld⟩ := out
      have hfld : fld = true := locateOne_done_stays fc tok s2 (idxs, childFc, fld) h
      subst hfld
      simp only [ih childFc s1 s2]

theorem locator_rejects_when_looked_up_index_greater :
    ∀ (tok : String) (rest : List String) (fc : FieldClass) (src : Int),
      0 ≤ getFieldClassIndexFromOrigName fc tok →
      src < getFieldClassIndexFromOrigName fc tok →
      ptokensToFieldPathAux (tok :: rest) fc src false = none := by
  intro tok rest fc src h0 hgt
  cases fc with
  | array e => simp [getFieldClassIndexFromOrigName] at h0
  | sequence r p l e => simp [getFieldClassIndexFromOrigName] at h0
  | int b => simp [getFieldClassIndexFromOrigName] at h0
  | enum b => simp [getFieldClassIndexFromOrigName] at h0
  | float => simp [getFieldClassIndexFromOrigName] at h0
  | str => simp [getFieldClassIndexFromOrigName] at h0
  | strct ms =>
    simp only [ptokensToFieldPathAux, locateOne]
    rw [if_neg (by omega), if_pos (by simp; omega)]
  | variant r p t o =>
    simp only [ptokensToFieldPathAux, locateOne]
    rw [if_neg (by omega), if_pos (by simp; omega)]

theorem locator_accepts_when_looked_up_index_le :
    ∀ (tok : String) (rest : List String) (fc childFc : FieldClass) (src : Int),
      0 ≤ getFieldClassIndexFromOrigName fc tok →
      getFieldClassIndexFromOrigName fc tok ≤ src →
      borrowFieldClassByIndex fc (getFieldClassIndexFromOrigName fc tok) = some childFc →
      ptokensToFieldPathAux (tok :: rest) fc src false =
        (ptokensToFieldPathAux rest childFc src true).map
          (fun tail => getFieldClassIndexFromOrigName fc tok :: tail) := by
  intro tok rest fc childFc src h0 hle hb
  cases fc with
  | array e => simp [getFieldClassIndexFromOrigName] at h0
  | sequence r p l e => simp [getFieldClassIndexFromOrigName] at h0
  | int b => simp [getFieldClassIndexFromOrigName] at h0
  | enum b => simp [getFieldClassIndexFromOrigName] at h0
  | float => simp [getFieldClassIndexFromOrigName] at h0
  | str => simp [getFieldClassIndexFromOrigName] at h0
  | strct ms =>
    simp only [ptokensToFieldPathAux, locateOne]
    rw [if_neg (by omega), if_neg (by simp; omega), hb]
    simp
  | variant r p t o =>
    simp only [ptokensToFieldPathAux, locateOne]
    rw [if_neg (by omega), if_neg (by simp; omega), hb]
    simp

/-- C3, counterexample to the claim as stated: with source index 1 and the
token naming the member at index 1, the looked-up index is *not* strictly
less than the source index, yet the locator succeeds (the source only
rejects `child_index > src_index`). -/
theorem c3_counterexample :
    getFieldClassIndexFromOrigName (.strct [("a", .int false), ("b", .int false)]) "b" = 1 ∧
      ¬ ((1 : Int) < 1) ∧
      ptokensToFieldPath ["b"] (.strct [("a", .int false), ("b", .int false)]) 1 = some [1] :=
  ⟨rfl, by omega, rfl⟩

/-- C3, amended: while no structure/variant level has been consumed, the
member/option index looked up for the current token must be *less than or
equal to* the source index — the locator fails exactly on strictly greater
— and once the first structure/variant level has been consumed
(`first_level_done`), lookups ignore the source index entirely. -/
theorem c3_first_level_causality :
    (∀ (tok : String) (rest : List String) (fc : FieldClass) (src : Int),
        0 ≤ getFieldClassIndexFromOrigName fc tok →
        src < getFieldClassIndexFromOrigName fc tok →
        ptokensToFieldPathAux (tok :: rest) fc src false = none) ∧
      (∀ (tok : String) (rest : List String) (fc childFc : FieldClass) (src : Int),
        0 ≤ getFieldClassIndexFromOrigName fc tok →
        getFieldClassIndexFromOrigName fc tok ≤ src →
        borrowFieldClassByIndex fc (getFieldClassIndexFromOrigName fc tok) = some childFc →
        ptokensToFieldPathAux (tok :: rest) fc src false =
          (ptokensToFieldPathAux rest childFc src true).map
            (fun tail => getFieldClassIndexFromOrigName fc tok :: tail)) ∧
      (∀ (toks : List String) (fc : FieldClass) (s1 s2 : Int),
        ptokensToFieldPathAux toks fc s1 true = ptokensToFieldPathAux toks fc s2 true) :=
  ⟨locator_rejects_when_looked_up_index_greater,
   locator_accepts_when_looked_up_index_le,
   ptokensAux_src_independent_after_first⟩

/-- C3, witness: the three parts of the amended claim at concrete inputs. -/
theorem c3_first_level_causality_witness :
    ptokensToFieldPathAux ["b"] (.strct [("a", .int false), ("b", .int false)]) 0 false = none ∧
      ptokensToFieldPathAux ["b"] (.strct [("a", .int false), ("b", .int false)]) 1 false =
        (ptokensToFieldPathAux [] (.int false) 1 true).map (fun tail => 1 :: tail) ∧
      ptokensToFieldPathAux ["len"] samplePayload 0 true =
        ptokensToFieldPathAux ["len"] samplePayload 5 true :=
  ⟨c3_first_level_causality.1 "b" [] (.strct [("a", .int false), ("b", .int false)]) 0
      (by decide) (by decide),
   by
     have h := c3_first_level_causality.2.1 "b" [] (.strct [("a", .int false), ("b", .int false)])
       (.int false) 1 (by decide) (by decide) (by rfl)
     simpa using h,
   c3_first_level_causality.2.2 ["len"] samplePayload 0 5⟩

/-! ## C2: causality in target validation -/

theorem lcaLoop_shift :
    ∀ (p1 p2 : List Int) (c : Int), 0 ≤ c →
      lcaLoop p1 p2 (c + 1) =
        (if lcaLoop p1 p2 c = -1 then -1 else lcaLoop p1 p2 c + 1) := by
  intro p1
  induction p1 with
  | nil => intro p2 c hc; simp [lcaLoop]
  | cons a as ih =>
    intro p2 c hc
    cases p2 with
    | nil => simp [lcaLoop]
    | cons b bs =>
      by_cases hab : a = b
      · simp only [lcaLoop, hab, ne_eq, not_true_eq_false, if_false]
        exact ih bs (c + 1) (by omega)
      · simp [lcaLoop, hab]
        split <;> omega

theorem lcaLoop_nonneg_spec :
    ∀ (p1 p2 : List Int) (n : Nat),
      lcaLoop p1 p2 0 = (n : Int) →
      n < p1.length ∧ n < p2.length ∧ p1.take n = p2.take n ∧ p1.getD n 0 ≠ p2.getD n 0 := by
  intro p1
  induction p1 with
  | nil => intro p2 n h; simp [lcaLoop] at h
  | cons a as ih =>
    intro p2 n h
    cases p2 with
    | nil => simp [lcaLoop] at h
    | cons b bs =>
      by_cases hab : a = b
      · simp only [lcaLoop, hab, ne_eq, not_true_eq_false, if_false] at h
        have hshift := lcaLoop_shift as bs 0 (le_refl 0)
        norm_num at hshift h
        rw [hshift] at h
        by_cases hneg : lcaLoop as bs 0 = -1
        · rw [if_pos hneg] at h; omega
        · rw [if_neg hneg] at h
          obtain ⟨m, hm⟩ : ∃ m : Nat, n = m + 1 := by
            refine ⟨n - 1, ?_⟩
            rcases Nat.eq_zero_or_pos n with h0 | h1
            · subst h0
              exact absurd (by omega : lcaLoop as bs 0 = -1) hneg
            · omega
          subst hm
          have hrec : lcaLoop as bs 0 = (m : Int) := by push_cast at h ⊢; omega
          obtain ⟨h1, h2, h3, h4⟩ := ih bs m hrec
          refine ⟨by simp; omega, by simp; omega, ?_, ?_⟩
          · simp [List.take_succ_cons, hab, h3]
          · simpa [List.getD_cons_succ] using h4
      · simp [lcaLoop, hab] at h
        have hn0 : n = 0 := by omega
        subst hn0
        exact ⟨by simp, by simp, by simp, by simpa [List.getD_cons_zero] using hab⟩

theorem not_prefix_of_getD_ne (l1 l2 : List Int) (n : Nat) (h1 : n < l1.length)
    (h2 : n < l2.length) (hne : l1.getD n 0 ≠ l2.getD n 0) :
    ¬ (l1 <+: l2) ∧ ¬ (l2 <+: l1) := by
  constructor
  · intro hp
    apply hne
    rw [List.getD_eq_getElem l1 0 h1, List.getD_eq_getElem l2 0 h2]
    exact hp.getElem h1
  · intro hp
    apply hne
    rw [List.getD_eq_getElem l1 0 h1, List.getD_eq_getElem l2 0 h2]
    exact (hp.getElem h2).symm

theorem validate_ok_causality :
    ∀ (target : FieldPath) (targetFc : FieldClass) (ctx : ResolveContext),
      validateTargetFieldPath target targetFc ctx = .ok () →
      causalityOK target (getCtxStackFieldPath ctx) := by
  intro target targetFc ctx h
  simp only [validateTargetFieldPath] at h
  by_cases hlen : target.path.length = 0
  · rw [if_pos hlen] at h; simp at h
  rw [if_neg hlen] at h
  by_cases hroot : target.root.val > (getCtxStackFieldPath ctx).root.val
  · rw [if_pos hroot] at h; simp at h
  rw [if_neg hroot] at h
  refine ⟨by omega, fun heq => ?_⟩
  rw [if_pos heq] at h
  by_cases hlca : getFieldPathsLcaIndex target (getCtxStackFieldPath ctx) < 0
  · rw [if_pos hlca] at h; simp at h
  rw [if_neg hlca] at h
  simp only [Bool.not_not] at h
  by_cases hge : fieldPathBorrowIndexByIndex target
      (getFieldPathsLcaIndex target (getCtxStackFieldPath ctx)).toNat ≥
      fieldPathBorrowIndexByIndex (getCtxStackFieldPath ctx)
      (getFieldPathsLcaIndex target (getCtxStackFieldPath ctx)).toNat
  · rw [if_pos (by simpa using hge)] at h; simp at h
  obtain ⟨m, hm⟩ : ∃ m : Nat,
      getFieldPathsLcaIndex target (getCtxStackFieldPath ctx) = (m : Int) :=
    ⟨(getFieldPathsLcaIndex target (getCtxStackFieldPath ctx)).toNat,
      (Int.toNat_of_nonneg (by omega)).symm⟩
  have hm' : lcaLoop target.path (getCtxStackFieldPath ctx).path 0 = (m : Int) := hm
  obtain ⟨h1, h2, h3, _⟩ := lcaLoop_nonneg_spec target.path (getCtxStackFieldPath ctx).path m hm'
  refine ⟨m, h1, h2, h3, ?_⟩
  have : (getFieldPathsLcaIndex target (getCtxStackFieldPath ctx)).toNat = m := by omega
  rw [this] at hge
  simp only [fieldPathBorrowIndexByIndex] at hge
  omega

/-- C2: a target field path accepted by `validate_target_field_path`
satisfies causality — the target's root scope is not after the source's in
the fixed scope order and, within one root scope, the two paths have a
proper lowest common ancestor (neither path a prefix of the other, so the
target is neither ancestor nor descendant of the source) with the target's
index strictly less than the source's at the divergence — and any
causality violation makes validation, hence resolution, fail. -/
theorem c2_validation_causality :
    (∀ (target : FieldPath) (targetFc : FieldClass) (ctx : ResolveContext),
        validateTargetFieldPath target targetFc ctx = .ok () →
        causalityOK target (getCtxStackFieldPath ctx) ∧
          (target.root = (getCtxStackFieldPath ctx).root →
            ¬ (target.path <+: (getCtxStackFieldPath ctx).path) ∧
              ¬ ((getCtxStackFieldPath ctx).path <+: target.path))) ∧
      (∀ (target : FieldPath) (targetFc : FieldClass) (ctx : ResolveContext),
        ¬ causalityOK target (getCtxStackFieldPath ctx) →
        validateTargetFieldPath target targetFc ctx = .error ()) := by
  constructor
  · intro target targetFc ctx h
    have hc := validate_ok_causality target targetFc ctx h
    refine ⟨hc, fun heq => ?_⟩
    obtain ⟨n, h1, h2, h3, h4⟩ := hc.2 heq
    exact not_prefix_of_getD_ne _ _ n h1 h2 (by omega)
  · intro target targetFc ctx h
    cases hv : validateTargetFieldPath target targetFc ctx with
    | error u => cases u; rfl
    | ok u =>
      cases u
      exact absurd (validate_ok_causality target targetFc ctx hv) h

/-- C2, witness: scenario 1's sequence-length target `{event-payload, [0]}`
is accepted against source context `{event-payload, [1]}` and indeed
satisfies causality. -/
theorem c2_validation_causality_witness :
    causalityOK ⟨.eventPayload, [0]⟩ (getCtxStackFieldPath sampleCtx) :=
  ((c2_validation_causality.1 ⟨.eventPayload, [0]⟩ (.int false) sampleCtx) rfl).1

/-! ## C5 and C10: relative-path resolution -/

theorem stitchHead_eq_take :
    ∀ (stack : List Frame) (k : Nat), k < stack.length →
      (∀ i, i < k →
        feq ((stack.getD i ⟨.str, 0⟩).fc) ((stack.getD k ⟨.str, 0⟩).fc) = false) →
      stitchHead feq stack ((stack.getD k ⟨.str, 0⟩).fc) = (stack.take k).map (·.index) := by
  intro stack
  induction stack with
  | nil => intro k hk; simp at hk
  | cons f rest ih =>
    intro k hk hne
    cases k with
    | zero => simp [stitchHead, feq_refl]
    | succ j =>
      have h0 : feq f.fc (((f :: rest).getD (j + 1) ⟨.str, 0⟩).fc) = false :=
        hne 0 (by omega)
      simp only [List.getD_cons_succ] at h0 ⊢
      simp only [stitchHead, h0, if_neg Bool.false_ne_true, List.take_succ_cons,
        List.map_cons, List.cons.injEq, true_and]
      exact ih j (by simpa using hk) (fun i hi => by
        have := hne (i + 1) (by omega)
        simpa using this)

theorem relativeLoop_all_fail :
    ∀ (ptokens : List String) (stack : List Frame) (n : Nat),
      (∀ j, j < n →
        ptokensToFieldPath ptokens ((stack.getD j ⟨.str, 0⟩).fc)
          ((stack.getD j ⟨.str, 0⟩).index) = none) →
      relativeLoop ptokens stack n = .error () := by
  intro ptokens stack n
  induction n with
  | zero => intro _; rfl
  | succ m ih =>
    intro hfail
    simp only [relativeLoop, hfail m (by omega)]
    exact ih (fun j hj => hfail j (by omega))

theorem relativeLoop_found :
    ∀ (ptokens : List String) (stack : List Frame) (k : Nat) (n : Nat) (tail : List Int),
      k < n → k < stack.length →
      List.Pairwise (fun a b => feq a.fc b.fc = false) stack →
      (∀ j, k < j → j < n →
        ptokensToFieldPath ptokens ((stack.getD j ⟨.str, 0⟩).fc)
          ((stack.getD j ⟨.str, 0⟩).index) = none) →
      ptokensToFieldPath ptokens ((stack.getD k ⟨.str, 0⟩).fc)
        ((stack.getD k ⟨.str, 0⟩).index) = some tail →
      relativeLoop ptokens stack n = .ok ((stack.take k).map (·.index) ++ tail) := by
  intro ptokens stack k n
  induction n with
  | zero => intro tail hk; omega
  | succ m ih =>
    intro tail hk hklen hpw hfail hfound
    by_cases hkm : k = m
    · subst hkm
      simp only [relativeLoop, hfound]
      have hstitch := stitchHead_eq_take stack k hklen (fun i hi => ?_)
      · rw [hstitch]
      · have hpwg := List.pairwise_iff_getElem.mp hpw i k
          (by omega) (by omega) hi
        rwa [List.getD_eq_getElem stack ⟨.str, 0⟩ (by omega),
          List.getD_eq_getElem stack ⟨.str, 0⟩ (by omega)]
    · have hkm' : k < m := by omega
      simp only [relativeLoop, hfail m (by omega) (by omega)]
      exact ih tail hkm' hklen hpw (fun j hj1 hj2 => hfail j hj1 (by omega)) hfound

/-- C5: relative resolution tries the descent-stack ancestors innermost to
outermost, locating the target from each ancestor with the index under
which descent was made from it as source index; the first success yields
the stack-prefix head (outermost ancestor up to, excluding, the matched
one) stitched to the locator's tail; if every ancestor fails, resolution
fails.  The pairwise hypothesis states what the source's pointer equality
guarantees for an ancestor chain: the frames' classes are pairwise
distinct. -/
theorem c5_relative_resolution :
    (∀ (ptokens : List String) (ctx : ResolveContext) (k : Nat) (tail : List Int),
        k < ctx.fieldClassStack.length →
        List.Pairwise (fun a b => feq a.fc b.fc = false) ctx.fieldClassStack →
        (∀ j, k < j → j < ctx.fieldClassStack.length →
          ptokensToFieldPath ptokens ((ctx.fieldClassStack.getD j ⟨.str, 0⟩).fc)
            ((ctx.fieldClassStack.getD j ⟨.str, 0⟩).index) = none) →
        ptokensToFieldPath ptokens ((ctx.fieldClassStack.getD k ⟨.str, 0⟩).fc)
          ((ctx.fieldClassStack.getD k ⟨.str, 0⟩).index) = some tail →
        relativePtokensToFieldPath ptokens ctx =
          .ok ((ctx.fieldClassStack.take k).map (·.index) ++ tail)) ∧
      (∀ (ptokens : List String) (ctx : ResolveContext),
        (∀ j, j < ctx.fieldClassStack.length →
          ptokensToFieldPath ptokens ((ctx.fieldClassStack.getD j ⟨.str, 0⟩).fc)
            ((ctx.fieldClassStack.getD j ⟨.str, 0⟩).index) = none) →
        relativePtokensToFieldPath ptokens ctx = .error ()) :=
  ⟨fun ptokens ctx k tail hk hpw hfail hfound =>
    relativeLoop_found ptokens ctx.fieldClassStack k ctx.fieldClassStack.length tail hk hk
      hpw hfail hfound,
   fun ptokens ctx hfail => relativeLoop_all_fail ptokens ctx.fieldClassStack
      ctx.fieldClassStack.length hfail⟩

/-- C5, witness: scenario 6 — token `b` from the stack `[payload, inner]`
matches the innermost ancestor (position 1, source index 1), yielding head
`[0]` stitched to tail `[0]`. -/
theorem c5_relative_resolution_witness :
    relativePtokensToFieldPath ["b"] relCtx = .ok [0, 0] :=
  c5_relative_resolution.1 ["b"] relCtx 1 [0] (by decide)
    (by decide)
    (fun j hj1 hj2 => by
      exfalso
      have hlen : relCtx.fieldClassStack.length = 2 := rfl
      omega)
    rfl

/-- C10: a relative path expression that resolves successfully yields a
field path rooted at the root scope currently being visited. -/
theorem c10_relative_keeps_root :
    ∀ (pathstr : String) (ctx : ResolveContext) (fp : FieldPath),
      getRootScopeFromAbsolutePathstr pathstr = .unknown →
      pathstrToFieldPath pathstr ctx = .ok fp →
      fp.root = ctx.rootScope := by
  intro pathstr ctx fp hrel h
  simp only [pathstrToFieldPath] at h
  cases hpt : pathstrToPtokens pathstr with
  | none => rw [hpt] at h; simp at h
  | some ptokens =>
    rw [hpt, hrel] at h
    simp only [if_true, eq_self_iff_true, reduceIte] at h
    cases hrp : relativePtokensToFieldPath ptokens ctx with
    | error u => rw [hrp] at h; simp at h
    | ok idxs =>
      rw [hrp] at h
      simp only [Except.ok.injEq] at h
      rw [← h]

/-- C10, witness: the relative expression `len` resolved in scenario 1's
context stays rooted at the context's event-payload root scope. -/
theorem c10_relative_keeps_root_witness :
    (FieldPath.mk .eventPayload [0]).root = sampleCtx.rootScope :=
  c10_relative_keeps_root "len" sampleCtx ⟨.eventPayload, [0]⟩ rfl rfl

/-! ## C6: absolute-path resolution failure conditions -/

/-- C6, counterexample to the claim as stated: an absolute packet-header
expression whose final token names no member fails although the trace
class is untranslated and the packet-header root class is present —
absolute resolution does not fail *exactly* on precondition violations and
missing roots, the locator can also fail. -/
theorem c6_counterexample :
    absolutePtokensToFieldPath ["trace", "packet", "header", "zzz"] .packetHeader headerCtx
        = .error () ∧
      headerCtx.tcIsTranslated = false ∧
      borrowClassFromCtx headerCtx .packetHeader = some samplePayload :=
  ⟨rfl, rfl, rfl⟩

/-- C6, amended: for a matched absolute root scope, resolution fails if
and only if the layer-translation precondition is violated (packet-header:
trace class translated; packet-context/event-header/event-common-context:
no current stream class or it is translated; event-specific-context/
event-payload: no current event class or it is translated), or the root
scope's class is absent, or the target locator fails on the
prefix-stripped tokens. -/
theorem c6_absolute_failure_conditions :
    ∀ (ptokens : List String) (root : Scope) (ctx : ResolveContext),
      root ≠ .unknown →
      (absolutePtokensToFieldPath ptokens root ctx = .error () ↔
        (root = .packetHeader ∧ ctx.tcIsTranslated = true) ∨
          ((root = .packetContext ∨ root = .eventHeader ∨ root = .eventCommonContext) ∧
            (ctx.scIsTranslated = none ∨ ctx.scIsTranslated = some true)) ∨
          ((root = .eventSpecContext ∨ root = .eventPayload) ∧
            (ctx.ecIsTranslated = none ∨ ctx.ecIsTranslated = some true)) ∨
          borrowClassFromCtx ctx root = none ∨
          (∃ fc, borrowClassFromCtx ctx root = some fc ∧
            ptokensToFieldPath (ptokens.drop (absolutePathPrefixPtokenCountFor root)) fc
              int64Max = none)) := by
  intro ptokens root ctx hroot
  have step : ∀ r : Scope,
      (match borrowClassFromCtx ctx r with
        | none => Except.error ()
        | some fc =>
          match ptokensToFieldPath (ptokens.drop (absolutePathPrefixPtokenCountFor r)) fc
              int64Max with
          | none => Except.error ()
          | some idxs => Except.ok idxs) = (.error () : Except Unit (List Int)) ↔
        (borrowClassFromCtx ctx r = none ∨
          ∃ fc, borrowClassFromCtx ctx r = some fc ∧
            ptokensToFieldPath (ptokens.drop (absolutePathPrefixPtokenCountFor r)) fc
              int64Max = none) := by
    intro r
    cases hb : borrowClassFromCtx ctx r with
    | none => simp
    | some fc =>
      cases hl : ptokensToFieldPath (ptokens.drop (absolutePathPrefixPtokenCountFor r)) fc
          int64Max with
      | none => simp [hl]
      | some idxs => simp [hl]
  cases root with
  | unknown => exact absurd rfl hroot
  | packetHeader =>
    cases ht : ctx.tcIsTranslated with
    | true => simp [absolutePtokensToFieldPath, ht]
    | false =>
      simp only [absolutePtokensToFieldPath, ht, Bool.not_false, Bool.not_true,
        Bool.false_eq_true, if_false]
      rw [step .packetHeader]
      simp [ht]
  | packetContext =>
    cases hs : ctx.scIsTranslated with
    | none => simp [absolutePtokensToFieldPath, hs]
    | some b =>
      cases b with
      | true => simp [absolutePtokensToFieldPath, hs]
      | false =>
        simp only [absolutePtokensToFieldPath, hs, Bool.not_false, Bool.not_true,
          Bool.false_eq_true, if_false]
        rw [step .packetContext]
        simp [hs]
  | eventHeader =>
    cases hs : ctx.scIsTranslated with
    | none => simp [absolutePtokensToFieldPath, hs]
    | some b =>
      cases b with
      | true => simp [absolutePtokensToFieldPath, hs]
      | false =>
        simp only [absolutePtokensToFieldPath, hs, Bool.not_false, Bool.not_true,
          Bool.false_eq_true, if_false]
        rw [step .eventHeader]
        simp [hs]
  | eventCommonContext =>
    cases hs : ctx.scIsTranslated with
    | none => simp [absolutePtokensToFieldPath, hs]
    | some b =>
      cases b with
      | true => simp [absolutePtokensToFieldPath, hs]
      | false =>
        simp only [absolutePtokensToFieldPath, hs, Bool.not_false, Bool.not_true,
          Bool.false_eq_true, if_false]
        rw [step .eventCommonContext]
        simp [hs]
  | eventSpecContext =>
    cases he : ctx.ecIsTranslated with
    | none => simp [absolutePtokensToFieldPath, he]
    | some b =>
      cases b with
      | true => simp [absolutePtokensToFieldPath, he]
      | false =>
        simp only [absolutePtokensToFieldPath, he, Bool.not_false, Bool.not_true,
          Bool.false_eq_true, if_false]
        rw [step .eventSpecContext]
        simp [he]
  | eventPayload =>
    cases he : ctx.ecIsTranslated with
    | none => simp [absolutePtokensToFieldPath, he]
    | some b =>
      cases b with
      | true => simp [absolutePtokensToFieldPath, he]
      | false =>
        simp only [absolutePtokensToFieldPath, he, Bool.not_false, Bool.not_true,
          Bool.false_eq_true, if_false]
        rw [step .eventPayload]
        simp [he]

/-- C6, witness: with the trace class translated, an absolute
packet-header expression fails. -/
theorem c6_absolute_failure_conditions_witness :
    absolutePtokensToFieldPath ["trace", "packet", "header", "len"] .packetHeader
      { headerCtx with tcIsTranslated := true } = .error () :=
  (c6_absolute_failure_conditions ["trace", "packet", "header", "len"] .packetHeader
      { headerCtx with tcIsTranslated := true } (by decide)).mpr
    (Or.inl ⟨rfl, rfl⟩)

/-! ## C9: stack balance -/

theorem sameButStackCur_refl (a : ResolveContext) : sameButStackCur a a :=
  ⟨rfl, rfl, rfl, rfl, rfl, rfl⟩

theorem sameButStackCur_trans {a b c : ResolveContext} (h1 : sameButStackCur a b)
    (h2 : sameButStackCur b c) : sameButStackCur a c := by
  obtain ⟨x1, x2, x3, x4, x5, x6⟩ := h1
  obtain ⟨y1, y2, y3, y4, y5, y6⟩ := h2
  exact ⟨x1.trans y1, x2.trans y2, x3.trans y3, x4.trans y4, x5.trans y5, x6.trans y6⟩

theorem setTopIndex_dropLast :
    ∀ (l : List Frame) (i : Int), (fieldClassStackSetTopIndex l i).dropLast = l.dropLast := by
  intro l
  induction l with
  | nil => intro i; rfl
  | cons f rest ih =>
    intro i
    cases rest with
    | nil => rfl
    | cons g rs =>
      simp only [fieldClassStackSetTopIndex]
      have hne : fieldClassStackSetTopIndex (g :: rs) i ≠ [] := by
        cases rs <;> simp [fieldClassStackSetTopIndex]
      rw [List.dropLast_cons_of_ne_nil hne, List.dropLast_cons_of_ne_nil (by simp)]
      rw [ih i]

theorem setTopIndex_length :
    ∀ (l : List Frame) (i : Int), (fieldClassStackSetTopIndex l i).length = l.length := by
  intro l
  induction l with
  | nil => intro i; rfl
  | cons f rest ih =>
    intro i
    cases rest with
    | nil => rfl
    | cons g rs =>
      simp only [fieldClassStackSetTopIndex, List.length_cons]
      simp [ih i]

mutual

theorem resolveFieldClassCore_preserves :
    ∀ (fc : FieldClass) (ctx : ResolveContext) (out : FieldClass × ResolveContext),
      resolveFieldClassCore ctx fc = .ok out →
      out.2.fieldClassStack = ctx.fieldClassStack ∧ sameButStackCur out.2 ctx := by
  intro fc ctx out h
  match fc with
  | .int b =>
    simp only [resolveFieldClassCore] at h
    cases h
    exact ⟨rfl, sameButStackCur_refl _⟩
  | .enum b =>
    simp only [resolveFieldClassCore] at h
    cases h
    exact ⟨rfl, sameButStackCur_refl _⟩
  | .float =>
    simp only [resolveFieldClassCore] at h
    cases h
    exact ⟨rfl, sameButStackCur_refl _⟩
  | .str =>
    simp only [resolveFieldClassCore] at h
    cases h
    exact ⟨rfl, sameButStackCur_refl _⟩
  | .strct ms =>
    simp only [resolveFieldClassCore] at h
    cases hk : resolveCompoundChildren
        { ctx with
          curFc := some (.strct ms),
          fieldClassStack := fieldClassStackPush ctx.fieldClassStack (.strct ms) } 0 ms with
    | error e => rw [hk] at h; exact absurd h (by simp)
    | ok p =>
      rw [hk] at h
      cases h
      obtain ⟨hdrop, hlen, hsame⟩ := resolveCompoundChildren_preserves ms _ 0 p hk
      constructor
      · simp only [fieldClassStackPop, hdrop, fieldClassStackPush]
        exact List.dropLast_concat
      · exact hsame
  | .array e =>
    simp only [resolveFieldClassCore] at h
    cases hk : resolveFieldClassCore
        { ctx with
          curFc := some (.array e),
          fieldClassStack :=
            fieldClassStackSetTopIndex
              (fieldClassStackPush ctx.fieldClassStack (.array e)) (-1) } e with
    | error er => rw [hk] at h; exact absurd h (by simp)
    | ok p =>
      rw [hk] at h
      cases h
      obtain ⟨hstk, hsame⟩ := resolveFieldClassCore_preserves e _ p hk
      constructor
      · simp only [fieldClassStackPop, hstk, setTopIndex_dropLast, fieldClassStackPush]
        exact List.dropLast_concat
      · exact hsame
  | .variant tr tp tf os =>
    simp only [resolveFieldClassCore] at h
    cases hv : resolveSequenceOrVariantFieldClass (.variant tr tp tf os)
        { ctx with curFc := some (.variant tr tp tf os) } with
    | error er => rw [hv] at h; exact absurd h (by simp)
    | ok pr =>
      rw [hv] at h
      cases hk : resolveCompoundChildren
          { ctx with
            curFc := some (.variant tr tp tf os),
            fieldClassStack :=
              fieldClassStackPush ctx.fieldClassStack (.variant tr tp tf os) } 0 os with
      | error er => rw [hk] at h; exact absurd h (by simp)
      | ok p =>
        rw [hk] at h
        obtain ⟨pfp, pfc⟩ := pr
        cases h
        obtain ⟨hdrop, hlen, hsame⟩ := resolveCompoundChildren_preserves os _ 0 p hk
        constructor
        · simp only [fieldClassStackPop, hdrop, fieldClassStackPush]
          exact List.dropLast_concat
        · exact hsame
  | .sequence lr lp lf e =>
    simp only [resolveFieldClassCore] at h
    cases hv : resolveSequenceOrVariantFieldClass (.sequence lr lp lf e)
        { ctx with curFc := some (.sequence lr lp lf e) } with
    | error er => rw [hv] at h; exact absurd h (by simp)
    | ok pr =>
      rw [hv] at h
      cases hk : resolveFieldClassCore
          { ctx with
            curFc := some (.sequence lr lp lf e),
            fieldClassStack :=
              fieldClassStackSetTopIndex
                (fieldClassStackPush ctx.fieldClassStack (.sequence lr lp lf e)) (-1) } e with
      | error er => rw [hk] at h; exact absurd h (by simp)
      | ok p =>
        rw [hk] at h
        obtain ⟨pfp, pfc⟩ := pr
        cases h
        obtain ⟨hstk, hsame⟩ := resolveFieldClassCore_preserves e _ p hk
        constructor
        · simp only [fieldClassStackPop, hstk, setTopIndex_dropLast, fieldClassStackPush]
          exact List.dropLast_concat
        · exact hsame

theorem resolveCompoundChildren_preserves :
    ∀ (kids : List (String × FieldClass)) (ctx : ResolveContext) (i : Nat)
      (out : List (String × FieldClass) × ResolveContext),
      resolveCompoundChildren ctx i kids = .ok out →
      out.2.fieldClassStack.dropLast = ctx.fieldClassStack.dropLast ∧
        out.2.fieldClassStack.length = ctx.fieldClassStack.length ∧
        sameButStackCur out.2 ctx := by
  intro kids ctx i out h
  match kids with
  | [] =>
    simp only [resolveCompoundChildren] at h
    cases h
    exact ⟨rfl, rfl, sameButStackCur_refl _⟩
  | (name, childFc) :: rest =>
    simp only [resolveCompoundChildren] at h
    cases hc : resolveFieldClassCore
        { ctx with fieldClassStack := fieldClassStackSetTopIndex ctx.fieldClassStack i } childFc
        with
    | error er => rw [hc] at h; exact absurd h (by simp)
    | ok p =>
      obtain ⟨child2, ctx2⟩ := p
      rw [hc] at h
      dsimp only [] at h
      cases hr : resolveCompoundChildren ctx2 (i + 1) rest with
      | error er => rw [hr] at h; exact absurd h (by simp)
      | ok q =>
        rw [hr] at h
        obtain ⟨rest2, ctx3⟩ := q
        cases h
        obtain ⟨hstk1, hsame1⟩ :=
          resolveFieldClassCore_preserves childFc _ (child2, ctx2) hc
        obtain ⟨hdrop2, hlen2, hsame2⟩ :=
          resolveCompoundChildren_preserves rest ctx2 (i + 1) (rest2, ctx3) hr
        refine ⟨?_, ?_, sameButStackCur_trans hsame2 hsame1⟩
        · rw [hdrop2, hstk1]
          simp [setTopIndex_dropLast]
        · rw [hlen2, hstk1]
          simp [setTopIndex_length]

end

theorem resolveFieldClass_preserves :
    ∀ (ctx : ResolveContext) (ofc : Option FieldClass) (out : Option FieldClass × ResolveContext),
      resolveFieldClass ctx ofc = .ok out →
      out.2.fieldClassStack = ctx.fieldClassStack ∧ sameButStackCur out.2 ctx := by
  intro ctx ofc out h
  cases ofc with
  | none =>
    simp only [resolveFieldClass] at h
    cases h
    exact ⟨rfl, sameButStackCur_refl _⟩
  | some fc =>
    simp only [resolveFieldClass] at h
    cases hc : resolveFieldClassCore ctx fc with
    | error e => rw [hc] at h; exact absurd h (by simp)
    | ok p =>
      obtain ⟨fc2, ctx2⟩ := p
      rw [hc] at h
      cases h
      exact resolveFieldClassCore_preserves fc ctx (fc2, ctx2) hc

theorem resolveRootClass_spec :
    ∀ (rs : Scope) (ctx : ResolveContext) (out : Option FieldClass × ResolveContext),
      resolveRootClass rs ctx = .ok out →
      out.2.fieldClassStack = ctx.fieldClassStack ∧
        out.2.scopes = ctx.scopes ∧
        out.2.tcIsTranslated = ctx.tcIsTranslated ∧
        out.2.scIsTranslated = ctx.scIsTranslated ∧
        out.2.ecIsTranslated = ctx.ecIsTranslated ∧
        out.2.rootEntryStacks = ctx.rootEntryStacks ++ [ctx.fieldClassStack] := by
  intro rs ctx out h
  simp only [resolveRootClass] at h
  cases hc : resolveFieldClass
      { ctx with
        rootEntryStacks := ctx.rootEntryStacks ++ [ctx.fieldClassStack], rootScope := rs }
      (borrowClassFromCtx
        { ctx with
          rootEntryStacks := ctx.rootEntryStacks ++ [ctx.fieldClassStack], rootScope := rs }
        rs) with
  | error e => rw [hc] at h; exact absurd h (by simp)
  | ok p =>
    obtain ⟨ofc2, ctx2⟩ := p
    rw [hc] at h
    cases h
    obtain ⟨hstk, h1, h2, h3, h4, h5, h6⟩ := resolveFieldClass_preserves _ _ (ofc2, ctx2) hc
    exact ⟨hstk, h4, h1, h2, h3, h6⟩

theorem resolveEventClassFieldClasses_ghost :
    ∀ (ctx : ResolveContext) (ec : EventClass) (out : EventClass × ResolveContext),
      resolveEventClassFieldClasses ctx ec = .ok out →
      out.2.fieldClassStack = ctx.fieldClassStack ∧
        ∃ es, out.2.rootEntryStacks = ctx.rootEntryStacks ++ es ∧
          ∀ e ∈ es, e = ctx.fieldClassStack := by
  intro ctx ec out h
  simp only [resolveEventClassFieldClasses] at h
  split at h
  · cases h
    exact ⟨rfl, [], by simp, by simp⟩
  · cases hr1 : resolveRootClass .eventCommonContext
        { ctx with
          ecIsTranslated := some ec.isTranslated,
          scopes := { ctx.scopes with eventSpecContext := ec.specContextFc } } with
    | error e => rw [hr1] at h; exact absurd h (by simp)
    | ok p =>
      obtain ⟨ecc2, ctx2⟩ := p
      rw [hr1] at h
      dsimp only [] at h
      obtain ⟨hstk1, _, _, _, _, hg1⟩ := resolveRootClass_spec _ _ (ecc2, ctx2) hr1
      cases hr2 : resolveRootClass .eventPayload
          { ctx2 with
            scopes := { ctx2.scopes with
              eventCommonContext := ecc2, eventPayload := ec.payloadFc } } with
      | error e => rw [hr2] at h; exact absurd h (by simp)
      | ok q =>
        obtain ⟨pl2, ctx4⟩ := q
        rw [hr2] at h
        cases h
        obtain ⟨hstk2, _, _, _, _, hg2⟩ := resolveRootClass_spec _ _ (pl2, ctx4) hr2
        simp only [] at hstk1 hg1 hstk2 hg2
        refine ⟨by rw [hstk2, hstk1], [ctx.fieldClassStack, ctx.fieldClassStack], ?_, ?_⟩
        · rw [hg2, hg1, hstk1]
          simp
        · intro e he
          simp at he
          simp [he]

theorem resolveEventClassesLoop_ghost :
    ∀ (ecs : List EventClass) (ctx : ResolveContext) (out : List EventClass × ResolveContext),
      resolveEventClassesLoop ctx ecs = .ok out →
      out.2.fieldClassStack = ctx.fieldClassStack ∧
        ∃ es, out.2.rootEntryStacks = ctx.rootEntryStacks ++ es ∧
          ∀ e ∈ es, e = ctx.fieldClassStack := by
  intro ecs
  induction ecs with
  | nil =>
    intro ctx out h
    simp only [resolveEventClassesLoop] at h
    cases h
    exact ⟨rfl, [], by simp, by simp⟩
  | cons ec rest ih =>
    intro ctx out h
    simp only [resolveEventClassesLoop] at h
    cases h1 : resolveEventClassFieldClasses ctx ec with
    | error e => rw [h1] at h; exact absurd h (by simp)
    | ok p =>
      obtain ⟨ec2, ctx2⟩ := p
      rw [h1] at h
      dsimp only [] at h
      cases h2 : resolveEventClassesLoop ctx2 rest with
      | error e => rw [h2] at h; exact absurd h (by simp)
      | ok q =>
        obtain ⟨rest2, ctx3⟩ := q
        rw [h2] at h
        cases h
        obtain ⟨hstk1, es1, hg1, hes1⟩ := resolveEventClassFieldClasses_ghost ctx ec (ec2, ctx2) h1
        obtain ⟨hstk2, es2, hg2, hes2⟩ := ih ctx2 (rest2, ctx3) h2
        refine ⟨by rw [hstk2, hstk1], es1 ++ es2, ?_, ?_⟩
        · rw [hg2, hg1]; simp
        · intro e he
          rcases List.mem_append.mp he with h | h
          · exact hes1 e h
          · rw [hes2 e h, hstk1]

theorem resolveStreamClassFieldClasses_ghost :
    ∀ (ctx : ResolveContext) (sc : StreamClass) (out : StreamClass × ResolveContext),
      resolveStreamClassFieldClasses ctx sc = .ok out →
      out.2.fieldClassStack = ctx.fieldClassStack ∧
        ∃ es, out.2.rootEntryStacks = ctx.rootEntryStacks ++ es ∧
          ∀ e ∈ es, e = ctx.fieldClassStack := by
  intro ctx sc out h
  have hloop :
      ∀ (ctx1 : ResolveContext),
        ctx1.fieldClassStack = ctx.fieldClassStack →
        (∃ es1, ctx1.rootEntryStacks = ctx.rootEntryStacks ++ es1 ∧
          ∀ e ∈ es1, e = ctx.fieldClassStack) →
        (match resolveEventClassesLoop ctx1 sc.eventClasses with
          | Except.error e => Except.error e
          | Except.ok (eventClasses2, ctx2) =>
            Except.ok ({ sc with
                packetContextFc := ctx2.scopes.packetContext,
                eventHeaderFc := ctx2.scopes.eventHeader,
                eventCommonContextFc := ctx2.scopes.eventCommonContext,
                eventClasses := eventClasses2 },
              { ctx2 with
                scopes := { ctx2.scopes with
                  packetContext := none, eventHeader := none, eventCommonContext := none },
                scIsTranslated := none })) = Except.ok out →
        out.2.fieldClassStack = ctx.fieldClassStack ∧
          ∃ es, out.2.rootEntryStacks = ctx.rootEntryStacks ++ es ∧
            ∀ e ∈ es, e = ctx.fieldClassStack := by
    intro ctx1 hstk1 hex hm
    obtain ⟨es1, hg1, hes1⟩ := hex
    cases hl : resolveEventClassesLoop ctx1 sc.eventClasses with
    | error e => rw [hl] at hm; exact absurd hm (by simp)
    | ok q =>
      obtain ⟨ecs2, ctx2⟩ := q
      rw [hl] at hm
      cases hm
      obtain ⟨hstk2, es2, hg2, hes2⟩ := resolveEventClassesLoop_ghost sc.eventClasses ctx1
        (ecs2, ctx2) hl
      refine ⟨by simp only []; rw [hstk2, hstk1], es1 ++ es2, ?_, ?_⟩
      · simp only []
        rw [hg2, hg1]
        simp
      · intro e he
        rcases List.mem_append.mp he with hin | hin
        · exact hes1 e hin
        · rw [hes2 e hin, hstk1]
  simp only [resolveStreamClassFieldClasses] at h
  by_cases hts : sc.isTranslated = true
  · rw [if_pos hts] at h
    dsimp only [] at h
    refine hloop
      { ctx with
        scIsTranslated := some sc.isTranslated,
        scopes := { ctx.scopes with
          packetContext := sc.packetContextFc,
          eventHeader := sc.eventHeaderFc,
          eventCommonContext := sc.eventCommonContextFc } }
      rfl ⟨[], by simp, by simp⟩ h
  · rw [if_neg hts] at h
    cases hr1 : resolveRootClass .packetContext
        { ctx with
          scIsTranslated := some sc.isTranslated,
          scopes := { ctx.scopes with packetContext := sc.packetContextFc } } with
    | error e =>
      rw [hr1] at h
      exact absurd h (by simp)
    | ok p1 =>
      obtain ⟨pc2, ctxB⟩ := p1
      rw [hr1] at h
      dsimp only [] at h
      obtain ⟨hstkB0, _, _, _, _, hgB0⟩ := resolveRootClass_spec _ _ (pc2, ctxB) hr1
      have hstkB : ctxB.fieldClassStack = ctx.fieldClassStack := hstkB0
      have hgB : ctxB.rootEntryStacks = ctx.rootEntryStacks ++ [ctx.fieldClassStack] := hgB0
      cases hr2 : resolveRootClass .eventHeader
          { ctxB with
            scopes := { ctxB.scopes with
              packetContext := pc2, eventHeader := sc.eventHeaderFc } } with
      | error e => rw [hr2] at h; exact absurd h (by simp)
      | ok p2 =>
        obtain ⟨eh2, ctxC⟩ := p2
        rw [hr2] at h
        dsimp only [] at h
        obtain ⟨hstkC0, _, _, _, _, hgC0⟩ := resolveRootClass_spec _ _ (eh2, ctxC) hr2
        have hstkC : ctxC.fieldClassStack = ctxB.fieldClassStack := hstkC0
        have hgC : ctxC.rootEntryStacks = ctxB.rootEntryStacks ++ [ctxB.fieldClassStack] := hgC0
        cases hr3 : resolveRootClass .eventCommonContext
            { ctxC with
              scopes := { ctxC.scopes with
                eventHeader := eh2, eventCommonContext := sc.eventCommonContextFc } } with
        | error e => rw [hr3] at h; exact absurd h (by simp)
        | ok p3 =>
          obtain ⟨ecc2, ctxD⟩ := p3
          rw [hr3] at h
          dsimp only [] at h
          obtain ⟨hstkD0, _, _, _, _, hgD0⟩ := resolveRootClass_spec _ _ (ecc2, ctxD) hr3
          have hstkD : ctxD.fieldClassStack = ctxC.fieldClassStack := hstkD0
          have hgD : ctxD.rootEntryStacks = ctxC.rootEntryStacks ++ [ctxC.fieldClassStack] :=
            hgD0
          refine hloop
            { ctxD with
              scopes := { ctxD.scopes with eventCommonContext := ecc2 } }
            (show ctxD.fieldClassStack = ctx.fieldClassStack by rw [hstkD, hstkC, hstkB])
            ?_ h
          refine ⟨[ctx.fieldClassStack, ctx.fieldClassStack, ctx.fieldClassStack], ?_, ?_⟩
          · show ctxD.rootEntryStacks = _
            rw [hgD, hgC, hgB, hstkC, hstkB]
            simp
          · intro e he
            simp at he
            simp [he]

theorem resolveStreamClassesLoop_ghost :
    ∀ (scs : List StreamClass) (ctx : ResolveContext) (out : List StreamClass × ResolveContext),
      resolveStreamClassesLoop ctx scs = .ok out →
      out.2.fieldClassStack = ctx.fieldClassStack ∧
        ∃ es, out.2.rootEntryStacks = ctx.rootEntryStacks ++ es ∧
          ∀ e ∈ es, e = ctx.fieldClassStack := by
  intro scs
  induction scs with
  | nil =>
    intro ctx out h
    simp only [resolveStreamClassesLoop] at h
    cases h
    exact ⟨rfl, [], by simp, by simp⟩
  | cons sc rest ih =>
    intro ctx out h
    simp only [resolveStreamClassesLoop] at h
    cases h1 : resolveStreamClassFieldClasses ctx sc with
    | error e => rw [h1] at h; exact absurd h (by simp)
    | ok p =>
      obtain ⟨sc2, ctx2⟩ := p
      rw [h1] at h
      dsimp only [] at h
      cases h2 : resolveStreamClassesLoop ctx2 rest with
      | error e => rw [h2] at h; exact absurd h (by simp)
      | ok q =>
        obtain ⟨rest2, ctx3⟩ := q
        rw [h2] at h
        cases h
        obtain ⟨hstk1, es1, hg1, hes1⟩ := resolveStreamClassFieldClasses_ghost ctx sc
          (sc2, ctx2) h1
        obtain ⟨hstk2, es2, hg2, hes2⟩ := ih ctx2 (rest2, ctx3) h2
        refine ⟨by rw [hstk2, hstk1], es1 ++ es2, ?_, ?_⟩
        · rw [hg2, hg1]; simp
        · intro e he
          rcases List.mem_append.mp he with hin | hin
          · exact hes1 e hin
          · rw [hes2 e hin, hstk1]

/-- C9: the descent stack is balanced — a `resolve_field_class` call that
returns success leaves the stack at exactly the size it had on entry (in
fact the very same stack) — and consequently, in a successful
`resolve(trace_class)` run, every `resolve_root_class` invocation begins
with the empty stack (the ghost record holds the stack at each such
entry). -/
theorem c9_stack_balance :
    (∀ (ctx : ResolveContext) (ofc : Option FieldClass)
        (out : Option FieldClass × ResolveContext),
        resolveFieldClass ctx ofc = .ok out →
        out.2.fieldClassStack.length = ctx.fieldClassStack.length) ∧
      (∀ (tc : TraceClass) (out : TraceClass × List (List Frame)),
        ctfTraceClassResolveFieldClasses tc = .ok out →
        ∀ s ∈ out.2, s = []) := by
  constructor
  · intro ctx ofc out h
    rw [(resolveFieldClass_preserves ctx ofc out h).1]
  · intro tc out h
    have hfin :
        ∀ (ctx1 : ResolveContext),
          ctx1.fieldClassStack = [] →
          (∃ es1, ctx1.rootEntryStacks = es1 ∧ ∀ e ∈ es1, e = ([] : List Frame)) →
          (match resolveStreamClassesLoop ctx1 tc.streamClasses with
            | Except.error e => Except.error e
            | Except.ok (streamClasses2, ctx2) =>
              Except.ok ({ tc with
                  packetHeaderFc := ctx2.scopes.packetHeader,
                  streamClasses := streamClasses2 },
                ctx2.rootEntryStacks)) = Except.ok out →
          ∀ s ∈ out.2, s = [] := by
      intro ctx1 hstk1 hex hm
      obtain ⟨es1, hg1, hes1⟩ := hex
      cases hl : resolveStreamClassesLoop ctx1 tc.streamClasses with
      | error e => rw [hl] at hm; exact absurd hm (by simp)
      | ok q =>
        obtain ⟨scs2, ctx2⟩ := q
        rw [hl] at hm
        cases hm
        obtain ⟨hstk2, es2, hg2, hes2⟩ := resolveStreamClassesLoop_ghost tc.streamClasses ctx1
          (scs2, ctx2) hl
        intro s hs
        simp only [] at hg2 hs
        rw [hg2, hg1] at hs
        rcases List.mem_append.mp hs with hin | hin
        · exact hes1 s hin
        · rw [hes2 s hin, hstk1]
    simp only [ctfTraceClassResolveFieldClasses] at h
    by_cases htt : tc.isTranslated = true
    · rw [if_pos htt] at h
      dsimp only [] at h
      refine hfin
        { tcIsTranslated := tc.isTranslated, scIsTranslated := none, ecIsTranslated := none,
          scopes := ⟨tc.packetHeaderFc, none, none, none, none, none⟩,
          rootScope := .packetHeader, fieldClassStack := [], curFc := none,
          rootEntryStacks := [] }
        rfl ⟨[], rfl, by simp⟩ h
    · rw [if_neg htt] at h
      cases hr : resolveRootClass .packetHeader
          { tcIsTranslated := tc.isTranslated, scIsTranslated := none, ecIsTranslated := none,
            scopes := ⟨tc.packetHeaderFc, none, none, none, none, none⟩,
            rootScope := .packetHeader, fieldClassStack := [], curFc := none,
            rootEntryStacks := [] } with
      | error e =>
        rw [hr] at h
        exact absurd h (by simp)
      | ok p =>
        obtain ⟨ph2, ctx1⟩ := p
        rw [hr] at h
        dsimp only [] at h
        obtain ⟨hstk10, _, _, _, _, hg10⟩ := resolveRootClass_spec _ _ (ph2, ctx1) hr
        have hstk1 : ctx1.fieldClassStack = [] := hstk10
        have hg1 : ctx1.rootEntryStacks = [[]] := hg10
        refine hfin
          { ctx1 with scopes := { ctx1.scopes with packetHeader := ph2 } }
          (show ctx1.fieldClassStack = [] from hstk1)
          ⟨[[]], show ctx1.rootEntryStacks = [[]] from hg1, by simp⟩ h

/-- C9, witness: resolving an absent root leaves the stack untouched, and
a fully translated trace class's run records no root entry at all. -/
theorem c9_stack_balance_witness :
    (({ headerCtx with curFc := none } : ResolveContext).fieldClassStack.length
        = headerCtx.fieldClassStack.length) ∧
      (∀ s ∈ ([] : List (List Frame)), s = []) :=
  ⟨c9_stack_balance.1 { headerCtx with curFc := none } none
      (none, { headerCtx with curFc := none }) rfl,
   c9_stack_balance.2 translatedTrace (translatedTrace, []) rfl⟩

/-! ## C1: the event-specific-context root is never resolved -/

/-- C1: on a trace class whose untranslated event class carries a
resolvable sequence in its event-specific-context root, resolution
succeeds and returns the trace class *unchanged*: the driver invokes
`resolve_root_class(CTF_SCOPE_EVENT_COMMON_CONTEXT)` after setting the
event-specific-context slot (ctf-meta-resolve.cpp:1104-1105), so the
event-specific-context compound is never visited and its sequence keeps
its unresolved reference, although the adjoining diagnostic reads "Cannot
resolve event specific context field class". -/
theorem c1_spec_context_left_unresolved :
    ctfTraceClassResolveFieldClasses specContextTrace
        = .ok (specContextTrace, [[], [], [], [], [], []]) ∧
      unresolvedFC samplePayload = true :=
  ⟨rfl, rfl⟩

/-! ## C4: resolved reference types -/

mutual

theorem unresolved_implies_typesOK : ∀ fc, unresolvedFC fc = true → resolvedTypesOK fc = true := by
  intro fc h
  match fc with
  | .int b => rfl
  | .enum b => rfl
  | .float => rfl
  | .str => rfl
  | .strct ms =>
    simp only [unresolvedFC] at h
    simp only [resolvedTypesOK]
    exact unresolvedList_implies_typesOKList ms h
  | .variant r p t o =>
    simp only [unresolvedFC, Bool.and_eq_true, Option.isNone_iff_eq_none] at h
    obtain ⟨⟨hp, ht⟩, ho⟩ := h
    simp only [resolvedTypesOK, ht, Bool.and_eq_true]
    exact ⟨trivial, unresolvedList_implies_typesOKList o ho⟩
  | .array e =>
    simp only [unresolvedFC] at h
    simp only [resolvedTypesOK]
    exact unresolved_implies_typesOK e h
  | .sequence r p l e =>
    simp only [unresolvedFC, Bool.and_eq_true, Option.isNone_iff_eq_none] at h
    obtain ⟨⟨hp, hl⟩, he⟩ := h
    simp only [resolvedTypesOK, hl, Bool.and_eq_true]
    exact ⟨trivial, unresolved_implies_typesOK e he⟩

theorem unresolvedList_implies_typesOKList :
    ∀ ms, unresolvedList ms = true → resolvedTypesOKList ms = true := by
  intro ms h
  match ms with
  | [] => rfl
  | (n, f) :: rest =>
    simp only [unresolvedList, Bool.and_eq_true] at h
    simp only [resolvedTypesOKList, Bool.and_eq_true]
    exact ⟨unresolved_implies_typesOK f h.1, unresolvedList_implies_typesOKList rest h.2⟩

end

theorem validate_ok_types :
    ∀ (target : FieldPath) (targetFc : FieldClass) (ctx : ResolveContext),
      validateTargetFieldPath target targetFc ctx = .ok () →
      (∀ r p t o, ctx.curFc = some (.variant r p t o) → isEnumClass targetFc = true) ∧
        (∀ r p l e, ctx.curFc = some (.sequence r p l e) →
          isUnsignedIntClass targetFc = true) := by
  intro target targetFc ctx h
  constructor
  · intro r p t o hc
    simp only [validateTargetFieldPath, hc] at h
    repeat' split at h
    all_goals simp_all [isEnumClass]
  · intro r p l e hc
    simp only [validateTargetFieldPath, hc] at h
    repeat' split at h
    all_goals simp_all [isUnsignedIntClass]

theorem resolveSeqVar_types :
    ∀ (fc : FieldClass) (ctx : ResolveContext) (fp : FieldPath) (tfc : FieldClass),
      ctx.curFc = some fc →
      resolveSequenceOrVariantFieldClass fc ctx = .ok (fp, tfc) →
      ((∃ r p t o, fc = .variant r p t o) → isEnumClass tfc = true) ∧
        ((∃ r p l e, fc = .sequence r p l e) → isUnsignedIntClass tfc = true) := by
  intro fc ctx fp tfc hcur h
  simp only [resolveSequenceOrVariantFieldClass] at h
  have main :
      ∀ pathstr,
        (match pathstrToFieldPath pathstr ctx with
          | Except.error _ => Except.error ()
          | Except.ok targetFieldPath =>
            match fieldPathToFieldClass targetFieldPath ctx with
            | none => Except.error ()
            | some targetFc =>
              match validateTargetFieldPath targetFieldPath targetFc ctx with
              | Except.error _ => Except.error ()
              | Except.ok _ => Except.ok (targetFieldPath, targetFc)) =
          Except.ok (fp, tfc) →
        validateTargetFieldPath fp tfc ctx = .ok () := by
    intro pathstr hm
    cases h1 : pathstrToFieldPath pathstr ctx with
    | error e => rw [h1] at hm; simp at hm
    | ok tp =>
      rw [h1] at hm
      dsimp only [] at hm
      cases h2 : fieldPathToFieldClass tp ctx with
      | none => rw [h2] at hm; simp at hm
      | some tf =>
        rw [h2] at hm
        dsimp only [] at hm
        cases h3 : validateTargetFieldPath tp tf ctx with
        | error e => rw [h3] at hm; simp at hm
        | ok u =>
          rw [h3] at hm
          simp only [Except.ok.injEq, Prod.mk.injEq] at hm
          obtain ⟨htp, htf⟩ := hm
          subst htp htf
          cases u
          exact h3
  match fc with
  | .int b => simp at h
  | .enum b => simp at h
  | .float => simp at h
  | .str => simp at h
  | .strct ms => simp at h
  | .array e => simp at h
  | .variant r p t o =>
    dsimp only [] at h
    have hv := main r h
    have hts := validate_ok_types fp tfc ctx hv
    refine ⟨fun _ => hts.1 r p t o hcur, fun hex => ?_⟩
    obtain ⟨r1, p1, l1, e1, h1⟩ := hex
    simp at h1
  | .sequence lr lp lf e =>
    dsimp only [] at h
    have hv := main lr h
    have hts := validate_ok_types fp tfc ctx hv
    refine ⟨fun hex => ?_, fun _ => hts.2 lr lp lf e hcur⟩
    obtain ⟨r1, p1, t1, o1, h1⟩ := hex
    simp at h1

mutual

theorem resolveFieldClassCore_types :
    ∀ (fc : FieldClass) (ctx : ResolveContext) (out : FieldClass × ResolveContext),
      resolveFieldClassCore ctx fc = .ok out → resolvedTypesOK out.1 = true := by
  intro fc ctx out h
  match fc with
  | .int b => simp only [resolveFieldClassCore] at h; cases h; rfl
  | .enum b => simp only [resolveFieldClassCore] at h; cases h; rfl
  | .float => simp only [resolveFieldClassCore] at h; cases h; rfl
  | .str => simp only [resolveFieldClassCore] at h; cases h; rfl
  | .strct ms =>
    simp only [resolveFieldClassCore] at h
    cases hk : resolveCompoundChildren
        { ctx with
          curFc := some (.strct ms),
          fieldClassStack := fieldClassStackPush ctx.fieldClassStack (.strct ms) } 0 ms with
    | error e => rw [hk] at h; exact absurd h (by simp)
    | ok p =>
      rw [hk] at h
      cases h
      simpa [resolvedTypesOK] using resolveCompoundChildren_types ms _ 0 p hk
  | .array e =>
    simp only [resolveFieldClassCore] at h
    cases hk : resolveFieldClassCore
        { ctx with
          curFc := some (.array e),
          fieldClassStack :=
            fieldClassStackSetTopIndex
              (fieldClassStackPush ctx.fieldClassStack (.array e)) (-1) } e with
    | error er => rw [hk] at h; exact absurd h (by simp)
    | ok p =>
      rw [hk] at h
      cases h
      simpa [resolvedTypesOK] using resolveFieldClassCore_types e _ p hk
  | .variant tr tp tf os =>
    simp only [resolveFieldClassCore] at h
    cases hv : resolveSequenceOrVariantFieldClass (.variant tr tp tf os)
        { ctx with curFc := some (.variant tr tp tf os) } with
    | error er => rw [hv] at h; exact absurd h (by simp)
    | ok pr =>
      obtain ⟨tfp, tfc⟩ := pr
      rw [hv] at h
      dsimp only [] at h
      cases hk : resolveCompoundChildren
          { ctx with
            curFc := some (.variant tr tp tf os),
            fieldClassStack :=
              fieldClassStackPush ctx.fieldClassStack (.variant tr tp tf os) } 0 os with
      | error er => rw [hk] at h; exact absurd h (by simp)
      | ok p =>
        rw [hk] at h
        cases h
        have htag := (resolveSeqVar_types (.variant tr tp tf os) _ tfp tfc rfl hv).1
          ⟨tr, tp, tf, os, rfl⟩
        have hkids := resolveCompoundChildren_types os _ 0 p hk
        simp [resolvedTypesOK, htag, hkids]
  | .sequence lr lp lf e =>
    simp only [resolveFieldClassCore] at h
    cases hv : resolveSequenceOrVariantFieldClass (.sequence lr lp lf e)
        { ctx with curFc := some (.sequence lr lp lf e) } with
    | error er => rw [hv] at h; exact absurd h (by simp)
    | ok pr =>
      obtain ⟨tfp, tfc⟩ := pr
      rw [hv] at h
      dsimp only [] at h
      cases hk : resolveFieldClassCore
          { ctx with
            curFc := some (.sequence lr lp lf e),
            fieldClassStack :=
              fieldClassStackSetTopIndex
                (fieldClassStackPush ctx.fieldClassStack
                  (.sequence lr lp lf e)) (-1) } e with
      | error er => rw [hk] at h; exact absurd h (by simp)
      | ok p =>
        rw [hk] at h
        cases h
        have hlen := (resolveSeqVar_types (.sequence lr lp lf e) _ tfp tfc rfl hv).2
          ⟨lr, lp, lf, e, rfl⟩
        have helem := resolveFieldClassCore_types e _ p hk
        simp [resolvedTypesOK, hlen, helem]

theorem resolveCompoundChildren_types :
    ∀ (kids : List (String × FieldClass)) (ctx : ResolveContext) (i : Nat)
      (out : List (String × FieldClass) × ResolveContext),
      resolveCompoundChildren ctx i kids = .ok out → resolvedTypesOKList out.1 = true := by
  intro kids ctx i out h
  match kids with
  | [] =>
    simp only [resolveCompoundChildren] at h
    cases h
    rfl
  | (name, childFc) :: rest =>
    simp only [resolveCompoundChildren] at h
    cases hc : resolveFieldClassCore
        { ctx with fieldClassStack := fieldClassStackSetTopIndex ctx.fieldClassStack i } childFc
        with
    | error er => rw [hc] at h; exact absurd h (by simp)
    | ok p =>
      obtain ⟨child2, ctx2⟩ := p
      rw [hc] at h
      dsimp only [] at h
      cases hr : resolveCompoundChildren ctx2 (i + 1) rest with
      | error er => rw [hr] at h; exact absurd h (by simp)
      | ok q =>
        obtain ⟨rest2, ctx3⟩ := q
        rw [hr] at h
        cases h
        have h1 := resolveFieldClassCore_types childFc _ (child2, ctx2) hc
        have h2 := resolveCompoundChildren_types rest ctx2 (i + 1) (rest2, ctx3) hr
        simp [resolvedTypesOKList, h1, h2]

end

theorem optFCHolds_of_unresolved :
    ∀ (ofc : Option FieldClass), optFCHolds unresolvedFC ofc = true →
      optFCHolds resolvedTypesOK ofc = true := by
  intro ofc h
  cases ofc with
  | none => rfl
  | some fc => exact unresolved_implies_typesOK fc h

theorem resolveRootClass_types :
    ∀ (rs : Scope) (ctx : ResolveContext) (out : Option FieldClass × ResolveContext),
      resolveRootClass rs ctx = .ok out → optFCHolds resolvedTypesOK out.1 = true := by
  intro rs ctx out h
  simp only [resolveRootClass] at h
  cases hc : resolveFieldClass
      { ctx with
        rootEntryStacks := ctx.rootEntryStacks ++ [ctx.fieldClassStack], rootScope := rs }
      (borrowClassFromCtx
        { ctx with
          rootEntryStacks := ctx.rootEntryStacks ++ [ctx.fieldClassStack], rootScope := rs }
        rs) with
  | error e => rw [hc] at h; exact absurd h (by simp)
  | ok p =>
    obtain ⟨ofc2, ctx2⟩ := p
    rw [hc] at h
    cases h
    cases hb : borrowClassFromCtx
        { ctx with
          rootEntryStacks := ctx.rootEntryStacks ++ [ctx.fieldClassStack], rootScope := rs }
        rs with
    | none =>
      rw [hb] at hc
      simp only [resolveFieldClass] at hc
      cases hc
      rfl
    | some fc =>
      rw [hb] at hc
      simp only [resolveFieldClass] at hc
      cases hcc : resolveFieldClassCore
          { ctx with
            rootEntryStacks := ctx.rootEntryStacks ++ [ctx.fieldClassStack], rootScope := rs }
          fc with
      | error e => rw [hcc] at hc; exact absurd hc (by simp)
      | ok q =>
        obtain ⟨fc2, ctx3⟩ := q
        rw [hcc] at hc
        simp only [Except.ok.injEq, Prod.mk.injEq] at hc
        obtain ⟨hfc, _⟩ := hc
        rw [← hfc]
        exact resolveFieldClassCore_types fc _ (fc2, ctx3) hcc

theorem resolveEventClassFieldClasses_types :
    ∀ (ctx : ResolveContext) (ec : EventClass) (out : EventClass × ResolveContext),
      resolveEventClassFieldClasses ctx ec = .ok out →
      eventClassFCs unresolvedFC ec = true →
      eventClassFCs resolvedTypesOK out.1 = true ∧
        out.2.scopes.packetHeader = ctx.scopes.packetHeader ∧
        out.2.scopes.packetContext = ctx.scopes.packetContext ∧
        out.2.scopes.eventHeader = ctx.scopes.eventHeader ∧
        (out.2.scopes.eventCommonContext = ctx.scopes.eventCommonContext ∨
          optFCHolds resolvedTypesOK out.2.scopes.eventCommonContext = true) := by
  intro ctx ec out h hu
  have huSpec : optFCHolds unresolvedFC ec.specContextFc = true := by
    simp only [eventClassFCs, Bool.and_eq_true] at hu
    exact hu.1
  have huPl : optFCHolds unresolvedFC ec.payloadFc = true := by
    simp only [eventClassFCs, Bool.and_eq_true] at hu
    exact hu.2
  simp only [resolveEventClassFieldClasses] at h
  split at h
  · cases h
    refine ⟨?_, rfl, rfl, rfl, Or.inl rfl⟩
    simp only [eventClassFCs, Bool.and_eq_true]
    exact ⟨optFCHolds_of_unresolved _ huSpec, optFCHolds_of_unresolved _ huPl⟩
  · cases hr1 : resolveRootClass .eventCommonContext
        { ctx with
          ecIsTranslated := some ec.isTranslated,
          scopes := { ctx.scopes with eventSpecContext := ec.specContextFc } } with
    | error e => rw [hr1] at h; exact absurd h (by simp)
    | ok p =>
      obtain ⟨ecc2, ctx2⟩ := p
      rw [hr1] at h
      dsimp only [] at h
      obtain ⟨_, hsc20, _, _, _, _⟩ := resolveRootClass_spec _ _ (ecc2, ctx2) hr1
      have hsc2 : ctx2.scopes = { ctx.scopes with eventSpecContext := ec.specContextFc } :=
        hsc20
      have hecc : optFCHolds resolvedTypesOK ecc2 = true :=
        resolveRootClass_types _ _ (ecc2, ctx2) hr1
      cases hr2 : resolveRootClass .eventPayload
          { ctx2 with
            scopes := { ctx2.scopes with
              eventCommonContext := ecc2, eventPayload := ec.payloadFc } } with
      | error e => rw [hr2] at h; exact absurd h (by simp)
      | ok q =>
        obtain ⟨pl2, ctx4⟩ := q
        rw [hr2] at h
        cases h
        obtain ⟨_, hsc40, _, _, _, _⟩ := resolveRootClass_spec _ _ (pl2, ctx4) hr2
        have hsc4 : ctx4.scopes = { ctx2.scopes with
            eventCommonContext := ecc2, eventPayload := ec.payloadFc } := hsc40
        have hpl : optFCHolds resolvedTypesOK pl2 = true :=
          resolveRootClass_types _ _ (pl2, ctx4) hr2
        refine ⟨?_, ?_, ?_, ?_, Or.inr ?_⟩
        · simp only [eventClassFCs, Bool.and_eq_true]
          exact ⟨optFCHolds_of_unresolved _ huSpec, hpl⟩
        · show ctx4.scopes.packetHeader = ctx.scopes.packetHeader
          rw [hsc4]; dsimp only []; rw [hsc2]
        · show ctx4.scopes.packetContext = ctx.scopes.packetContext
          rw [hsc4]; dsimp only []; rw [hsc2]
        · show ctx4.scopes.eventHeader = ctx.scopes.eventHeader
          rw [hsc4]; dsimp only []; rw [hsc2]
        · show optFCHolds resolvedTypesOK ctx4.scopes.eventCommonContext = true
          rw [hsc4]
          exact hecc

theorem resolveEventClassesLoop_types :
    ∀ (ecs : List EventClass) (ctx : ResolveContext) (out : List EventClass × ResolveContext),
      resolveEventClassesLoop ctx ecs = .ok out →
      ecs.all (eventClassFCs unresolvedFC) = true →
      out.1.all (eventClassFCs resolvedTypesOK) = true ∧
        out.2.scopes.packetHeader = ctx.scopes.packetHeader ∧
        out.2.scopes.packetContext = ctx.scopes.packetContext ∧
        out.2.scopes.eventHeader = ctx.scopes.eventHeader ∧
        (out.2.scopes.eventCommonContext = ctx.scopes.eventCommonContext ∨
          optFCHolds resolvedTypesOK out.2.scopes.eventCommonContext = true) := by
  intro ecs
  induction ecs with
  | nil =>
    intro ctx out h hu
    simp only [resolveEventClassesLoop] at h
    cases h
    exact ⟨rfl, rfl, rfl, rfl, Or.inl rfl⟩
  | cons ec rest ih =>
    intro ctx out h hu
    simp only [List.all_cons, Bool.and_eq_true] at hu
    simp only [resolveEventClassesLoop] at h
    cases h1 : resolveEventClassFieldClasses ctx ec with
    | error e => rw [h1] at h; exact absurd h (by simp)
    | ok p =>
      obtain ⟨ec2, ctx2⟩ := p
      rw [h1] at h
      dsimp only [] at h
      cases h2 : resolveEventClassesLoop ctx2 rest with
      | error e => rw [h2] at h; exact absurd h (by simp)
      | ok q =>
        obtain ⟨rest2, ctx3⟩ := q
        rw [h2] at h
        cases h
        obtain ⟨hok1, hpH1, hpc1, heh1, hecc1⟩ :=
          resolveEventClassFieldClasses_types ctx ec (ec2, ctx2) h1 hu.1
        obtain ⟨hok2, hpH2, hpc2, heh2, hecc2⟩ := ih ctx2 (rest2, ctx3) h2 hu.2
        refine ⟨by simp [List.all_cons, hok1, hok2], by rw [hpH2, hpH1],
          by rw [hpc2, hpc1], by rw [heh2, heh1], ?_⟩
        cases hecc2 with
        | inr hR => exact Or.inr hR
        | inl hE =>
          cases hecc1 with
          | inl hE1 => exact Or.inl (hE.trans hE1)
          | inr hR1 => exact Or.inr (by rw [hE]; exact hR1)

theorem resolveStreamClassFieldClasses_types :
    ∀ (ctx : ResolveContext) (sc : StreamClass) (out : StreamClass × ResolveContext),
      resolveStreamClassFieldClasses ctx sc = .ok out →
      streamClassFCs unresolvedFC sc = true →
      streamClassFCs resolvedTypesOK out.1 = true ∧
        out.2.scopes.packetHeader = ctx.scopes.packetHeader := by
  intro ctx sc out h hu
  simp only [streamClassFCs, Bool.and_eq_true] at hu
  obtain ⟨⟨⟨huPc, huEh⟩, huEcc⟩, huEcs⟩ := hu
  have hloop :
      ∀ (ctx1 : ResolveContext),
        ctx1.scopes.packetHeader = ctx.scopes.packetHeader →
        optFCHolds resolvedTypesOK ctx1.scopes.packetContext = true →
        optFCHolds resolvedTypesOK ctx1.scopes.eventHeader = true →
        optFCHolds resolvedTypesOK ctx1.scopes.eventCommonContext = true →
        (match resolveEventClassesLoop ctx1 sc.eventClasses with
          | Except.error e => Except.error e
          | Except.ok (eventClasses2, ctx2) =>
            Except.ok ({ sc with
                packetContextFc := ctx2.scopes.packetContext,
                eventHeaderFc := ctx2.scopes.eventHeader,
                eventCommonContextFc := ctx2.scopes.eventCommonContext,
                eventClasses := eventClasses2 },
              { ctx2 with
                scopes := { ctx2.scopes with
                  packetContext := none, eventHeader := none, eventCommonContext := none },
                scIsTranslated := none })) = Except.ok out →
        streamClassFCs resolvedTypesOK out.1 = true ∧
          out.2.scopes.packetHeader = ctx.scopes.packetHeader := by
    intro ctx1 hpH hpc heh hecc hm
    cases hl : resolveEventClassesLoop ctx1 sc.eventClasses with
    | error e => rw [hl] at hm; exact absurd hm (by simp)
    | ok q =>
      obtain ⟨ecs2, ctx2⟩ := q
      rw [hl] at hm
      cases hm
      obtain ⟨hall, hpH2, hpc2, heh2, hecc2⟩ :=
        resolveEventClassesLoop_types sc.eventClasses ctx1 (ecs2, ctx2) hl huEcs
      constructor
      · show streamClassFCs resolvedTypesOK
          { sc with
            packetContextFc := ctx2.scopes.packetContext,
            eventHeaderFc := ctx2.scopes.eventHeader,
            eventCommonContextFc := ctx2.scopes.eventCommonContext,
            eventClasses := ecs2 } = true
        simp only [streamClassFCs, Bool.and_eq_true]
        refine ⟨⟨⟨by rw [hpc2]; exact hpc, by rw [heh2]; exact heh⟩, ?_⟩, hall⟩
        cases hecc2 with
        | inl hE => rw [hE]; exact hecc
        | inr hR => exact hR
      · show ctx2.scopes.packetHeader = ctx.scopes.packetHeader
        rw [hpH2, hpH]
  simp only [resolveStreamClassFieldClasses] at h
  by_cases hts : sc.isTranslated = true
  · rw [if_pos hts] at h
    dsimp only [] at h
    exact hloop
      { ctx with
        scIsTranslated := some sc.isTranslated,
        scopes := { ctx.scopes with
          packetContext := sc.packetContextFc,
          eventHeader := sc.eventHeaderFc,
          eventCommonContext := sc.eventCommonContextFc } }
      rfl (optFCHolds_of_unresolved _ huPc) (optFCHolds_of_unresolved _ huEh)
      (optFCHolds_of_unresolved _ huEcc) h
  · rw [if_neg hts] at h
    cases hr1 : resolveRootClass .packetContext
        { ctx with
          scIsTranslated := some sc.isTranslated,
          scopes := { ctx.scopes with packetContext := sc.packetContextFc } } with
    | error e => rw [hr1] at h; exact absurd h (by simp)
    | ok p1 =>
      obtain ⟨pc2, ctxB⟩ := p1
      rw [hr1] at h
      dsimp only [] at h
      obtain ⟨_, hscB0, _, _, _, _⟩ := resolveRootClass_spec _ _ (pc2, ctxB) hr1
      have hscB : ctxB.scopes = { ctx.scopes with packetContext := sc.packetContextFc } := hscB0
      have hpc2t : optFCHolds resolvedTypesOK pc2 = true :=
        resolveRootClass_types _ _ (pc2, ctxB) hr1
      cases hr2 : resolveRootClass .eventHeader
          { ctxB with
            scopes := { ctxB.scopes with
              packetContext := pc2, eventHeader := sc.eventHeaderFc } } with
      | error e => rw [hr2] at h; exact absurd h (by simp)
      | ok p2 =>
        obtain ⟨eh2, ctxC⟩ := p2
        rw [hr2] at h
        dsimp only [] at h
        obtain ⟨_, hscC0, _, _, _, _⟩ := resolveRootClass_spec _ _ (eh2, ctxC) hr2
        have hscC : ctxC.scopes = { ctxB.scopes with
            packetContext := pc2, eventHeader := sc.eventHeaderFc } := hscC0
        have heh2t : optFCHolds resolvedTypesOK eh2 = true :=
          resolveRootClass_types _ _ (eh2, ctxC) hr2
        cases hr3 : resolveRootClass .eventCommonContext
            { ctxC with
              scopes := { ctxC.scopes with
                eventHeader := eh2, eventCommonContext := sc.eventCommonContextFc } } with
        | error e => rw [hr3] at h; exact absurd h (by simp)
        | ok p3 =>
          obtain ⟨ecc2, ctxD⟩ := p3
          rw [hr3] at h
          dsimp only [] at h
          obtain ⟨_, hscD0, _, _, _, _⟩ := resolveRootClass_spec _ _ (ecc2, ctxD) hr3
          have hscD : ctxD.scopes = { ctxC.scopes with
              eventHeader := eh2, eventCommonContext := sc.eventCommonContextFc } := hscD0
          have hecc2t : optFCHolds resolvedTypesOK ecc2 = true :=
            resolveRootClass_types _ _ (ecc2, ctxD) hr3
          exact hloop
            { ctxD with scopes := { ctxD.scopes with eventCommonContext := ecc2 } }
            (by simp [hscD, hscC, hscB])
            (by simp only []; simp [hscD, hscC]; exact hpc2t)
            (by simp only []; simp [hscD]; exact heh2t)
            (by simp only []; exact hecc2t)
            h

theorem resolveStreamClassesLoop_types :
    ∀ (scs : List StreamClass) (ctx : ResolveContext) (out : List StreamClass × ResolveContext),
      resolveStreamClassesLoop ctx scs = .ok out →
      scs.all (streamClassFCs unresolvedFC) = true →
      out.1.all (streamClassFCs resolvedTypesOK) = true ∧
        out.2.scopes.packetHeader = ctx.scopes.packetHeader := by
  intro scs
  induction scs with
  | nil =>
    intro ctx out h hu
    simp only [resolveStreamClassesLoop] at h
    cases h
    exact ⟨rfl, rfl⟩
  | cons sc rest ih =>
    intro ctx out h hu
    simp only [List.all_cons, Bool.and_eq_true] at hu
    simp only [resolveStreamClassesLoop] at h
    cases h1 : resolveStreamClassFieldClasses ctx sc with
    | error e => rw [h1] at h; exact absurd h (by simp)
    | ok p =>
      obtain ⟨sc2, ctx2⟩ := p
      rw [h1] at h
      dsimp only [] at h
      cases h2 : resolveStreamClassesLoop ctx2 rest with
      | error e => rw [h2] at h; exact absurd h (by simp)
      | ok q =>
        obtain ⟨rest2, ctx3⟩ := q
        rw [h2] at h
        cases h
        obtain ⟨hok1, hpH1⟩ := resolveStreamClassFieldClasses_types ctx sc (sc2, ctx2) h1 hu.1
        obtain ⟨hok2, hpH2⟩ := ih ctx2 (rest2, ctx3) h2 hu.2
        exact ⟨by simp [List.all_cons, hok1, hok2], by rw [hpH2, hpH1]⟩

/-- C4: on any freshly parsed trace class (every reference still
unresolved) for which `ctf_trace_class_resolve_field_classes` succeeds,
the output satisfies the type invariant — every variant node's resolved
tag class is an enumeration, every sequence node's resolved length class
is an unsigned integer — and, conversely, when the located target of a
variant tag is not an enumeration, or the located target of a sequence
length is not an unsigned integer, `validate_target_field_path` rejects
it (so resolution fails with an error). -/
theorem c4_resolved_reference_types :
    (∀ (tc : TraceClass) (out : TraceClass × List (List Frame)),
        traceClassFCs unresolvedFC tc = true →
        ctfTraceClassResolveFieldClasses tc = .ok out →
        traceClassFCs resolvedTypesOK out.1 = true) ∧
      (∀ (ctx : ResolveContext) (fp : FieldPath) (tfc : FieldClass),
        (∃ r p t o, ctx.curFc = some (.variant r p t o)) →
        isEnumClass tfc = false →
        validateTargetFieldPath fp tfc ctx ≠ .ok ()) ∧
      (∀ (ctx : ResolveContext) (fp : FieldPath) (tfc : FieldClass),
        (∃ r p l e, ctx.curFc = some (.sequence r p l e)) →
        isUnsignedIntClass tfc = false →
        validateTargetFieldPath fp tfc ctx ≠ .ok ()) := by
  refine ⟨?_, ?_, ?_⟩
  · intro tc out hu h
    simp only [traceClassFCs, Bool.and_eq_true] at hu
    obtain ⟨huPh, huScs⟩ := hu
    simp only [ctfTraceClassResolveFieldClasses] at h
    have hloop :
        ∀ (ctx1 : ResolveContext),
          optFCHolds resolvedTypesOK ctx1.scopes.packetHeader = true →
          (match resolveStreamClassesLoop ctx1 tc.streamClasses with
            | Except.error e => Except.error e
            | Except.ok (streamClasses2, ctx2) =>
              Except.ok ({ tc with
                  packetHeaderFc := ctx2.scopes.packetHeader,
                  streamClasses := streamClasses2 },
                ctx2.rootEntryStacks)) = Except.ok out →
          traceClassFCs resolvedTypesOK out.1 = true := by
      intro ctx1 hpH hm
      cases hl : resolveStreamClassesLoop ctx1 tc.streamClasses with
      | error e => rw [hl] at hm; exact absurd hm (by simp)
      | ok q =>
        obtain ⟨scs2, ctx2⟩ := q
        rw [hl] at hm
        cases hm
        obtain ⟨hall, hpH2⟩ :=
          resolveStreamClassesLoop_types tc.streamClasses ctx1 (scs2, ctx2) hl huScs
        show traceClassFCs resolvedTypesOK
          { tc with packetHeaderFc := ctx2.scopes.packetHeader, streamClasses := scs2 } = true
        simp only [traceClassFCs, Bool.and_eq_true]
        exact ⟨by rw [hpH2]; exact hpH, hall⟩
    by_cases hts : tc.isTranslated = true
    · rw [if_pos hts] at h
      dsimp only [] at h
      exact hloop _ (optFCHolds_of_unresolved _ huPh) h
    · rw [if_neg hts] at h
      cases hr : resolveRootClass .packetHeader
          { tcIsTranslated := tc.isTranslated, scIsTranslated := none, ecIsTranslated := none,
            scopes := ⟨tc.packetHeaderFc, none, none, none, none, none⟩,
            rootScope := .packetHeader, fieldClassStack := [], curFc := none,
            rootEntryStacks := [] } with
      | error e => rw [hr] at h; exact absurd h (by simp)
      | ok p =>
        obtain ⟨ph2, ctx1⟩ := p
        rw [hr] at h
        dsimp only [] at h
        have hph2t : optFCHolds resolvedTypesOK ph2 = true :=
          resolveRootClass_types _ _ (ph2, ctx1) hr
        exact hloop { ctx1 with scopes := { ctx1.scopes with packetHeader := ph2 } }
          (by simp only []; exact hph2t) h
  · intro ctx fp tfc hex hen hok
    obtain ⟨r, p, t, o, hc⟩ := hex
    have := (validate_ok_types fp tfc ctx hok).1 r p t o hc
    rw [this] at hen
    exact absurd hen (by simp)
  · intro ctx fp tfc hex hun hok
    obtain ⟨r, p, l, e, hc⟩ := hex
    have := (validate_ok_types fp tfc ctx hok).2 r p l e hc
    rw [this] at hun
    exact absurd hun (by simp)

theorem c4_resolved_reference_types_witness :
    (traceClassFCs unresolvedFC ⟨false, none, []⟩ = true ∧
        ctfTraceClassResolveFieldClasses ⟨false, none, []⟩ = .ok (⟨false, none, []⟩, [[]]) ∧
        traceClassFCs resolvedTypesOK ⟨false, none, []⟩ = true) ∧
      (isEnumClass (.int false) = false ∧
        validateTargetFieldPath ⟨.eventPayload, [0]⟩ (.int false)
          ⟨false, none, none, ⟨none, none, none, none, none, none⟩, .unknown, [],
            some (.variant "t" none none []), []⟩ ≠ .ok ()) ∧
      (isUnsignedIntClass (.int true) = false ∧
        validateTargetFieldPath ⟨.eventPayload, [0]⟩ (.int true)
          ⟨false, none, none, ⟨none, none, none, none, none, none⟩, .unknown, [],
            some (.sequence "len" none none (.int false)), []⟩ ≠ .ok ()) :=
  ⟨⟨rfl, rfl, c4_resolved_reference_types.1 ⟨false, none, []⟩ (⟨false, none, []⟩, [[]]) rfl rfl⟩,
    ⟨rfl, c4_resolved_reference_types.2.1 _ _ _ ⟨"t", none, none, [], rfl⟩ rfl⟩,
    ⟨rfl, c4_resolved_reference_types.2.2 _ _ _ ⟨"len", none, none, .int false, rfl⟩ rfl⟩⟩

/-! ## C7: idempotence.  Erase-invariance of every read the resolver
performs, leading to the rerun property. -/

theorem eraseList_eq_map :
    ∀ ms : List (String × FieldClass), eraseList ms = ms.map (fun p => (p.1, eraseFC p.2)) := by
  intro ms
  induction ms with
  | nil => rfl
  | cons p rest ih => cases p; simp [eraseList, ih]

theorem findIdx_eraseList (name : String) :
    ∀ ms : List (String × FieldClass),
      (eraseList ms).findIdx? (fun p => p.1 == name) = ms.findIdx? (fun p => p.1 == name) := by
  intro ms
  rw [eraseList_eq_map]
  induction ms with
  | nil => rfl
  | cons p rest ih =>
    cases p with
    | mk n f =>
      by_cases hn : n == name
      · simp [List.findIdx?_cons, hn]
      · simp only [List.map_cons, List.findIdx?_cons, hn, cond_false]
        simp [ih]

theorem getIndex_erase (fc : FieldClass) (name : String) :
    getFieldClassIndexFromOrigName (eraseFC fc) name =
      getFieldClassIndexFromOrigName fc name := by
  match fc with
  | .int b => rfl
  | .enum b => rfl
  | .float => rfl
  | .str => rfl
  | .strct ms =>
    simp only [eraseFC, getFieldClassIndexFromOrigName, findIdx_eraseList]
  | .variant r p t os =>
    simp only [eraseFC, getFieldClassIndexFromOrigName, findIdx_eraseList]
  | .array e => rfl
  | .sequence r p l e => rfl

theorem get_eraseList :
    ∀ (ms : List (String × FieldClass)) (n : Nat),
      (eraseList ms).get? n = (ms.get? n).map (fun p => (p.1, eraseFC p.2)) := by
  intro ms
  rw [eraseList_eq_map]
  intro n
  simp [List.get?_map]

theorem borrow_erase (fc : FieldClass) (i : Int) :
    borrowFieldClassByIndex (eraseFC fc) i = eraseOpt (borrowFieldClassByIndex fc i) := by
  match fc with
  | .int b => rfl
  | .enum b => rfl
  | .float => rfl
  | .str => rfl
  | .strct ms =>
    simp only [eraseFC, borrowFieldClassByIndex]
    by_cases hi : i < 0
    · simp [hi, eraseOpt]
    · simp only [hi, if_false, get_eraseList]
      cases ms.get? i.toNat <;> simp [eraseOpt]
  | .variant r p t os =>
    simp only [eraseFC, borrowFieldClassByIndex]
    by_cases hi : i < 0
    · simp [hi, eraseOpt]
    · simp only [hi, if_false, get_eraseList]
      cases os.get? i.toNat <;> simp [eraseOpt]
  | .array e => rfl
  | .sequence r p l e => rfl

theorem locateOne_erase :
    ∀ (fc : FieldClass) (nm : String) (s : Int) (d : Bool),
      locateOne (eraseFC fc) nm s d =
        (locateOne fc nm s d).map (fun r => (r.1, eraseFC r.2.1, r.2.2)) := by
  intro fc nm s d
  match fc with
  | .array e =>
    simp only [eraseFC, locateOne, locateOne_erase e nm s d]
    cases locateOne e nm s d <;> rfl
  | .sequence r p l e =>
    simp only [eraseFC, locateOne, locateOne_erase e nm s d]
    cases locateOne e nm s d <;> rfl
  | .int b => rfl
  | .enum b => rfl
  | .float => rfl
  | .str => rfl
  | .strct ms =>
    have hg : getFieldClassIndexFromOrigName (.strct (eraseList ms)) nm =
        getFieldClassIndexFromOrigName (.strct ms) nm := getIndex_erase (.strct ms) nm
    have hb : ∀ i, borrowFieldClassByIndex (.strct (eraseList ms)) i =
        eraseOpt (borrowFieldClassByIndex (.strct ms) i) := fun i => borrow_erase (.strct ms) i
    simp only [locateOne, eraseFC, hg, hb]
    by_cases h1 : getFieldClassIndexFromOrigName (.strct ms) nm < 0
    · simp [h1]
    · by_cases h2 : (decide (getFieldClassIndexFromOrigName (.strct ms) nm > s) && !d) = true
      · simp [h1, h2]
      · simp only [h1, h2, if_false]
        cases borrowFieldClassByIndex (.strct ms)
            (getFieldClassIndexFromOrigName (.strct ms) nm) <;> simp [eraseOpt]
  | .variant r p t os =>
    have hg : getFieldClassIndexFromOrigName (.variant r none none (eraseList os)) nm =
        getFieldClassIndexFromOrigName (.variant r p t os) nm :=
      getIndex_erase (.variant r p t os) nm
    have hb : ∀ i, borrowFieldClassByIndex (.variant r none none (eraseList os)) i =
        eraseOpt (borrowFieldClassByIndex (.variant r p t os) i) :=
      fun i => borrow_erase (.variant r p t os) i
    simp only [locateOne, eraseFC, hg, hb]
    by_cases h1 : getFieldClassIndexFromOrigName (.variant r p t os) nm < 0
    · simp [h1]
    · by_cases h2 : (decide (getFieldClassIndexFromOrigName (.variant r p t os) nm > s) && !d)
          = true
      · simp [h1, h2]
      · simp only [h1, h2, if_false]
        cases borrowFieldClassByIndex (.variant r p t os)
            (getFieldClassIndexFromOrigName (.variant r p t os) nm) <;> simp [eraseOpt]

theorem ptokensAux_erase :
    ∀ (toks : List String) (fc : FieldClass) (s : Int) (d : Bool),
      ptokensToFieldPathAux toks (eraseFC fc) s d = ptokensToFieldPathAux toks fc s d := by
  intro toks
  induction toks with
  | nil => intro fc s d; rfl
  | cons nm rest ih =>
    intro fc s d
    simp only [ptokensToFieldPathAux, locateOne_erase]
    cases hl : locateOne fc nm s d with
    | none => rfl
    | some r =>
      obtain ⟨idxs, childFc, fld⟩ := r
      show Option.map (fun tail => idxs ++ tail)
          (ptokensToFieldPathAux rest (eraseFC childFc) s fld) =
        Option.map (fun tail => idxs ++ tail) (ptokensToFieldPathAux rest childFc s fld)
      rw [ih childFc s fld]

theorem ptokens_param {a b : FieldClass} (hab : eraseFC a = eraseFC b) :
    ∀ (toks : List String) (s : Int),
      ptokensToFieldPath toks a s = ptokensToFieldPath toks b s := by
  intro toks s
  unfold ptokensToFieldPath
  rw [← ptokensAux_erase toks a, hab, ptokensAux_erase toks b]

theorem erase_shape_int {x : FieldClass} {b : Bool} (h : eraseFC x = .int b) : x = .int b := by
  cases x <;> simp [eraseFC] at h <;> simp [h]

theorem erase_shape_enum {x : FieldClass} {b : Bool} (h : eraseFC x = .enum b) :
    x = .enum b := by
  cases x <;> simp [eraseFC] at h <;> simp [h]

theorem erase_shape_variant {x : FieldClass} {r : String} {a : Option FieldPath}
    {b : Option FieldClass} {c : List (String × FieldClass)}
    (h : eraseFC x = .variant r a b c) :
    ∃ p t os, x = .variant r p t os ∧ eraseList os = c := by
  cases x <;> simp [eraseFC] at h
  case variant r' p' t' os' =>
    exact ⟨p', t', os', by simp [h.1], h.2.2.2⟩

theorem erase_shape_sequence {x : FieldClass} {r : String} {a : Option FieldPath}
    {b : Option FieldClass} {e : FieldClass}
    (h : eraseFC x = .sequence r a b e) :
    ∃ p l e', x = .sequence r p l e' ∧ eraseFC e' = e := by
  cases x <;> simp [eraseFC] at h
  case sequence r' p' l' e'' =>
    exact ⟨p', l', e'', by simp [h.1], h.2.2.2⟩

theorem eraseOpt_none {o : Option FieldClass} (h : eraseOpt o = none) : o = none := by
  cases o with
  | none => rfl
  | some f => simp [eraseOpt] at h

theorem eraseOpt_some {o : Option FieldClass} {f : FieldClass} (h : eraseOpt o = some f) :
    ∃ g, o = some g ∧ eraseFC g = f := by
  cases o with
  | none => simp [eraseOpt] at h
  | some g =>
    exact ⟨g, rfl, by simpa [eraseOpt] using h⟩

theorem walk_erase :
    ∀ (l : List Int) (ofc : Option FieldClass),
      walkFieldPath (eraseOpt ofc) l = eraseOpt (walkFieldPath ofc l) := by
  intro l
  induction l with
  | nil =>
    intro ofc
    cases ofc <;> rfl
  | cons i rest ih =>
    intro ofc
    cases ofc with
    | none => rfl
    | some fc =>
      show walkFieldPath (borrowFieldClassByIndex (eraseFC fc) i) rest = _
      rw [borrow_erase, ih]
      rfl

theorem mapErase_length {s1 s2 : List Frame}
    (h : s2.map eraseFrame = s1.map eraseFrame) : s2.length = s1.length := by
  have := congrArg List.length h
  simpa using this

theorem getD_map_eraseFrame :
    ∀ (l : List Frame) (k : Nat) (d : Frame),
      (l.map eraseFrame).getD k (eraseFrame d) = eraseFrame (l.getD k d) := by
  intro l
  induction l with
  | nil => intro k d; cases k <;> rfl
  | cons f rest ih =>
    intro k d
    cases k with
    | zero => rfl
    | succ j => simpa [List.getD_cons_succ] using ih j d

theorem mapErase_getD {s1 s2 : List Frame}
    (h : s2.map eraseFrame = s1.map eraseFrame) (k : Nat) (hk : k < s1.length)
    (d : Frame) :
    (s2.getD k d).index = (s1.getD k d).index ∧
      eraseFC (s2.getD k d).fc = eraseFC (s1.getD k d).fc := by
  have h2 : (s2.map eraseFrame).getD k (eraseFrame d) =
      (s1.map eraseFrame).getD k (eraseFrame d) := by rw [h]
  rw [getD_map_eraseFrame, getD_map_eraseFrame] at h2
  constructor
  · simpa [eraseFrame] using congrArg Frame.index h2
  · simpa [eraseFrame] using congrArg (fun f => f.fc) h2

theorem mapErase_mapIndex {s1 s2 : List Frame}
    (h : s2.map eraseFrame = s1.map eraseFrame) :
    s2.map (·.index) = s1.map (·.index) := by
  have h2 := congrArg (List.map Frame.index) h
  simpa [List.map_map, Function.comp, eraseFrame] using h2

theorem setTop_map_fc :
    ∀ (s : List Frame) (i : Int),
      (fieldClassStackSetTopIndex s i).map (·.fc) = s.map (·.fc) := by
  intro s
  induction s with
  | nil => intro i; rfl
  | cons f rest ih =>
    intro i
    cases rest with
    | nil => rfl
    | cons g rs =>
      simp only [fieldClassStackSetTopIndex, List.map_cons]
      rw [ih i]
      rfl

theorem shrinking_iff_map (s : List Frame) :
    framesStrictlyShrinking s ↔
      List.Pairwise (fun a b => sizeOf b < sizeOf a) (s.map (·.fc)) := by
  rw [framesStrictlyShrinking, List.pairwise_map]

theorem setTop_shrinking {s : List Frame} {i : Int}
    (h : framesStrictlyShrinking s) :
    framesStrictlyShrinking (fieldClassStackSetTopIndex s i) := by
  rw [shrinking_iff_map, setTop_map_fc]
  exact (shrinking_iff_map s).mp h

theorem shrinking_append_singleton {s : List Frame} {f : Frame} :
    framesStrictlyShrinking (s ++ [f]) ↔
      framesStrictlyShrinking s ∧ ∀ g ∈ s, sizeOf f.fc < sizeOf g.fc := by
  unfold framesStrictlyShrinking
  rw [List.pairwise_append]
  constructor
  · rintro ⟨h1, _, h3⟩
    exact ⟨h1, fun g hg => h3 g hg f (by simp)⟩
  · rintro ⟨h1, h2⟩
    exact ⟨h1, by simp, fun a ha b hb => by
      have : b = f := by simpa using hb
      subst this
      exact h2 a ha⟩

theorem shrinking_pairwise_feq_false {s : List Frame}
    (h : framesStrictlyShrinking s) :
    List.Pairwise (fun a b => feq a.fc b.fc = false) s :=
  h.imp (fun hlt => feq_eq_false_of_sizeOf_ne (by omega))

theorem setTop_mem_fc {s : List Frame} {i : Int} {g : Frame}
    (hg : g ∈ fieldClassStackSetTopIndex s i) : ∃ g', g' ∈ s ∧ g.fc = g'.fc := by
  have : g.fc ∈ (fieldClassStackSetTopIndex s i).map (·.fc) := List.mem_map_of_mem _ hg
  rw [setTop_map_fc] at this
  obtain ⟨g', hg', he⟩ := List.mem_map.mp this
  exact ⟨g', hg', he.symm⟩

theorem sizeOf_member_strct :
    ∀ (ms : List (String × FieldClass)) (p : String × FieldClass), p ∈ ms →
      sizeOf p.2 < sizeOf (FieldClass.strct ms) := by
  intro ms p hp
  have h1 : sizeOf p < sizeOf ms := List.sizeOf_lt_of_mem hp
  cases p with
  | mk n f =>
    simp only [Prod.mk.sizeOf_spec] at h1
    simp only [FieldClass.strct.sizeOf_spec]
    omega

theorem sizeOf_member_variant :
    ∀ (r : String) (tp : Option FieldPath) (tf : Option FieldClass)
      (os : List (String × FieldClass)) (p : String × FieldClass), p ∈ os →
      sizeOf p.2 < sizeOf (FieldClass.variant r tp tf os) := by
  intro r tp tf os p hp
  have h1 : sizeOf p < sizeOf os := List.sizeOf_lt_of_mem hp
  cases p with
  | mk n f =>
    simp only [Prod.mk.sizeOf_spec] at h1
    simp only [FieldClass.variant.sizeOf_spec]
    omega

theorem sizeOf_elem_array (e : FieldClass) : sizeOf e < sizeOf (FieldClass.array e) := by
  simp only [FieldClass.array.sizeOf_spec]
  omega

theorem sizeOf_elem_sequence (r : String) (lp : Option FieldPath) (lf : Option FieldClass)
    (e : FieldClass) : sizeOf e < sizeOf (FieldClass.sequence r lp lf e) := by
  simp only [FieldClass.sequence.sizeOf_spec]
  omega

theorem pairwise_getD_feq_false {s : List Frame}
    (hp : List.Pairwise (fun a b => feq a.fc b.fc = false) s) {i k : Nat}
    (hik : i < k) (hk : k < s.length) :
    feq ((s.getD i ⟨.str, 0⟩).fc) ((s.getD k ⟨.str, 0⟩).fc) = false := by
  have := List.pairwise_iff_getElem.mp hp i k (by omega) hk hik
  rwa [List.getD_eq_getElem s _ (by omega), List.getD_eq_getElem s _ hk]

theorem relativeLoop_param :
    ∀ (n : Nat) (toks : List String) (s1 s2 : List Frame),
      s2.map eraseFrame = s1.map eraseFrame →
      n ≤ s1.length →
      List.Pairwise (fun a b => feq a.fc b.fc = false) s1 →
      List.Pairwise (fun a b => feq a.fc b.fc = false) s2 →
      relativeLoop toks s2 n = relativeLoop toks s1 n := by
  intro n
  induction n with
  | zero => intro toks s1 s2 _ _ _ _; rfl
  | succ k ih =>
    intro toks s1 s2 h hn hp1 hp2
    have hlen2 : s2.length = s1.length := mapErase_length h
    obtain ⟨hidx, hfcE⟩ := mapErase_getD h k (by omega) ⟨.str, 0⟩
    have hpt : ptokensToFieldPath toks (s2.getD k ⟨.str, 0⟩).fc
        ((s2.getD k ⟨.str, 0⟩).index) =
        ptokensToFieldPath toks (s1.getD k ⟨.str, 0⟩).fc
          ((s1.getD k ⟨.str, 0⟩).index) := by
      rw [hidx, ptokens_param hfcE]
    simp only [relativeLoop]
    rw [hpt]
    cases hres : ptokensToFieldPath toks (s1.getD k ⟨.str, 0⟩).fc
        ((s1.getD k ⟨.str, 0⟩).index) with
    | none => exact ih toks s1 s2 h (by omega) hp1 hp2
    | some tail =>
      have hst1 := stitchHead_eq_take s1 k (by omega)
        (fun i hi => pairwise_getD_feq_false hp1 hi (by omega))
      have hst2 := stitchHead_eq_take s2 k (by omega)
        (fun i hi => pairwise_getD_feq_false hp2 hi (by omega))
      rw [hst1, hst2]
      have htk : (s2.take k).map (·.index) = (s1.take k).map (·.index) := by
        rw [List.map_take, List.map_take, mapErase_mapIndex h]
      rw [htk]

theorem borrowSlot_param {a b : ResolveContext}
    (h : eraseScopes a.scopes = eraseScopes b.scopes) (rs : Scope) :
    eraseOpt (borrowClassFromCtx a rs) = eraseOpt (borrowClassFromCtx b rs) := by
  cases rs
  case packetHeader => exact congrArg ScopeClasses.packetHeader h
  case packetContext => exact congrArg ScopeClasses.packetContext h
  case eventHeader => exact congrArg ScopeClasses.eventHeader h
  case eventCommonContext => exact congrArg ScopeClasses.eventCommonContext h
  case eventSpecContext => exact congrArg ScopeClasses.eventSpecContext h
  case eventPayload => exact congrArg ScopeClasses.eventPayload h
  case unknown => rfl

theorem absolute_param (toks : List String) (root : Scope) (a b : ResolveContext)
    (htc : a.tcIsTranslated = b.tcIsTranslated) (hsc : a.scIsTranslated = b.scIsTranslated)
    (hec : a.ecIsTranslated = b.ecIsTranslated)
    (hs : eraseScopes a.scopes = eraseScopes b.scopes) :
    absolutePtokensToFieldPath toks root a = absolutePtokensToFieldPath toks root b := by
  unfold absolutePtokensToFieldPath
  rw [htc, hsc, hec]
  refine if_congr Iff.rfl rfl ?_
  cases hbb : borrowClassFromCtx b root with
  | none =>
    have hba : borrowClassFromCtx a root = none := by
      have hh := borrowSlot_param hs root
      rw [hbb] at hh
      exact eraseOpt_none hh
    rw [hba]
  | some fb =>
    have hh := borrowSlot_param hs root
    rw [hbb] at hh
    obtain ⟨fa, hfa, hfe⟩ := eraseOpt_some (show eraseOpt (borrowClassFromCtx a root)
      = some (eraseFC fb) from hh)
    rw [hfa]
    have hpt : ptokensToFieldPath (toks.drop (absolutePathPrefixPtokenCountFor root)) fa
        int64Max =
        ptokensToFieldPath (toks.drop (absolutePathPrefixPtokenCountFor root)) fb int64Max :=
      ptokens_param (by rw [hfe]) _ _
    simp only [hpt]

theorem pathstr_param (s : String) (a b : ResolveContext)
    (htc : a.tcIsTranslated = b.tcIsTranslated) (hsc : a.scIsTranslated = b.scIsTranslated)
    (hec : a.ecIsTranslated = b.ecIsTranslated)
    (hs : eraseScopes a.scopes = eraseScopes b.scopes)
    (hroot : a.rootScope = b.rootScope)
    (hstk : a.fieldClassStack.map eraseFrame = b.fieldClassStack.map eraseFrame)
    (hpa : List.Pairwise (fun x y => feq x.fc y.fc = false) a.fieldClassStack)
    (hpb : List.Pairwise (fun x y => feq x.fc y.fc = false) b.fieldClassStack) :
    pathstrToFieldPath s a = pathstrToFieldPath s b := by
  unfold pathstrToFieldPath
  cases hpt : pathstrToPtokens s with
  | none => rfl
  | some toks =>
    by_cases hu : getRootScopeFromAbsolutePathstr s = .unknown
    · simp only [hu, if_true, eq_self_iff_true, reduceIte]
      have hrel : relativePtokensToFieldPath toks a = relativePtokensToFieldPath toks b := by
        unfold relativePtokensToFieldPath
        rw [mapErase_length hstk]
        exact relativeLoop_param b.fieldClassStack.length toks b.fieldClassStack
          a.fieldClassStack hstk (by omega) hpb hpa
      rw [hrel, hroot]
    · simp only [hu, if_false, reduceIte]
      rw [absolute_param toks _ a b htc hsc hec hs]

theorem fptfc_param (fp : FieldPath) {a b : ResolveContext}
    (hs : eraseScopes a.scopes = eraseScopes b.scopes) :
    eraseOpt (fieldPathToFieldClass fp a) = eraseOpt (fieldPathToFieldClass fp b) := by
  unfold fieldPathToFieldClass
  rw [← walk_erase, ← walk_erase, borrowSlot_param hs]

theorem validate_ok_leaf {fp : FieldPath} {tfc : FieldClass} {ctx : ResolveContext}
    (h : validateTargetFieldPath fp tfc ctx = .ok ()) :
    (∃ b, tfc = .int b) ∨ (∃ b, tfc = .enum b) := by
  simp only [validateTargetFieldPath] at h
  repeat' split at h
  all_goals simp_all

theorem ctxStackPath_param {a b : ResolveContext} (hroot : a.rootScope = b.rootScope)
    (hstk : a.fieldClassStack.map eraseFrame = b.fieldClassStack.map eraseFrame) :
    getCtxStackFieldPath a = getCtxStackFieldPath b := by
  unfold getCtxStackFieldPath
  rw [hroot, mapErase_mapIndex hstk]

theorem validate_param_variant (fp : FieldPath) (tfc : FieldClass) (a b : ResolveContext)
    (hstack : getCtxStackFieldPath a = getCtxStackFieldPath b)
    {r : String} {p : Option FieldPath} {t : Option FieldClass} {os : List (String × FieldClass)}
    {r' : String} {p' : Option FieldPath} {t' : Option FieldClass}
    {os' : List (String × FieldClass)}
    (ha : a.curFc = some (.variant r p t os)) (hb : b.curFc = some (.variant r' p' t' os')) :
    validateTargetFieldPath fp tfc a = validateTargetFieldPath fp tfc b := by
  unfold validateTargetFieldPath
  rw [hstack, ha, hb]

theorem validate_param_sequence (fp : FieldPath) (tfc : FieldClass) (a b : ResolveContext)
    (hstack : getCtxStackFieldPath a = getCtxStackFieldPath b)
    {r : String} {p : Option FieldPath} {t : Option FieldClass} {e : FieldClass}
    {r' : String} {p' : Option FieldPath} {t' : Option FieldClass} {e' : FieldClass}
    (ha : a.curFc = some (.sequence r p t e)) (hb : b.curFc = some (.sequence r' p' t' e')) :
    validateTargetFieldPath fp tfc a = validateTargetFieldPath fp tfc b := by
  unfold validateTargetFieldPath
  rw [hstack, ha, hb]

theorem resolveSeqVar_param :
    ∀ (fc1 fc2 : FieldClass) (ctx1 ctx2 : ResolveContext) (fp : FieldPath) (tfc : FieldClass),
      resolveSequenceOrVariantFieldClass fc1 ctx1 = .ok (fp, tfc) →
      eraseFC fc2 = eraseFC fc1 →
      ctx1.curFc = some fc1 → ctx2.curFc = some fc2 →
      coreCtxRel ctx2 ctx1 →
      List.Pairwise (fun x y => feq x.fc y.fc = false) ctx1.fieldClassStack →
      List.Pairwise (fun x y => feq x.fc y.fc = false) ctx2.fieldClassStack →
      resolveSequenceOrVariantFieldClass fc2 ctx2 = .ok (fp, tfc) := by
  intro fc1 fc2 ctx1 ctx2 fp tfc h hfc hc1 hc2 hrel hp1 hp2
  obtain ⟨htc, hsc, hec, hscope, hroot, hstk⟩ := hrel
  have hps : ∀ (pathstr : String),
      (match pathstrToFieldPath pathstr ctx1 with
        | Except.error _ => Except.error ()
        | Except.ok targetFieldPath =>
          match fieldPathToFieldClass targetFieldPath ctx1 with
          | none => Except.error ()
          | some targetFc =>
            match validateTargetFieldPath targetFieldPath targetFc ctx1 with
            | Except.error _ => Except.error ()
            | Except.ok _ => Except.ok (targetFieldPath, targetFc)) =
        Except.ok (fp, tfc) →
      pathstrToFieldPath pathstr ctx1 = .ok fp ∧
        fieldPathToFieldClass fp ctx1 = some tfc ∧
        validateTargetFieldPath fp tfc ctx1 = .ok () := by
    intro pathstr hm
    cases h1 : pathstrToFieldPath pathstr ctx1 with
    | error e => rw [h1] at hm; simp at hm
    | ok tp =>
      rw [h1] at hm
      dsimp only [] at hm
      cases h2 : fieldPathToFieldClass tp ctx1 with
      | none => rw [h2] at hm; simp at hm
      | some tf =>
        rw [h2] at hm
        dsimp only [] at hm
        cases h3 : validateTargetFieldPath tp tf ctx1 with
        | error e => rw [h3] at hm; simp at hm
        | ok u =>
          rw [h3] at hm
          simp only [Except.ok.injEq, Prod.mk.injEq] at hm
          obtain ⟨htp, htf⟩ := hm
          subst htp htf
          cases u
          exact ⟨by simp [h1], by simp [h2], by simp [h3]⟩
  have hparam : ∀ (pathstr : String),
      pathstrToFieldPath pathstr ctx1 = .ok fp →
      fieldPathToFieldClass fp ctx1 = some tfc →
      validateTargetFieldPath fp tfc ctx1 = .ok () →
      pathstrToFieldPath pathstr ctx2 = .ok fp ∧
        fieldPathToFieldClass fp ctx2 = some tfc ∧
        validateTargetFieldPath fp tfc ctx2 = validateTargetFieldPath fp tfc ctx1 := by
    intro pathstr h1 h2 h3
    refine ⟨?_, ?_, ?_⟩
    · rw [pathstr_param pathstr ctx2 ctx1 htc hsc hec hscope hroot hstk hp2 hp1, h1]
    · have hmap := fptfc_param fp hscope
      rw [h2] at hmap
      have hleaf : eraseFC tfc = tfc := by
        rcases validate_ok_leaf h3 with ⟨bb, hbb⟩ | ⟨bb, hbb⟩ <;> subst hbb <;> rfl
      rw [show eraseOpt (some tfc) = some tfc by simp [eraseOpt, hleaf]] at hmap
      obtain ⟨g, hg, hge⟩ := eraseOpt_some hmap
      have hgt : g = tfc := by
        rcases validate_ok_leaf h3 with ⟨bb, hbb⟩ | ⟨bb, hbb⟩
        · subst hbb; exact erase_shape_int hge
        · subst hbb; exact erase_shape_enum hge
      rw [hg, hgt]
    · have hstack : getCtxStackFieldPath ctx2 = getCtxStackFieldPath ctx1 :=
        ctxStackPath_param hroot hstk
      match fc1, hfc with
      | .variant r p t os, hfc =>
        obtain ⟨p2, t2, os2, hfc2, _⟩ := erase_shape_variant hfc
        exact validate_param_variant fp tfc ctx2 ctx1 hstack (hfc2 ▸ hc2) hc1
      | .sequence r p l e, hfc =>
        obtain ⟨p2, l2, e2, hfc2, _⟩ := erase_shape_sequence hfc
        exact validate_param_sequence fp tfc ctx2 ctx1 hstack (hfc2 ▸ hc2) hc1
      | .int b, hfc => simp [resolveSequenceOrVariantFieldClass] at h
      | .enum b, hfc => simp [resolveSequenceOrVariantFieldClass] at h
      | .float, hfc => simp [resolveSequenceOrVariantFieldClass] at h
      | .str, hfc => simp [resolveSequenceOrVariantFieldClass] at h
      | .strct ms, hfc => simp [resolveSequenceOrVariantFieldClass] at h
      | .array e, hfc => simp [resolveSequenceOrVariantFieldClass] at h
  match fc1, hfc with
  | .variant r p t os, hfc =>
    obtain ⟨p2, t2, os2, hfc2, _⟩ := erase_shape_variant hfc
    subst hfc2
    simp only [resolveSequenceOrVariantFieldClass] at h
    obtain ⟨h1, h2, h3⟩ := hps r h
    obtain ⟨g1, g2, g3⟩ := hparam r h1 h2 h3
    simp only [resolveSequenceOrVariantFieldClass, g1, g2, g3, h3]
  | .sequence lr lp lf e, hfc =>
    obtain ⟨p2, l2, e2, hfc2, _⟩ := erase_shape_sequence hfc
    subst hfc2
    simp only [resolveSequenceOrVariantFieldClass] at h
    obtain ⟨h1, h2, h3⟩ := hps lr h
    obtain ⟨g1, g2, g3⟩ := hparam lr h1 h2 h3
    simp only [resolveSequenceOrVariantFieldClass, g1, g2, g3, h3]
  | .int b, hfc => simp [resolveSequenceOrVariantFieldClass] at h
  | .enum b, hfc => simp [resolveSequenceOrVariantFieldClass] at h
  | .float, hfc => simp [resolveSequenceOrVariantFieldClass] at h
  | .str, hfc => simp [resolveSequenceOrVariantFieldClass] at h
  | .strct ms, hfc => simp [resolveSequenceOrVariantFieldClass] at h
  | .array e, hfc => simp [resolveSequenceOrVariantFieldClass] at h

mutual

theorem resolveFieldClassCore_erase :
    ∀ (fc : FieldClass) (ctx : ResolveContext) (out : FieldClass × ResolveContext),
      resolveFieldClassCore ctx fc = .ok out → eraseFC out.1 = eraseFC fc := by
  intro fc ctx out h
  match fc with
  | .int b => simp only [resolveFieldClassCore] at h; cases h; rfl
  | .enum b => simp only [resolveFieldClassCore] at h; cases h; rfl
  | .float => simp only [resolveFieldClassCore] at h; cases h; rfl
  | .str => simp only [resolveFieldClassCore] at h; cases h; rfl
  | .strct ms =>
    simp only [resolveFieldClassCore] at h
    cases hk : resolveCompoundChildren
        { ctx with
          curFc := some (.strct ms),
          fieldClassStack := fieldClassStackPush ctx.fieldClassStack (.strct ms) } 0 ms with
    | error e => rw [hk] at h; exact absurd h (by simp)
    | ok p =>
      rw [hk] at h
      cases h
      have := resolveCompoundChildren_erase ms _ 0 p hk
      simp only [eraseFC]
      rw [this]
  | .array e =>
    simp only [resolveFieldClassCore] at h
    cases hk : resolveFieldClassCore
        { ctx with
          curFc := some (.array e),
          fieldClassStack :=
            fieldClassStackSetTopIndex
              (fieldClassStackPush ctx.fieldClassStack (.array e)) (-1) } e with
    | error er => rw [hk] at h; exact absurd h (by simp)
    | ok p =>
      rw [hk] at h
      cases h
      have := resolveFieldClassCore_erase e _ p hk
      simp only [eraseFC]
      rw [this]
  | .variant tr tp tf os =>
    simp only [resolveFieldClassCore] at h
    cases hv : resolveSequenceOrVariantFieldClass (.variant tr tp tf os)
        { ctx with curFc := some (.variant tr tp tf os) } with
    | error er => rw [hv] at h; exact absurd h (by simp)
    | ok pr =>
      obtain ⟨tfp, tfc⟩ := pr
      rw [hv] at h
      dsimp only [] at h
      cases hk : resolveCompoundChildren
          { ctx with
            curFc := some (.variant tr tp tf os),
            fieldClassStack :=
              fieldClassStackPush ctx.fieldClassStack (.variant tr tp tf os) } 0 os with
      | error er => rw [hk] at h; exact absurd h (by simp)
      | ok p =>
        rw [hk] at h
        cases h
        have := resolveCompoundChildren_erase os _ 0 p hk
        simp only [eraseFC]
        rw [this]
  | .sequence lr lp lf e =>
    simp only [resolveFieldClassCore] at h
    cases hv : resolveSequenceOrVariantFieldClass (.sequence lr lp lf e)
        { ctx with curFc := some (.sequence lr lp lf e) } with
    | error er => rw [hv] at h; exact absurd h (by simp)
    | ok pr =>
      obtain ⟨tfp, tfc⟩ := pr
      rw [hv] at h
      dsimp only [] at h
      cases hk : resolveFieldClassCore
          { ctx with
            curFc := some (.sequence lr lp lf e),
            fieldClassStack :=
              fieldClassStackSetTopIndex
                (fieldClassStackPush ctx.fieldClassStack
                  (.sequence lr lp lf e)) (-1) } e with
      | error er => rw [hk] at h; exact absurd h (by simp)
      | ok p =>
        rw [hk] at h
        cases h
        have := resolveFieldClassCore_erase e _ p hk
        simp only [eraseFC]
        rw [this]

theorem resolveCompoundChildren_erase :
    ∀ (kids : List (String × FieldClass)) (ctx : ResolveContext) (i : Nat)
      (out : List (String × FieldClass) × ResolveContext),
      resolveCompoundChildren ctx i kids = .ok out → eraseList out.1 = eraseList kids := by
  intro kids ctx i out h
  match kids with
  | [] =>
    simp only [resolveCompoundChildren] at h
    cases h
    rfl
  | (name, childFc) :: rest =>
    simp only [resolveCompoundChildren] at h
    cases hc : resolveFieldClassCore
        { ctx with fieldClassStack := fieldClassStackSetTopIndex ctx.fieldClassStack i } childFc
        with
    | error er => rw [hc] at h; exact absurd h (by simp)
    | ok p =>
      obtain ⟨child2, ctx2⟩ := p
      rw [hc] at h
      dsimp only [] at h
      cases hr : resolveCompoundChildren ctx2 (i + 1) rest with
      | error er => rw [hr] at h; exact absurd h (by simp)
      | ok q =>
        obtain ⟨rest2, ctx3⟩ := q
        rw [hr] at h
        cases h
        have h1 := resolveFieldClassCore_erase childFc _ (child2, ctx2) hc
        have h2 := resolveCompoundChildren_erase rest ctx2 (i + 1) (rest2, ctx3) hr
        simp only [eraseList]
        rw [h1, h2]

end

theorem resolveFieldClass_erase :
    ∀ (ctx : ResolveContext) (ofc : Option FieldClass) (out : Option FieldClass × ResolveContext),
      resolveFieldClass ctx ofc = .ok out → eraseOpt out.1 = eraseOpt ofc := by
  intro ctx ofc out h
  cases ofc with
  | none => simp only [resolveFieldClass] at h; cases h; rfl
  | some fc =>
    simp only [resolveFieldClass] at h
    cases hc : resolveFieldClassCore ctx fc with
    | error e => rw [hc] at h; exact absurd h (by simp)
    | ok p =>
      obtain ⟨fc2, ctx2⟩ := p
      rw [hc] at h
      cases h
      have := resolveFieldClassCore_erase fc ctx (fc2, ctx2) hc
      simp only [eraseOpt, Option.map_some']
      rw [this]

theorem resolveRootClass_erase :
    ∀ (rs : Scope) (ctx : ResolveContext) (out : Option FieldClass × ResolveContext),
      resolveRootClass rs ctx = .ok out →
      eraseOpt out.1 = eraseOpt (borrowClassFromCtx ctx rs) := by
  intro rs ctx out h
  simp only [resolveRootClass] at h
  cases hc : resolveFieldClass
      { ctx with
        rootEntryStacks := ctx.rootEntryStacks ++ [ctx.fieldClassStack], rootScope := rs }
      (borrowClassFromCtx
        { ctx with
          rootEntryStacks := ctx.rootEntryStacks ++ [ctx.fieldClassStack], rootScope := rs }
        rs) with
  | error e => rw [hc] at h; exact absurd h (by simp)
  | ok p =>
    obtain ⟨ofc2, ctx2⟩ := p
    rw [hc] at h
    cases h
    have := resolveFieldClass_erase _ _ (ofc2, ctx2) hc
    have hbw : borrowClassFromCtx
        { ctx with
          rootEntryStacks := ctx.rootEntryStacks ++ [ctx.fieldClassStack], rootScope := rs }
        rs = borrowClassFromCtx ctx rs := by
      cases rs <;> rfl
    rw [hbw] at this
    exact this

theorem erase_shape_strct {x : FieldClass} {c : List (String × FieldClass)}
    (h : eraseFC x = .strct c) : ∃ ms, x = .strct ms ∧ eraseList ms = c := by
  cases x <;> simp [eraseFC] at h
  case strct ms => exact ⟨ms, rfl, h⟩

theorem erase_shape_array {x : FieldClass} {e : FieldClass}
    (h : eraseFC x = .array e) : ∃ e', x = .array e' ∧ eraseFC e' = e := by
  cases x <;> simp [eraseFC] at h
  case array e' => exact ⟨e', rfl, h⟩

theorem eraseList_nil_inv {ks : List (String × FieldClass)} (h : eraseList ks = []) :
    ks = [] := by
  cases ks with
  | nil => rfl
  | cons p r => cases p; simp [eraseList] at h

theorem eraseList_cons_inv {ks : List (String × FieldClass)} {n : String} {f : FieldClass}
    {t : List (String × FieldClass)} (h : eraseList ks = (n, f) :: t) :
    ∃ c r, ks = (n, c) :: r ∧ eraseFC c = f ∧ eraseList r = t := by
  cases ks with
  | nil => simp [eraseList] at h
  | cons p r =>
    cases p with
    | mk n' c =>
      simp only [eraseList, List.cons.injEq, Prod.mk.injEq] at h
      exact ⟨c, r, by rw [h.1.1], h.1.2, h.2⟩

theorem pushErase {s1 s2 : List Frame} (h : s2.map eraseFrame = s1.map eraseFrame)
    {f1 f2 : FieldClass} (hf : eraseFC f2 = eraseFC f1) :
    (fieldClassStackPush s2 f2).map eraseFrame = (fieldClassStackPush s1 f1).map eraseFrame := by
  unfold fieldClassStackPush
  rw [List.map_append, List.map_append, h]
  simp [eraseFrame, hf]

theorem setTop_map_erase :
    ∀ (s : List Frame) (i : Int),
      (fieldClassStackSetTopIndex s i).map eraseFrame =
        fieldClassStackSetTopIndex (s.map eraseFrame) i := by
  intro s
  induction s with
  | nil => intro i; rfl
  | cons f rest ih =>
    intro i
    cases rest with
    | nil => rfl
    | cons g rs =>
      simp only [fieldClassStackSetTopIndex, List.map_cons]
      rw [ih i]
      rfl

theorem setTopErase {s1 s2 : List Frame} (h : s2.map eraseFrame = s1.map eraseFrame) (i : Int) :
    (fieldClassStackSetTopIndex s2 i).map eraseFrame =
      (fieldClassStackSetTopIndex s1 i).map eraseFrame := by
  rw [setTop_map_erase, setTop_map_erase, h]

theorem popErase {s1 s2 : List Frame} (h : s2.map eraseFrame = s1.map eraseFrame) :
    (fieldClassStackPop s2).map eraseFrame = (fieldClassStackPop s1).map eraseFrame := by
  unfold fieldClassStackPop
  rw [List.map_dropLast, List.map_dropLast, h]

theorem hsmall_of_push {stack : List Frame} {fc : FieldClass}
    (hsh : framesStrictlyShrinking (fieldClassStackPush stack fc))
    {x : FieldClass} (hx : sizeOf x < sizeOf fc) :
    ∀ g ∈ fieldClassStackPush stack fc, sizeOf x < sizeOf g.fc := by
  intro g hg
  unfold fieldClassStackPush at hg hsh
  rcases List.mem_append.mp hg with hin | hin
  · have h2 : sizeOf fc < sizeOf g.fc := (shrinking_append_singleton.mp hsh).2 g hin
    omega
  · have hgf : g = ⟨fc, 0⟩ := by simpa using hin
    subst hgf
    exact hx

theorem shr_of_push {stack : List Frame} {fc : FieldClass}
    (hsh : framesStrictlyShrinking (fieldClassStackPush stack fc)) :
    framesStrictlyShrinking stack :=
  (shrinking_append_singleton.mp hsh).1

theorem pairwise_of_push {stack : List Frame} {fc : FieldClass}
    (hsh : framesStrictlyShrinking (fieldClassStackPush stack fc)) :
    List.Pairwise (fun x y => feq x.fc y.fc = false) stack :=
  shrinking_pairwise_feq_false (shr_of_push hsh)

theorem push_setTop_shrinking {stack : List Frame} {fc child : FieldClass} {i : Int}
    (hsh : framesStrictlyShrinking (fieldClassStackPush stack fc))
    (hchild : sizeOf child < sizeOf fc) :
    framesStrictlyShrinking
      (fieldClassStackPush (fieldClassStackSetTopIndex (fieldClassStackPush stack fc) i)
        child) := by
  show framesStrictlyShrinking
    (fieldClassStackSetTopIndex (fieldClassStackPush stack fc) i ++ [⟨child, 0⟩])
  apply shrinking_append_singleton.mpr
  refine ⟨setTop_shrinking hsh, ?_⟩
  intro g hg
  obtain ⟨g', hg', he⟩ := setTop_mem_fc hg
  rw [he]
  exact hsmall_of_push hsh hchild g' hg'

theorem push_setTop_shrinking' {stack : List Frame} {child : FieldClass} {i : Int}
    (hsh : framesStrictlyShrinking stack)
    (hsm : ∀ g ∈ stack, sizeOf child < sizeOf g.fc) :
    framesStrictlyShrinking
      (fieldClassStackPush (fieldClassStackSetTopIndex stack i) child) := by
  show framesStrictlyShrinking (fieldClassStackSetTopIndex stack i ++ [⟨child, 0⟩])
  apply shrinking_append_singleton.mpr
  refine ⟨setTop_shrinking hsh, ?_⟩
  intro g hg
  obtain ⟨g', hg', he⟩ := setTop_mem_fc hg
  rw [he]
  exact hsm g' hg'

mutual

theorem rerun_core :
    ∀ (fc1 : FieldClass) (ctx1 : ResolveContext) (out1 : FieldClass × ResolveContext),
      resolveFieldClassCore ctx1 fc1 = .ok out1 →
      ∀ (fc2 : FieldClass) (ctx2 : ResolveContext),
        eraseFC fc2 = eraseFC fc1 →
        coreCtxRel ctx2 ctx1 →
        framesStrictlyShrinking (fieldClassStackPush ctx1.fieldClassStack fc1) →
        framesStrictlyShrinking (fieldClassStackPush ctx2.fieldClassStack fc2) →
        ∃ ctxB, resolveFieldClassCore ctx2 fc2 = .ok (out1.1, ctxB) ∧
          coreCtxRel ctxB out1.2 := by
  intro fc1 ctx1 out1 h fc2 ctx2 hfc hrel hsh1 hsh2
  match fc1, hfc with
  | .int b, hfc =>
    have hfc2 : fc2 = .int b := erase_shape_int hfc
    subst hfc2
    simp only [resolveFieldClassCore] at h
    cases h
    exact ⟨{ ctx2 with curFc := some (.int b) }, rfl, hrel⟩
  | .enum b, hfc =>
    have hfc2 : fc2 = .enum b := erase_shape_enum hfc
    subst hfc2
    simp only [resolveFieldClassCore] at h
    cases h
    exact ⟨{ ctx2 with curFc := some (.enum b) }, rfl, hrel⟩
  | .float, hfc =>
    have hfc2 : fc2 = .float := by
      cases fc2 <;> simp [eraseFC] at hfc <;> rfl
    subst hfc2
    simp only [resolveFieldClassCore] at h
    cases h
    exact ⟨{ ctx2 with curFc := some .float }, rfl, hrel⟩
  | .str, hfc =>
    have hfc2 : fc2 = .str := by
      cases fc2 <;> simp [eraseFC] at hfc <;> rfl
    subst hfc2
    simp only [resolveFieldClassCore] at h
    cases h
    exact ⟨{ ctx2 with curFc := some .str }, rfl, hrel⟩
  | .strct ms1, hfc =>
    obtain ⟨ms2, hfc2, hms⟩ := erase_shape_strct hfc
    subst hfc2
    simp only [resolveFieldClassCore] at h
    cases hk : resolveCompoundChildren
        { ctx1 with
          curFc := some (.strct ms1),
          fieldClassStack := fieldClassStackPush ctx1.fieldClassStack (.strct ms1) } 0 ms1 with
    | error e => rw [hk] at h; exact absurd h (by simp)
    | ok p =>
      obtain ⟨ms1', ctxA⟩ := p
      rw [hk] at h
      cases h
      obtain ⟨ctxB, hk2, hrelB⟩ := rerun_children ms1 _ 0 (ms1', ctxA) hk ms2
        { ctx2 with
          curFc := some (.strct ms2),
          fieldClassStack := fieldClassStackPush ctx2.fieldClassStack (.strct ms2) }
        hms
        ⟨hrel.1, hrel.2.1, hrel.2.2.1, hrel.2.2.2.1, hrel.2.2.2.2.1,
          pushErase hrel.2.2.2.2.2 hfc⟩
        hsh1 hsh2
        (fun p hp g hg => hsmall_of_push hsh1 (sizeOf_member_strct ms1 p hp) g hg)
        (fun p hp g hg => hsmall_of_push hsh2 (sizeOf_member_strct ms2 p hp) g hg)
      refine ⟨{ ctxB with fieldClassStack := fieldClassStackPop ctxB.fieldClassStack },
        ?_, ?_⟩
      · simp only [resolveFieldClassCore]
        rw [hk2]
      · exact ⟨hrelB.1, hrelB.2.1, hrelB.2.2.1, hrelB.2.2.2.1, hrelB.2.2.2.2.1,
          popErase hrelB.2.2.2.2.2⟩
  | .array e1, hfc =>
    obtain ⟨e2, hfc2, he⟩ := erase_shape_array hfc
    subst hfc2
    simp only [resolveFieldClassCore] at h
    cases hk : resolveFieldClassCore
        { ctx1 with
          curFc := some (.array e1),
          fieldClassStack :=
            fieldClassStackSetTopIndex
              (fieldClassStackPush ctx1.fieldClassStack (.array e1)) (-1) } e1 with
    | error er => rw [hk] at h; exact absurd h (by simp)
    | ok p =>
      obtain ⟨e1', ctxA⟩ := p
      rw [hk] at h
      cases h
      obtain ⟨ctxB, hk2, hrelB⟩ := rerun_core e1 _ (e1', ctxA) hk e2
        { ctx2 with
          curFc := some (.array e2),
          fieldClassStack :=
            fieldClassStackSetTopIndex
              (fieldClassStackPush ctx2.fieldClassStack (.array e2)) (-1) }
        he
        ⟨hrel.1, hrel.2.1, hrel.2.2.1, hrel.2.2.2.1, hrel.2.2.2.2.1,
          setTopErase (pushErase hrel.2.2.2.2.2 hfc) (-1)⟩
        (push_setTop_shrinking hsh1 (sizeOf_elem_array e1))
        (push_setTop_shrinking hsh2 (sizeOf_elem_array e2))
      refine ⟨{ ctxB with fieldClassStack := fieldClassStackPop ctxB.fieldClassStack },
        ?_, ?_⟩
      · simp only [resolveFieldClassCore]
        rw [hk2]
      · exact ⟨hrelB.1, hrelB.2.1, hrelB.2.2.1, hrelB.2.2.2.1, hrelB.2.2.2.2.1,
          popErase hrelB.2.2.2.2.2⟩
  | .variant r tp1 tf1 os1, hfc =>
    obtain ⟨tp2, tf2, os2, hfc2, hos⟩ := erase_shape_variant hfc
    subst hfc2
    simp only [resolveFieldClassCore] at h
    cases hv : resolveSequenceOrVariantFieldClass (.variant r tp1 tf1 os1)
        { ctx1 with curFc := some (.variant r tp1 tf1 os1) } with
    | error er => rw [hv] at h; exact absurd h (by simp)
    | ok pr =>
      obtain ⟨tfp, tfc⟩ := pr
      rw [hv] at h
      dsimp only [] at h
      cases hk : resolveCompoundChildren
          { ctx1 with
            curFc := some (.variant r tp1 tf1 os1),
            fieldClassStack :=
              fieldClassStackPush ctx1.fieldClassStack (.variant r tp1 tf1 os1) } 0 os1 with
      | error er => rw [hk] at h; exact absurd h (by simp)
      | ok p =>
        obtain ⟨os1', ctxA⟩ := p
        rw [hk] at h
        cases h
        have hv2 := resolveSeqVar_param (.variant r tp1 tf1 os1) (.variant r tp2 tf2 os2)
          { ctx1 with curFc := some (.variant r tp1 tf1 os1) }
          { ctx2 with curFc := some (.variant r tp2 tf2 os2) }
          tfp tfc hv hfc rfl rfl hrel
          (pairwise_of_push hsh1) (pairwise_of_push hsh2)
        obtain ⟨ctxB, hk2, hrelB⟩ := rerun_children os1 _ 0 (os1', ctxA) hk os2
          { ctx2 with
            curFc := some (.variant r tp2 tf2 os2),
            fieldClassStack :=
              fieldClassStackPush ctx2.fieldClassStack (.variant r tp2 tf2 os2) }
          hos
          ⟨hrel.1, hrel.2.1, hrel.2.2.1, hrel.2.2.2.1, hrel.2.2.2.2.1,
            pushErase hrel.2.2.2.2.2 hfc⟩
          hsh1 hsh2
          (fun p hp g hg =>
            hsmall_of_push hsh1 (sizeOf_member_variant r tp1 tf1 os1 p hp) g hg)
          (fun p hp g hg =>
            hsmall_of_push hsh2 (sizeOf_member_variant r tp2 tf2 os2 p hp) g hg)
        refine ⟨{ ctxB with fieldClassStack := fieldClassStackPop ctxB.fieldClassStack },
          ?_, ?_⟩
        · simp only [resolveFieldClassCore]
          rw [hv2]
          dsimp only []
          rw [hk2]
        · exact ⟨hrelB.1, hrelB.2.1, hrelB.2.2.1, hrelB.2.2.2.1, hrelB.2.2.2.2.1,
            popErase hrelB.2.2.2.2.2⟩
  | .sequence r lp1 lf1 e1, hfc =>
    obtain ⟨lp2, lf2, e2, hfc2, he⟩ := erase_shape_sequence hfc
    subst hfc2
    simp only [resolveFieldClassCore] at h
    cases hv : resolveSequenceOrVariantFieldClass (.sequence r lp1 lf1 e1)
        { ctx1 with curFc := some (.sequence r lp1 lf1 e1) } with
    | error er => rw [hv] at h; exact absurd h (by simp)
    | ok pr =>
      obtain ⟨tfp, tfc⟩ := pr
      rw [hv] at h
      dsimp only [] at h
      cases hk : resolveFieldClassCore
          { ctx1 with
            curFc := some (.sequence r lp1 lf1 e1),
            fieldClassStack :=
              fieldClassStackSetTopIndex
                (fieldClassStackPush ctx1.fieldClassStack
                  (.sequence r lp1 lf1 e1)) (-1) } e1 with
      | error er => rw [hk] at h; exact absurd h (by simp)
      | ok p =>
        obtain ⟨e1', ctxA⟩ := p
        rw [hk] at h
        cases h
        have hv2 := resolveSeqVar_param (.sequence r lp1 lf1 e1) (.sequence r lp2 lf2 e2)
          { ctx1 with curFc := some (.sequence r lp1 lf1 e1) }
          { ctx2 with curFc := some (.sequence r lp2 lf2 e2) }
          tfp tfc hv hfc rfl rfl hrel
          (pairwise_of_push hsh1) (pairwise_of_push hsh2)
        obtain ⟨ctxB, hk2, hrelB⟩ := rerun_core e1 _ (e1', ctxA) hk e2
          { ctx2 with
            curFc := some (.sequence r lp2 lf2 e2),
            fieldClassStack :=
              fieldClassStackSetTopIndex
                (fieldClassStackPush ctx2.fieldClassStack
                  (.sequence r lp2 lf2 e2)) (-1) }
          he
          ⟨hrel.1, hrel.2.1, hrel.2.2.1, hrel.2.2.2.1, hrel.2.2.2.2.1,
            setTopErase (pushErase hrel.2.2.2.2.2 hfc) (-1)⟩
          (push_setTop_shrinking hsh1 (sizeOf_elem_sequence r lp1 lf1 e1))
          (push_setTop_shrinking hsh2 (sizeOf_elem_sequence r lp2 lf2 e2))
        refine ⟨{ ctxB with fieldClassStack := fieldClassStackPop ctxB.fieldClassStack },
          ?_, ?_⟩
        · simp only [resolveFieldClassCore]
          rw [hv2]
          dsimp only []
          rw [hk2]
        · exact ⟨hrelB.1, hrelB.2.1, hrelB.2.2.1, hrelB.2.2.2.1, hrelB.2.2.2.2.1,
            popErase hrelB.2.2.2.2.2⟩

theorem rerun_children :
    ∀ (kids1 : List (String × FieldClass)) (ctx1 : ResolveContext) (i : Nat)
      (out1 : List (String × FieldClass) × ResolveContext),
      resolveCompoundChildren ctx1 i kids1 = .ok out1 →
      ∀ (kids2 : List (String × FieldClass)) (ctx2 : ResolveContext),
        eraseList kids2 = eraseList kids1 →
        coreCtxRel ctx2 ctx1 →
        framesStrictlyShrinking ctx1.fieldClassStack →
        framesStrictlyShrinking ctx2.fieldClassStack →
        (∀ p ∈ kids1, ∀ g ∈ ctx1.fieldClassStack, sizeOf p.2 < sizeOf g.fc) →
        (∀ p ∈ kids2, ∀ g ∈ ctx2.fieldClassStack, sizeOf p.2 < sizeOf g.fc) →
        ∃ ctxB, resolveCompoundChildren ctx2 i kids2 = .ok (out1.1, ctxB) ∧
          coreCtxRel ctxB out1.2 := by
  intro kids1 ctx1 i out1 h kids2 ctx2 hks hrel hsh1 hsh2 hsm1 hsm2
  match kids1, hks with
  | [], hks =>
    have hk2 : kids2 = [] := eraseList_nil_inv hks
    subst hk2
    simp only [resolveCompoundChildren] at h
    cases h
    exact ⟨ctx2, rfl, hrel⟩
  | (n1, c1) :: r1, hks =>
    rw [show eraseList ((n1, c1) :: r1) = (n1, eraseFC c1) :: eraseList r1 from rfl] at hks
    obtain ⟨c2, r2, hk2, hc, hr⟩ := eraseList_cons_inv hks
    subst hk2
    simp only [resolveCompoundChildren] at h
    cases hcc : resolveFieldClassCore
        { ctx1 with
          fieldClassStack := fieldClassStackSetTopIndex ctx1.fieldClassStack i } c1 with
    | error er => rw [hcc] at h; exact absurd h (by simp)
    | ok p =>
      obtain ⟨c1', ctxA⟩ := p
      rw [hcc] at h
      dsimp only [] at h
      cases hrr : resolveCompoundChildren ctxA (i + 1) r1 with
      | error er => rw [hrr] at h; exact absurd h (by simp)
      | ok q =>
        obtain ⟨r1', ctxC⟩ := q
        rw [hrr] at h
        cases h
        obtain ⟨ctxB1, hcc2, hrelB1⟩ := rerun_core c1 _ (c1', ctxA) hcc c2
          { ctx2 with
            fieldClassStack := fieldClassStackSetTopIndex ctx2.fieldClassStack i }
          hc
          ⟨hrel.1, hrel.2.1, hrel.2.2.1, hrel.2.2.2.1, hrel.2.2.2.2.1,
            setTopErase hrel.2.2.2.2.2 i⟩
          (push_setTop_shrinking' hsh1 (hsm1 (n1, c1) (by simp)))
          (push_setTop_shrinking' hsh2 (hsm2 (n1, c2) (by simp)))
        have hstkA : ctxA.fieldClassStack =
            fieldClassStackSetTopIndex ctx1.fieldClassStack i :=
          (resolveFieldClassCore_preserves c1 _ (c1', ctxA) hcc).1
        have hstkB1 : ctxB1.fieldClassStack =
            fieldClassStackSetTopIndex ctx2.fieldClassStack i :=
          (resolveFieldClassCore_preserves c2 _ (c1', ctxB1) hcc2).1
        obtain ⟨ctxB, hrr2, hrelB⟩ := rerun_children r1 ctxA (i + 1) (r1', ctxC) hrr r2
          ctxB1 hr hrelB1
          (by rw [hstkA]; exact setTop_shrinking hsh1)
          (by rw [hstkB1]; exact setTop_shrinking hsh2)
          (by
            intro p hp g hg
            rw [hstkA] at hg
            obtain ⟨g', hg', he⟩ := setTop_mem_fc hg
            rw [he]
            exact hsm1 p (by simp [hp]) g' hg')
          (by
            intro p hp g hg
            rw [hstkB1] at hg
            obtain ⟨g', hg', he⟩ := setTop_mem_fc hg
            rw [he]
            exact hsm2 p (by simp [hp]) g' hg')
        refine ⟨ctxB, ?_, hrelB⟩
        simp only [resolveCompoundChildren]
        rw [hcc2]
        dsimp only []
        rw [hrr2]

end

theorem shr_singleton (f : Frame) : framesStrictlyShrinking [f] := by
  simp [framesStrictlyShrinking]

theorem rerun_fieldClass :
    ∀ (ofc1 : Option FieldClass) (ctx1 : ResolveContext)
      (out1 : Option FieldClass × ResolveContext),
      resolveFieldClass ctx1 ofc1 = .ok out1 →
      ∀ (ofc2 : Option FieldClass) (ctx2 : ResolveContext),
        eraseOpt ofc2 = eraseOpt ofc1 →
        coreCtxRel ctx2 ctx1 →
        ctx1.fieldClassStack = [] → ctx2.fieldClassStack = [] →
        ∃ ctxB, resolveFieldClass ctx2 ofc2 = .ok (out1.1, ctxB) ∧ coreCtxRel ctxB out1.2 := by
  intro ofc1 ctx1 out1 h ofc2 ctx2 hofc hrel hstk1 hstk2
  cases ofc1 with
  | none =>
    have h2 : ofc2 = none := eraseOpt_none hofc
    subst h2
    simp only [resolveFieldClass] at h
    cases h
    exact ⟨ctx2, rfl, hrel⟩
  | some f1 =>
    obtain ⟨f2, hf2, hfe⟩ := eraseOpt_some (show eraseOpt ofc2 = some (eraseFC f1) from hofc)
    subst hf2
    simp only [resolveFieldClass] at h
    cases hc : resolveFieldClassCore ctx1 f1 with
    | error e => rw [hc] at h; exact absurd h (by simp)
    | ok p =>
      obtain ⟨f1', ctxA⟩ := p
      rw [hc] at h
      cases h
      obtain ⟨ctxB, hc2, hrelB⟩ := rerun_core f1 ctx1 (f1', ctxA) hc f2 ctx2 hfe hrel
        (by rw [hstk1]; exact shr_singleton _)
        (by rw [hstk2]; exact shr_singleton _)
      refine ⟨ctxB, ?_, hrelB⟩
      simp only [resolveFieldClass]
      rw [hc2]

theorem resolveRootClass_rootScope_final :
    ∀ (rs : Scope) (ctx : ResolveContext) (out : Option FieldClass × ResolveContext),
      resolveRootClass rs ctx = .ok out → out.2.rootScope = .unknown := by
  intro rs ctx out h
  simp only [resolveRootClass] at h
  cases hc : resolveFieldClass
      { ctx with
        rootEntryStacks := ctx.rootEntryStacks ++ [ctx.fieldClassStack], rootScope := rs }
      (borrowClassFromCtx
        { ctx with
          rootEntryStacks := ctx.rootEntryStacks ++ [ctx.fieldClassStack], rootScope := rs }
        rs) with
  | error e => rw [hc] at h; exact absurd h (by simp)
  | ok p =>
    obtain ⟨ofc2, ctx2⟩ := p
    rw [hc] at h
    cases h
    rfl

theorem rerun_root :
    ∀ (rs : Scope) (ctx1 : ResolveContext) (out1 : Option FieldClass × ResolveContext),
      resolveRootClass rs ctx1 = .ok out1 →
      ∀ ctx2 : ResolveContext,
        ctx2.tcIsTranslated = ctx1.tcIsTranslated →
        ctx2.scIsTranslated = ctx1.scIsTranslated →
        ctx2.ecIsTranslated = ctx1.ecIsTranslated →
        eraseScopes ctx2.scopes = eraseScopes ctx1.scopes →
        ctx1.fieldClassStack = [] → ctx2.fieldClassStack = [] →
        ∃ ctxB, resolveRootClass rs ctx2 = .ok (out1.1, ctxB) ∧
          ctxB.scopes = ctx2.scopes ∧ ctxB.tcIsTranslated = ctx2.tcIsTranslated ∧
          ctxB.scIsTranslated = ctx2.scIsTranslated ∧
          ctxB.ecIsTranslated = ctx2.ecIsTranslated ∧
          ctxB.fieldClassStack = [] ∧ ctxB.rootScope = .unknown := by
  intro rs ctx1 out1 h ctx2 htc hsc hec hs hstk1 hstk2
  simp only [resolveRootClass] at h
  cases hc : resolveFieldClass
      { ctx1 with
        rootEntryStacks := ctx1.rootEntryStacks ++ [ctx1.fieldClassStack], rootScope := rs }
      (borrowClassFromCtx
        { ctx1 with
          rootEntryStacks := ctx1.rootEntryStacks ++ [ctx1.fieldClassStack], rootScope := rs }
        rs) with
  | error e => rw [hc] at h; exact absurd h (by simp)
  | ok p =>
    obtain ⟨ofc1x, ctxI⟩ := p
    rw [hc] at h
    cases h
    have hb1 : borrowClassFromCtx
        { ctx1 with
          rootEntryStacks := ctx1.rootEntryStacks ++ [ctx1.fieldClassStack], rootScope := rs }
        rs = borrowClassFromCtx ctx1 rs := by cases rs <;> rfl
    have hb2 : borrowClassFromCtx
        { ctx2 with
          rootEntryStacks := ctx2.rootEntryStacks ++ [ctx2.fieldClassStack], rootScope := rs }
        rs = borrowClassFromCtx ctx2 rs := by cases rs <;> rfl
    obtain ⟨ctxB0, hc2, hrelB⟩ := rerun_fieldClass _ _ (ofc1x, ctxI) hc
      (borrowClassFromCtx
        { ctx2 with
          rootEntryStacks := ctx2.rootEntryStacks ++ [ctx2.fieldClassStack], rootScope := rs }
        rs)
      { ctx2 with
        rootEntryStacks := ctx2.rootEntryStacks ++ [ctx2.fieldClassStack], rootScope := rs }
      (by rw [hb1, hb2]; exact borrowSlot_param hs rs)
      ⟨htc, hsc, hec, hs, rfl, by rw [hstk1, hstk2]⟩
      hstk1 hstk2
    obtain ⟨hstkB, htcB, hscTB, hecTB, hscopesB, hrootB, hgB⟩ :=
      resolveFieldClass_preserves _ _ (ofc1x, ctxB0) hc2
    refine ⟨{ ctxB0 with rootScope := .unknown }, ?_, hscopesB, htcB, hscTB, hecTB, ?_, rfl⟩
    · simp only [resolveRootClass]
      rw [hc2]
    · show ctxB0.fieldClassStack = []
      rw [hstkB, hstk2]

theorem resolveEventClassFieldClasses_slots :
    ∀ (ctx : ResolveContext) (ec : EventClass) (out : EventClass × ResolveContext),
      resolveEventClassFieldClasses ctx ec = .ok out →
      out.2.scopes.packetHeader = ctx.scopes.packetHeader ∧
        out.2.scopes.packetContext = ctx.scopes.packetContext ∧
        out.2.scopes.eventHeader = ctx.scopes.eventHeader ∧
        eraseOpt out.2.scopes.eventCommonContext = eraseOpt ctx.scopes.eventCommonContext ∧
        out.2.scopes.eventSpecContext = none ∧ out.2.scopes.eventPayload = none ∧
        out.2.tcIsTranslated = ctx.tcIsTranslated ∧
        out.2.scIsTranslated = ctx.scIsTranslated ∧
        out.2.ecIsTranslated = none := by
  intro ctx ec out h
  simp only [resolveEventClassFieldClasses] at h
  split at h
  · cases h
    exact ⟨rfl, rfl, rfl, rfl, rfl, rfl, rfl, rfl, rfl⟩
  · cases hr1 : resolveRootClass .eventCommonContext
        { ctx with
          ecIsTranslated := some ec.isTranslated,
          scopes := { ctx.scopes with eventSpecContext := ec.specContextFc } } with
    | error e => rw [hr1] at h; exact absurd h (by simp)
    | ok p =>
      obtain ⟨ecc2, ctx2⟩ := p
      rw [hr1] at h
      dsimp only [] at h
      obtain ⟨hstkA, hsc20, htcA, hsctA, hectA, hgA⟩ :=
        resolveRootClass_spec _ _ (ecc2, ctx2) hr1
      have hsc2 : ctx2.scopes = { ctx.scopes with eventSpecContext := ec.specContextFc } :=
        hsc20
      have htc2 : ctx2.tcIsTranslated = ctx.tcIsTranslated := htcA
      have hsct2 : ctx2.scIsTranslated = ctx.scIsTranslated := hsctA
      have hecc2 : eraseOpt ecc2 = eraseOpt ctx.scopes.eventCommonContext :=
        resolveRootClass_erase _ _ (ecc2, ctx2) hr1
      cases hr2 : resolveRootClass .eventPayload
          { ctx2 with
            scopes := { ctx2.scopes with
              eventCommonContext := ecc2, eventPayload := ec.payloadFc } } with
      | error e => rw [hr2] at h; exact absurd h (by simp)
      | ok q =>
        obtain ⟨pl2, ctx4⟩ := q
        rw [hr2] at h
        cases h
        obtain ⟨hstkB, hsc40, htcB, hsctB, hectB, hgB⟩ :=
          resolveRootClass_spec _ _ (pl2, ctx4) hr2
        have hsc4 : ctx4.scopes = { ctx2.scopes with
            eventCommonContext := ecc2, eventPayload := ec.payloadFc } := hsc40
        have htc4 : ctx4.tcIsTranslated = ctx2.tcIsTranslated := htcB
        have hsct4 : ctx4.scIsTranslated = ctx2.scIsTranslated := hsctB
        refine ⟨?_, ?_, ?_, ?_, rfl, rfl, ?_, ?_, rfl⟩
        · show ctx4.scopes.packetHeader = ctx.scopes.packetHeader
          rw [hsc4]; dsimp only []; rw [hsc2]
        · show ctx4.scopes.packetContext = ctx.scopes.packetContext
          rw [hsc4]; dsimp only []; rw [hsc2]
        · show ctx4.scopes.eventHeader = ctx.scopes.eventHeader
          rw [hsc4]; dsimp only []; rw [hsc2]
        · show eraseOpt ctx4.scopes.eventCommonContext = _
          rw [hsc4]
          exact hecc2
        · show ctx4.tcIsTranslated = ctx.tcIsTranslated
          rw [htc4, htc2]
        · show ctx4.scIsTranslated = ctx.scIsTranslated
          rw [hsct4, hsct2]

theorem resolveEventClassesLoop_slots :
    ∀ (ecs : List EventClass) (ctx : ResolveContext) (out : List EventClass × ResolveContext),
      resolveEventClassesLoop ctx ecs = .ok out →
      out.2.scopes.packetHeader = ctx.scopes.packetHeader ∧
        out.2.scopes.packetContext = ctx.scopes.packetContext ∧
        out.2.scopes.eventHeader = ctx.scopes.eventHeader ∧
        eraseOpt out.2.scopes.eventCommonContext = eraseOpt ctx.scopes.eventCommonContext ∧
        out.2.tcIsTranslated = ctx.tcIsTranslated ∧
        out.2.scIsTranslated = ctx.scIsTranslated := by
  intro ecs
  induction ecs with
  | nil =>
    intro ctx out h
    simp only [resolveEventClassesLoop] at h
    cases h
    exact ⟨rfl, rfl, rfl, rfl, rfl, rfl⟩
  | cons ec rest ih =>
    intro ctx out h
    simp only [resolveEventClassesLoop] at h
    cases h1 : resolveEventClassFieldClasses ctx ec with
    | error e => rw [h1] at h; exact absurd h (by simp)
    | ok p =>
      obtain ⟨ec2, ctx2⟩ := p
      rw [h1] at h
      dsimp only [] at h
      cases h2 : resolveEventClassesLoop ctx2 rest with
      | error e => rw [h2] at h; exact absurd h (by simp)
      | ok q =>
        obtain ⟨rest2, ctx3⟩ := q
        rw [h2] at h
        cases h
        obtain ⟨a1, a2, a3, a4, a5, a6, _, _, _⟩ :=
          resolveEventClassFieldClasses_slots ctx ec (ec2, ctx2) h1
        obtain ⟨b1, b2, b3, b4, b5, b6⟩ := ih ctx2 (rest2, ctx3) h2
        obtain ⟨_, _, _, _, _, _, a7, a8, _⟩ :=
          resolveEventClassFieldClasses_slots ctx ec (ec2, ctx2) h1
        exact ⟨by rw [b1, a1], by rw [b2, a2], by rw [b3, a3], by rw [b4, a4],
          by rw [b5, a7], by rw [b6, a8]⟩

theorem resolveStreamClassFieldClasses_slots :
    ∀ (ctx : ResolveContext) (sc : StreamClass) (out : StreamClass × ResolveContext),
      resolveStreamClassFieldClasses ctx sc = .ok out →
      out.2.scopes.packetHeader = ctx.scopes.packetHeader ∧
        out.2.scopes.packetContext = none ∧ out.2.scopes.eventHeader = none ∧
        out.2.scopes.eventCommonContext = none ∧
        out.2.tcIsTranslated = ctx.tcIsTranslated ∧ out.2.scIsTranslated = none := by
  intro ctx sc out h
  simp only [resolveStreamClassFieldClasses] at h
  have hloop :
      ∀ (ctx1 : ResolveContext),
        ctx1.scopes.packetHeader = ctx.scopes.packetHeader →
        ctx1.tcIsTranslated = ctx.tcIsTranslated →
        (match resolveEventClassesLoop ctx1 sc.eventClasses with
          | Except.error e => Except.error e
          | Except.ok (eventClasses2, ctx2) =>
            Except.ok ({ sc with
                packetContextFc := ctx2.scopes.packetContext,
                eventHeaderFc := ctx2.scopes.eventHeader,
                eventCommonContextFc := ctx2.scopes.eventCommonContext,
                eventClasses := eventClasses2 },
              { ctx2 with
                scopes := { ctx2.scopes with
                  packetContext := none, eventHeader := none, eventCommonContext := none },
                scIsTranslated := none })) = Except.ok out →
        out.2.scopes.packetHeader = ctx.scopes.packetHeader ∧
          out.2.scopes.packetContext = none ∧ out.2.scopes.eventHeader = none ∧
          out.2.scopes.eventCommonContext = none ∧
          out.2.tcIsTranslated = ctx.tcIsTranslated ∧ out.2.scIsTranslated = none := by
    intro ctx1 hpH htc hm
    cases hl : resolveEventClassesLoop ctx1 sc.eventClasses with
    | error e => rw [hl] at hm; exact absurd hm (by simp)
    | ok q =>
      obtain ⟨ecs2, ctx2⟩ := q
      rw [hl] at hm
      cases hm
      obtain ⟨b1, _, _, _, b5, _⟩ := resolveEventClassesLoop_slots sc.eventClasses ctx1
        (ecs2, ctx2) hl
      exact ⟨by show ctx2.scopes.packetHeader = _; rw [b1, hpH], rfl, rfl, rfl,
        by show ctx2.tcIsTranslated = _; rw [b5, htc], rfl⟩
  by_cases hts : sc.isTranslated = true
  · rw [if_pos hts] at h
    dsimp only [] at h
    exact hloop
      { ctx with
        scIsTranslated := some sc.isTranslated,
        scopes := { ctx.scopes with
          packetContext := sc.packetContextFc,
          eventHeader := sc.eventHeaderFc,
          eventCommonContext := sc.eventCommonContextFc } }
      rfl rfl h
  · rw [if_neg hts] at h
    cases hr1 : resolveRootClass .packetContext
        { ctx with
          scIsTranslated := some sc.isTranslated,
          scopes := { ctx.scopes with packetContext := sc.packetContextFc } } with
    | error e => rw [hr1] at h; exact absurd h (by simp)
    | ok p1 =>
      obtain ⟨pc2, ctxB⟩ := p1
      rw [hr1] at h
      dsimp only [] at h
      obtain ⟨_, hscB0, htcB, _, _, _⟩ := resolveRootClass_spec _ _ (pc2, ctxB) hr1
      have hscB : ctxB.scopes = { ctx.scopes with packetContext := sc.packetContextFc } := hscB0
      have htcB' : ctxB.tcIsTranslated = ctx.tcIsTranslated := htcB
      cases hr2 : resolveRootClass .eventHeader
          { ctxB with
            scopes := { ctxB.scopes with
              packetContext := pc2, eventHeader := sc.eventHeaderFc } } with
      | error e => rw [hr2] at h; exact absurd h (by simp)
      | ok p2 =>
        obtain ⟨eh2, ctxC⟩ := p2
        rw [hr2] at h
        dsimp only [] at h
        obtain ⟨_, hscC0, htcC, _, _, _⟩ := resolveRootClass_spec _ _ (eh2, ctxC) hr2
        have hscC : ctxC.scopes = { ctxB.scopes with
            packetContext := pc2, eventHeader := sc.eventHeaderFc } := hscC0
        have htcC' : ctxC.tcIsTranslated = ctxB.tcIsTranslated := htcC
        cases hr3 : resolveRootClass .eventCommonContext
            { ctxC with
              scopes := { ctxC.scopes with
                eventHeader := eh2, eventCommonContext := sc.eventCommonContextFc } } with
        | error e => rw [hr3] at h; exact absurd h (by simp)
        | ok p3 =>
          obtain ⟨ecc2, ctxD⟩ := p3
          rw [hr3] at h
          dsimp only [] at h
          obtain ⟨_, hscD0, htcD, _, _, _⟩ := resolveRootClass_spec _ _ (ecc2, ctxD) hr3
          have hscD : ctxD.scopes = { ctxC.scopes with
              eventHeader := eh2, eventCommonContext := sc.eventCommonContextFc } := hscD0
          have htcD' : ctxD.tcIsTranslated = ctxC.tcIsTranslated := htcD
          exact hloop { ctxD with scopes := { ctxD.scopes with eventCommonContext := ecc2 } }
            (by simp [hscD, hscC, hscB])
            (by show ctxD.tcIsTranslated = _; rw [htcD', htcC', htcB']) h

theorem resolveStreamClassesLoop_slots :
    ∀ (scs : List StreamClass) (ctx : ResolveContext) (out : List StreamClass × ResolveContext),
      resolveStreamClassesLoop ctx scs = .ok out →
      out.2.scopes.packetHeader = ctx.scopes.packetHeader ∧
        out.2.tcIsTranslated = ctx.tcIsTranslated := by
  intro scs
  induction scs with
  | nil =>
    intro ctx out h
    simp only [resolveStreamClassesLoop] at h
    cases h
    exact ⟨rfl, rfl⟩
  | cons sc rest ih =>
    intro ctx out h
    simp only [resolveStreamClassesLoop] at h
    cases h1 : resolveStreamClassFieldClasses ctx sc with
    | error e => rw [h1] at h; exact absurd h (by simp)
    | ok p =>
      obtain ⟨sc2, ctx2⟩ := p
      rw [h1] at h
      dsimp only [] at h
      cases h2 : resolveStreamClassesLoop ctx2 rest with
      | error e => rw [h2] at h; exact absurd h (by simp)
      | ok q =>
        obtain ⟨rest2, ctx3⟩ := q
        rw [h2] at h
        cases h
        obtain ⟨a1, _, _, _, a5, _⟩ := resolveStreamClassFieldClasses_slots ctx sc
          (sc2, ctx2) h1
        obtain ⟨b1, b2⟩ := ih ctx2 (rest2, ctx3) h2
        exact ⟨by rw [b1, a1], by rw [b2, a5]⟩

theorem eraseScopes_slot_ph {s t : ScopeClasses} (h : eraseScopes s = eraseScopes t) :
    eraseOpt s.packetHeader = eraseOpt t.packetHeader :=
  congrArg ScopeClasses.packetHeader h

theorem eraseScopes_slot_pc {s t : ScopeClasses} (h : eraseScopes s = eraseScopes t) :
    eraseOpt s.packetContext = eraseOpt t.packetContext :=
  congrArg ScopeClasses.packetContext h

theorem eraseScopes_slot_eh {s t : ScopeClasses} (h : eraseScopes s = eraseScopes t) :
    eraseOpt s.eventHeader = eraseOpt t.eventHeader :=
  congrArg ScopeClasses.eventHeader h

theorem eraseScopes_slot_ecc {s t : ScopeClasses} (h : eraseScopes s = eraseScopes t) :
    eraseOpt s.eventCommonContext = eraseOpt t.eventCommonContext :=
  congrArg ScopeClasses.eventCommonContext h

theorem eraseScopes_slot_spec {s t : ScopeClasses} (h : eraseScopes s = eraseScopes t) :
    eraseOpt s.eventSpecContext = eraseOpt t.eventSpecContext :=
  congrArg ScopeClasses.eventSpecContext h

theorem eraseScopes_slot_pl {s t : ScopeClasses} (h : eraseScopes s = eraseScopes t) :
    eraseOpt s.eventPayload = eraseOpt t.eventPayload :=
  congrArg ScopeClasses.eventPayload h

theorem eraseScopes_ext {s t : ScopeClasses}
    (h1 : eraseOpt s.packetHeader = eraseOpt t.packetHeader)
    (h2 : eraseOpt s.packetContext = eraseOpt t.packetContext)
    (h3 : eraseOpt s.eventHeader = eraseOpt t.eventHeader)
    (h4 : eraseOpt s.eventCommonContext = eraseOpt t.eventCommonContext)
    (h5 : eraseOpt s.eventSpecContext = eraseOpt t.eventSpecContext)
    (h6 : eraseOpt s.eventPayload = eraseOpt t.eventPayload) :
    eraseScopes s = eraseScopes t := by
  unfold eraseScopes
  rw [h1, h2, h3, h4, h5, h6]

theorem rerun_event :
    ∀ (ec : EventClass) (ctx1 : ResolveContext) (out1 : EventClass × ResolveContext),
      resolveEventClassFieldClasses ctx1 ec = .ok out1 →
      ∀ ctx2 : ResolveContext,
        bndCtxRel ctx2 ctx1 →
        ∃ ctxB, resolveEventClassFieldClasses ctx2 out1.1 = .ok (out1.1, ctxB) ∧
          bndCtxRel ctxB out1.2 ∧
          (ctxB.scopes.eventCommonContext = out1.2.scopes.eventCommonContext ∨
            (ctxB.scopes.eventCommonContext = ctx2.scopes.eventCommonContext ∧
              out1.2.scopes.eventCommonContext = ctx1.scopes.eventCommonContext)) := by
  intro ec ctx1 out1 h ctx2 hrel
  obtain ⟨htc, hsct, hect, hroot, hes, hpH, hpc, heh, hspec, hpl, hstk2, hstk1⟩ := hrel
  simp only [resolveEventClassFieldClasses] at h
  by_cases hts : ec.isTranslated = true
  · rw [if_pos hts] at h
    cases h
    refine ⟨{ ctx2 with
        scopes := { ctx2.scopes with eventSpecContext := none, eventPayload := none },
        ecIsTranslated := none }, ?_, ?_, ?_⟩
    · simp only [resolveEventClassFieldClasses, if_pos hts]
    · refine ⟨htc, hsct, rfl, hroot, ?_, hpH, hpc, heh, rfl, rfl, hstk2, hstk1⟩
      show eraseScopes { ctx2.scopes with eventSpecContext := none, eventPayload := none } =
        eraseScopes { ctx1.scopes with eventSpecContext := none, eventPayload := none }
      refine eraseScopes_ext ?_ ?_ ?_ ?_ rfl rfl
      · show eraseOpt ctx2.scopes.packetHeader = eraseOpt ctx1.scopes.packetHeader
        exact eraseScopes_slot_ph hes
      · show eraseOpt ctx2.scopes.packetContext = eraseOpt ctx1.scopes.packetContext
        exact eraseScopes_slot_pc hes
      · show eraseOpt ctx2.scopes.eventHeader = eraseOpt ctx1.scopes.eventHeader
        exact eraseScopes_slot_eh hes
      · show eraseOpt ctx2.scopes.eventCommonContext = eraseOpt ctx1.scopes.eventCommonContext
        exact eraseScopes_slot_ecc hes
    · exact Or.inr ⟨rfl, rfl⟩
  · rw [if_neg hts] at h
    cases hr1 : resolveRootClass .eventCommonContext
        { ctx1 with
          ecIsTranslated := some ec.isTranslated,
          scopes := { ctx1.scopes with eventSpecContext := ec.specContextFc } } with
    | error e => rw [hr1] at h; exact absurd h (by simp)
    | ok p =>
      obtain ⟨ecc2, ctxI1⟩ := p
      rw [hr1] at h
      dsimp only [] at h
      cases hr2 : resolveRootClass .eventPayload
          { ctxI1 with
            scopes := { ctxI1.scopes with
              eventCommonContext := ecc2, eventPayload := ec.payloadFc } } with
      | error e => rw [hr2] at h; exact absurd h (by simp)
      | ok q =>
        obtain ⟨pl2, ctxI4⟩ := q
        rw [hr2] at h
        cases h
        obtain ⟨hstkI1, hscI10, htcI10, hsctI10, hectI10, _⟩ :=
          resolveRootClass_spec _ _ (ecc2, ctxI1) hr1
        have hscI1 : ctxI1.scopes = { ctx1.scopes with eventSpecContext := ec.specContextFc } :=
          hscI10
        have htcI1 : ctxI1.tcIsTranslated = ctx1.tcIsTranslated := htcI10
        have hsctI1 : ctxI1.scIsTranslated = ctx1.scIsTranslated := hsctI10
        have hectI1 : ctxI1.ecIsTranslated = some ec.isTranslated := hectI10
        have hstkI1' : ctxI1.fieldClassStack = [] := by
          have h0 : ctxI1.fieldClassStack = ctx1.fieldClassStack := hstkI1
          rw [h0, hstk1]
        obtain ⟨hstkI4, hscI40, htcI40, hsctI40, hectI40, _⟩ :=
          resolveRootClass_spec _ _ (pl2, ctxI4) hr2
        have hscI4 : ctxI4.scopes = { ctxI1.scopes with
            eventCommonContext := ecc2, eventPayload := ec.payloadFc } := hscI40
        have htcI4 : ctxI4.tcIsTranslated = ctxI1.tcIsTranslated := htcI40
        have hsctI4 : ctxI4.scIsTranslated = ctxI1.scIsTranslated := hsctI40
        have hectI4 : ctxI4.ecIsTranslated = ctxI1.ecIsTranslated := hectI40
        have hstkI4' : ctxI4.fieldClassStack = [] := by
          have h0 : ctxI4.fieldClassStack = ctxI1.fieldClassStack := hstkI4
          rw [h0, hstkI1']
        have hrootI4 : ctxI4.rootScope = .unknown :=
          resolveRootClass_rootScope_final _ _ (pl2, ctxI4) hr2
        have heccE : eraseOpt ecc2 = eraseOpt ctx1.scopes.eventCommonContext :=
          resolveRootClass_erase _ _ (ecc2, ctxI1) hr1
        have hplE : eraseOpt pl2 = eraseOpt ec.payloadFc := by
          have h0 : eraseOpt pl2 = eraseOpt (borrowClassFromCtx
              { ctxI1 with
                scopes := { ctxI1.scopes with
                  eventCommonContext := ecc2, eventPayload := ec.payloadFc } }
              .eventPayload) :=
            resolveRootClass_erase _ _ (pl2, ctxI4) hr2
          exact h0
        obtain ⟨ctxJ1, hr1b, hscJ10, htcJ10, hsctJ10, hectJ10, hstkJ1, hrootJ1⟩ :=
          rerun_root .eventCommonContext _ (ecc2, ctxI1) hr1
            { ctx2 with
              ecIsTranslated := some ec.isTranslated,
              scopes := { ctx2.scopes with eventSpecContext := ec.specContextFc } }
            htc hsct rfl
            (by
              show eraseScopes { ctx2.scopes with eventSpecContext := ec.specContextFc } =
                eraseScopes { ctx1.scopes with eventSpecContext := ec.specContextFc }
              refine eraseScopes_ext ?_ ?_ ?_ ?_ rfl ?_
              · show eraseOpt ctx2.scopes.packetHeader = eraseOpt ctx1.scopes.packetHeader
                exact eraseScopes_slot_ph hes
              · show eraseOpt ctx2.scopes.packetContext = eraseOpt ctx1.scopes.packetContext
                exact eraseScopes_slot_pc hes
              · show eraseOpt ctx2.scopes.eventHeader = eraseOpt ctx1.scopes.eventHeader
                exact eraseScopes_slot_eh hes
              · show eraseOpt ctx2.scopes.eventCommonContext =
                  eraseOpt ctx1.scopes.eventCommonContext
                exact eraseScopes_slot_ecc hes
              · show eraseOpt ctx2.scopes.eventPayload = eraseOpt ctx1.scopes.eventPayload
                exact eraseScopes_slot_pl hes)
            hstk1 hstk2
        have hscJ1 : ctxJ1.scopes = { ctx2.scopes with eventSpecContext := ec.specContextFc } :=
          hscJ10
        have htcJ1 : ctxJ1.tcIsTranslated = ctx2.tcIsTranslated := htcJ10
        have hsctJ1 : ctxJ1.scIsTranslated = ctx2.scIsTranslated := hsctJ10
        have hectJ1 : ctxJ1.ecIsTranslated = some ec.isTranslated := hectJ10
        obtain ⟨ctxJ4, hr2b, hscJ40, htcJ40, hsctJ40, hectJ40, hstkJ4, hrootJ4⟩ :=
          rerun_root .eventPayload _ (pl2, ctxI4) hr2
            { ctxJ1 with
              scopes := { ctxJ1.scopes with
                eventCommonContext := ecc2, eventPayload := pl2 } }
            (by show ctxJ1.tcIsTranslated = ctxI1.tcIsTranslated; rw [htcJ1, htcI1, htc])
            (by show ctxJ1.scIsTranslated = ctxI1.scIsTranslated; rw [hsctJ1, hsctI1, hsct])
            (by show ctxJ1.ecIsTranslated = ctxI1.ecIsTranslated; rw [hectJ1, hectI1])
            (by
              refine eraseScopes_ext ?_ ?_ ?_ rfl ?_ ?_
              · show eraseOpt ctxJ1.scopes.packetHeader = eraseOpt ctxI1.scopes.packetHeader
                rw [hscJ1, hscI1]
                dsimp only []
                rw [hpH]
              · show eraseOpt ctxJ1.scopes.packetContext = eraseOpt ctxI1.scopes.packetContext
                rw [hscJ1, hscI1]
                dsimp only []
                rw [hpc]
              · show eraseOpt ctxJ1.scopes.eventHeader = eraseOpt ctxI1.scopes.eventHeader
                rw [hscJ1, hscI1]
                dsimp only []
                rw [heh]
              · show eraseOpt ctxJ1.scopes.eventSpecContext =
                  eraseOpt ctxI1.scopes.eventSpecContext
                rw [hscJ1, hscI1]
              · exact hplE)
            hstkI1' hstkJ1
        have hscJ4 : ctxJ4.scopes = { ctxJ1.scopes with
            eventCommonContext := ecc2, eventPayload := pl2 } := hscJ40
        have htcJ4 : ctxJ4.tcIsTranslated = ctxJ1.tcIsTranslated := htcJ40
        have hsctJ4 : ctxJ4.scIsTranslated = ctxJ1.scIsTranslated := hsctJ40
        have hectJ4 : ctxJ4.ecIsTranslated = ctxJ1.ecIsTranslated := hectJ40
        refine ⟨{ ctxJ4 with
            scopes := { ctxJ4.scopes with eventSpecContext := none, eventPayload := none },
            ecIsTranslated := none }, ?_, ?_, ?_⟩
        · simp only [resolveEventClassFieldClasses]
          rw [if_neg (show ¬({ ec with payloadFc := pl2 } : EventClass).isTranslated = true
            from hts)]
          rw [hr1b]
          dsimp only []
          rw [hr2b]
        · refine ⟨?_, ?_, rfl, ?_, ?_, ?_, ?_, ?_, rfl, rfl, ?_, hstkI4'⟩
          · show ctxJ4.tcIsTranslated = ctxI4.tcIsTranslated
            rw [htcJ4, htcI4, htcJ1, htcI1, htc]
          · show ctxJ4.scIsTranslated = ctxI4.scIsTranslated
            rw [hsctJ4, hsctI4, hsctJ1, hsctI1, hsct]
          · show ctxJ4.rootScope = ctxI4.rootScope
            rw [hrootJ4, hrootI4]
          · refine eraseScopes_ext ?_ ?_ ?_ ?_ rfl rfl
            · show eraseOpt ctxJ4.scopes.packetHeader = eraseOpt ctxI4.scopes.packetHeader
              rw [hscJ4, hscI4]
              dsimp only []
              rw [hscJ1, hscI1]
              dsimp only []
              rw [hpH]
            · show eraseOpt ctxJ4.scopes.packetContext = eraseOpt ctxI4.scopes.packetContext
              rw [hscJ4, hscI4]
              dsimp only []
              rw [hscJ1, hscI1]
              dsimp only []
              rw [hpc]
            · show eraseOpt ctxJ4.scopes.eventHeader = eraseOpt ctxI4.scopes.eventHeader
              rw [hscJ4, hscI4]
              dsimp only []
              rw [hscJ1, hscI1]
              dsimp only []
              rw [heh]
            · show eraseOpt ctxJ4.scopes.eventCommonContext =
                eraseOpt ctxI4.scopes.eventCommonContext
              rw [hscJ4, hscI4]
          · show ctxJ4.scopes.packetHeader = ctxI4.scopes.packetHeader
            rw [hscJ4, hscI4]
            dsimp only []
            rw [hscJ1, hscI1]
            dsimp only []
            rw [hpH]
          · show ctxJ4.scopes.packetContext = ctxI4.scopes.packetContext
            rw [hscJ4, hscI4]
            dsimp only []
            rw [hscJ1, hscI1]
            dsimp only []
            rw [hpc]
          · show ctxJ4.scopes.eventHeader = ctxI4.scopes.eventHeader
            rw [hscJ4, hscI4]
            dsimp only []
            rw [hscJ1, hscI1]
            dsimp only []
            rw [heh]
          · exact hstkJ4
        · refine Or.inl ?_
          show ctxJ4.scopes.eventCommonContext = ctxI4.scopes.eventCommonContext
          rw [hscJ4, hscI4]

theorem rerun_event_loop :
    ∀ (ecs : List EventClass) (ctx1 : ResolveContext) (out1 : List EventClass × ResolveContext),
      resolveEventClassesLoop ctx1 ecs = .ok out1 →
      ∀ ctx2 : ResolveContext,
        bndCtxRel ctx2 ctx1 →
        ∃ ctxB, resolveEventClassesLoop ctx2 out1.1 = .ok (out1.1, ctxB) ∧
          bndCtxRel ctxB out1.2 ∧
          (ctxB.scopes.eventCommonContext = out1.2.scopes.eventCommonContext ∨
            (ctxB.scopes.eventCommonContext = ctx2.scopes.eventCommonContext ∧
              out1.2.scopes.eventCommonContext = ctx1.scopes.eventCommonContext)) := by
  intro ecs
  induction ecs with
  | nil =>
    intro ctx1 out1 h ctx2 hrel
    simp only [resolveEventClassesLoop] at h
    cases h
    exact ⟨ctx2, rfl, hrel, Or.inr ⟨rfl, rfl⟩⟩
  | cons ec rest ih =>
    intro ctx1 out1 h ctx2 hrel
    simp only [resolveEventClassesLoop] at h
    cases h1 : resolveEventClassFieldClasses ctx1 ec with
    | error e => rw [h1] at h; exact absurd h (by simp)
    | ok p =>
      obtain ⟨ec2, ctxA⟩ := p
      rw [h1] at h
      dsimp only [] at h
      cases h2 : resolveEventClassesLoop ctxA rest with
      | error e => rw [h2] at h; exact absurd h (by simp)
      | ok q =>
        obtain ⟨rest2, ctxC⟩ := q
        rw [h2] at h
        cases h
        obtain ⟨ctxB1, he2, hrelB1, heccd1⟩ := rerun_event ec ctx1 (ec2, ctxA) h1 ctx2 hrel
        obtain ⟨ctxB, hl2, hrelB, heccd2⟩ := ih ctxA (rest2, ctxC) h2 ctxB1 hrelB1
        refine ⟨ctxB, ?_, hrelB, ?_⟩
        · simp only [resolveEventClassesLoop]
          rw [he2]
          dsimp only []
          rw [hl2]
        · cases heccd2 with
          | inl hL => exact Or.inl hL
          | inr hR =>
            obtain ⟨hB, hC⟩ := hR
            cases heccd1 with
            | inl hA => exact Or.inl (by rw [hB, hA, ← hC])
            | inr hA =>
              obtain ⟨hA2, hA1⟩ := hA
              exact Or.inr ⟨by rw [hB, hA2], by rw [hC, hA1]⟩

theorem rerun_stream :
    ∀ (sc : StreamClass) (ctx1 : ResolveContext) (out1 : StreamClass × ResolveContext),
      resolveStreamClassFieldClasses ctx1 sc = .ok out1 →
      ∀ ctx2 : ResolveContext,
        ctx2.tcIsTranslated = ctx1.tcIsTranslated →
        ctx2.scIsTranslated = ctx1.scIsTranslated →
        ctx2.ecIsTranslated = ctx1.ecIsTranslated →
        ctx2.rootScope = ctx1.rootScope →
        ctx2.scopes = ctx1.scopes →
        ctx1.fieldClassStack = [] → ctx2.fieldClassStack = [] →
        ∃ ctxB, resolveStreamClassFieldClasses ctx2 out1.1 = .ok (out1.1, ctxB) ∧
          ctxB.tcIsTranslated = out1.2.tcIsTranslated ∧
          ctxB.scIsTranslated = out1.2.scIsTranslated ∧
          ctxB.ecIsTranslated = out1.2.ecIsTranslated ∧
          ctxB.rootScope = out1.2.rootScope ∧
          ctxB.scopes = out1.2.scopes ∧
          ctxB.fieldClassStack = [] := by
  intro sc ctx1 out1 h ctx2 htc hsct hect hroot hscopes hstk1 hstk2
  simp only [resolveStreamClassFieldClasses] at h
  by_cases hts : sc.isTranslated = true
  · rw [if_pos hts] at h
    dsimp only [] at h
    cases hl : resolveEventClassesLoop
        { ctx1 with
          scIsTranslated := some sc.isTranslated,
          scopes := { ctx1.scopes with
            packetContext := sc.packetContextFc,
            eventHeader := sc.eventHeaderFc,
            eventCommonContext := sc.eventCommonContextFc } } sc.eventClasses with
    | error e => rw [hl] at h; exact absurd h (by simp)
    | ok q =>
      obtain ⟨ecs2, ctxL1⟩ := q
      rw [hl] at h
      cases h
      obtain ⟨sl1, sl2, sl3, sl4, sl5, sl6⟩ := resolveEventClassesLoop_slots sc.eventClasses _
        (ecs2, ctxL1) hl
      have hpcL : ctxL1.scopes.packetContext = sc.packetContextFc := sl2
      have hehL : ctxL1.scopes.eventHeader = sc.eventHeaderFc := sl3
      have heccLE : eraseOpt ctxL1.scopes.eventCommonContext =
          eraseOpt sc.eventCommonContextFc := sl4
      obtain ⟨ctxLB, hl2, hrelLB, heccd⟩ := rerun_event_loop sc.eventClasses _ (ecs2, ctxL1) hl
        { ctx2 with
          scIsTranslated := some sc.isTranslated,
          scopes := { ctx2.scopes with
            packetContext := ctxL1.scopes.packetContext,
            eventHeader := ctxL1.scopes.eventHeader,
            eventCommonContext := ctxL1.scopes.eventCommonContext } }
        (by
          refine ⟨htc, rfl, hect, hroot, ?_, ?_, ?_, ?_, ?_, ?_, hstk2, hstk1⟩
          · refine eraseScopes_ext ?_ ?_ ?_ ?_ ?_ ?_
            · show eraseOpt ctx2.scopes.packetHeader = eraseOpt ctx1.scopes.packetHeader
              rw [hscopes]
            · show eraseOpt ctxL1.scopes.packetContext = eraseOpt sc.packetContextFc
              rw [hpcL]
            · show eraseOpt ctxL1.scopes.eventHeader = eraseOpt sc.eventHeaderFc
              rw [hehL]
            · exact heccLE
            · show eraseOpt ctx2.scopes.eventSpecContext =
                eraseOpt ctx1.scopes.eventSpecContext
              rw [hscopes]
            · show eraseOpt ctx2.scopes.eventPayload = eraseOpt ctx1.scopes.eventPayload
              rw [hscopes]
          · show ctx2.scopes.packetHeader = ctx1.scopes.packetHeader
            rw [hscopes]
          · show ctxL1.scopes.packetContext = sc.packetContextFc
            exact hpcL
          · show ctxL1.scopes.eventHeader = sc.eventHeaderFc
            exact hehL
          · show ctx2.scopes.eventSpecContext = ctx1.scopes.eventSpecContext
            rw [hscopes]
          · show ctx2.scopes.eventPayload = ctx1.scopes.eventPayload
            rw [hscopes])
      obtain ⟨htcB, hsctB, hectB, hrootB, hesB, hpHB, hpcB, hehB, hspecB, hplB, hstkB2,
        hstkB1⟩ := hrelLB
      have heccB : ctxLB.scopes.eventCommonContext = ctxL1.scopes.eventCommonContext := by
        cases heccd with
        | inl hL => exact hL
        | inr hR => exact hR.1
      refine ⟨{ ctxLB with
          scopes := { ctxLB.scopes with
            packetContext := none, eventHeader := none, eventCommonContext := none },
          scIsTranslated := none }, ?_, ?_, rfl, hectB, hrootB, ?_, ?_⟩
      · simp only [resolveStreamClassFieldClasses]
        rw [if_pos hts]
        dsimp only []
        rw [hl2]
        dsimp only []
        rw [hpcB, hehB, heccB]
      · exact htcB
      · show _ = ({ ctxL1 with
          scopes := { ctxL1.scopes with
            packetContext := none, eventHeader := none, eventCommonContext := none },
          scIsTranslated := none } : ResolveContext).scopes
        dsimp only []
        rw [show ctxLB.scopes.packetHeader = ctxL1.scopes.packetHeader from hpHB,
          show ctxLB.scopes.eventSpecContext = ctxL1.scopes.eventSpecContext from hspecB,
          show ctxLB.scopes.eventPayload = ctxL1.scopes.eventPayload from hplB]
      · exact hstkB2
  · rw [if_neg hts] at h
    cases hr1 : resolveRootClass .packetContext
        { ctx1 with
          scIsTranslated := some sc.isTranslated,
          scopes := { ctx1.scopes with packetContext := sc.packetContextFc } } with
    | error e => rw [hr1] at h; exact absurd h (by simp)
    | ok p1 =>
      obtain ⟨pc2, ctxIB⟩ := p1
      rw [hr1] at h
      dsimp only [] at h
      obtain ⟨hstkIB0, hscIB0, htcIB0, hsctIB0, hectIB0, _⟩ :=
        resolveRootClass_spec _ _ (pc2, ctxIB) hr1
      have hscIB : ctxIB.scopes = { ctx1.scopes with packetContext := sc.packetContextFc } :=
        hscIB0
      have htcIB : ctxIB.tcIsTranslated = ctx1.tcIsTranslated := htcIB0
      have hsctIB : ctxIB.scIsTranslated = some sc.isTranslated := hsctIB0
      have hectIB : ctxIB.ecIsTranslated = ctx1.ecIsTranslated := hectIB0
      have hstkIB : ctxIB.fieldClassStack = [] := by
        have h0 : ctxIB.fieldClassStack = ctx1.fieldClassStack := hstkIB0
        rw [h0, hstk1]
      have hpcE : eraseOpt pc2 = eraseOpt sc.packetContextFc :=
        resolveRootClass_erase _ _ (pc2, ctxIB) hr1
      cases hr2 : resolveRootClass .eventHeader
          { ctxIB with
            scopes := { ctxIB.scopes with
              packetContext := pc2, eventHeader := sc.eventHeaderFc } } with
      | error e => rw [hr2] at h; exact absurd h (by simp)
      | ok p2 =>
        obtain ⟨eh2, ctxIC⟩ := p2
        rw [hr2] at h
        dsimp only [] at h
        obtain ⟨hstkIC0, hscIC0, htcIC0, hsctIC0, hectIC0, _⟩ :=
          resolveRootClass_spec _ _ (eh2, ctxIC) hr2
        have hscIC : ctxIC.scopes = { ctxIB.scopes with
            packetContext := pc2, eventHeader := sc.eventHeaderFc } := hscIC0
        have htcIC : ctxIC.tcIsTranslated = ctxIB.tcIsTranslated := htcIC0
        have hsctIC : ctxIC.scIsTranslated = ctxIB.scIsTranslated := hsctIC0
        have hectIC : ctxIC.ecIsTranslated = ctxIB.ecIsTranslated := hectIC0
        have hstkIC : ctxIC.fieldClassStack = [] := by
          have h0 : ctxIC.fieldClassStack = ctxIB.fieldClassStack := hstkIC0
          rw [h0, hstkIB]
        have hehE : eraseOpt eh2 = eraseOpt sc.eventHeaderFc :=
          resolveRootClass_erase _ _ (eh2, ctxIC) hr2
        cases hr3 : resolveRootClass .eventCommonContext
            { ctxIC with
              scopes := { ctxIC.scopes with
                eventHeader := eh2, eventCommonContext := sc.eventCommonContextFc } } with
        | error e => rw [hr3] at h; exact absurd h (by simp)
        | ok p3 =>
          obtain ⟨ecc2, ctxID⟩ := p3
          rw [hr3] at h
          dsimp only [] at h
          obtain ⟨hstkID0, hscID0, htcID0, hsctID0, hectID0, _⟩ :=
            resolveRootClass_spec _ _ (ecc2, ctxID) hr3
          have hscID : ctxID.scopes = { ctxIC.scopes with
              eventHeader := eh2, eventCommonContext := sc.eventCommonContextFc } := hscID0
          have htcID : ctxID.tcIsTranslated = ctxIC.tcIsTranslated := htcID0
          have hsctID : ctxID.scIsTranslated = ctxIC.scIsTranslated := hsctID0
          have hectID : ctxID.ecIsTranslated = ctxIC.ecIsTranslated := hectID0
          have hstkID : ctxID.fieldClassStack = [] := by
            have h0 : ctxID.fieldClassStack = ctxIC.fieldClassStack := hstkID0
            rw [h0, hstkIC]
          have hrootID : ctxID.rootScope = .unknown :=
            resolveRootClass_rootScope_final _ _ (ecc2, ctxID) hr3
          have heccE : eraseOpt ecc2 = eraseOpt sc.eventCommonContextFc :=
            resolveRootClass_erase _ _ (ecc2, ctxID) hr3
          cases hl : resolveEventClassesLoop
              { ctxID with scopes := { ctxID.scopes with eventCommonContext := ecc2 } }
              sc.eventClasses with
          | error e => rw [hl] at h; exact absurd h (by simp)
          | ok q =>
            obtain ⟨ecs2, ctxL1⟩ := q
            rw [hl] at h
            cases h
            obtain ⟨sl1, sl2, sl3, sl4, sl5, sl6⟩ :=
              resolveEventClassesLoop_slots sc.eventClasses _ (ecs2, ctxL1) hl
            have hpcL : ctxL1.scopes.packetContext = pc2 := by
              have s0 : ctxL1.scopes.packetContext = ctxID.scopes.packetContext := sl2
              rw [s0, hscID]
              dsimp only []
              rw [hscIC]
            have hehL : ctxL1.scopes.eventHeader = eh2 := by
              have s0 : ctxL1.scopes.eventHeader = ctxID.scopes.eventHeader := sl3
              rw [s0, hscID]
            have hpHL : ctxL1.scopes.packetHeader = ctx1.scopes.packetHeader := by
              have s0 : ctxL1.scopes.packetHeader = ctxID.scopes.packetHeader := sl1
              rw [s0, hscID]
              dsimp only []
              rw [hscIC]
              dsimp only []
              rw [hscIB]
            have heccLEr : eraseOpt ctxL1.scopes.eventCommonContext = eraseOpt ecc2 := by
              have s0 : eraseOpt ctxL1.scopes.eventCommonContext =
                  eraseOpt ({ ctxID with
                    scopes := { ctxID.scopes with
                      eventCommonContext := ecc2 } } : ResolveContext).scopes.eventCommonContext
                := sl4
              exact s0
            obtain ⟨ctxJB, hr1b, hscJB0, htcJB0, hsctJB0, hectJB0, hstkJB, hrootJB⟩ :=
              rerun_root .packetContext _ (pc2, ctxIB) hr1
                { ctx2 with
                  scIsTranslated := some sc.isTranslated,
                  scopes := { ctx2.scopes with
                    packetContext := ctxL1.scopes.packetContext } }
                htc rfl hect
                (by
                  refine eraseScopes_ext ?_ ?_ ?_ ?_ ?_ ?_
                  · show eraseOpt ctx2.scopes.packetHeader = eraseOpt ctx1.scopes.packetHeader
                    rw [hscopes]
                  · show eraseOpt ctxL1.scopes.packetContext = eraseOpt sc.packetContextFc
                    rw [hpcL, hpcE]
                  · show eraseOpt ctx2.scopes.eventHeader = eraseOpt ctx1.scopes.eventHeader
                    rw [hscopes]
                  · show eraseOpt ctx2.scopes.eventCommonContext =
                      eraseOpt ctx1.scopes.eventCommonContext
                    rw [hscopes]
                  · show eraseOpt ctx2.scopes.eventSpecContext =
                      eraseOpt ctx1.scopes.eventSpecContext
                    rw [hscopes]
                  · show eraseOpt ctx2.scopes.eventPayload = eraseOpt ctx1.scopes.eventPayload
                    rw [hscopes])
                hstk1 hstk2
            have hscJB : ctxJB.scopes = { ctx2.scopes with
                packetContext := ctxL1.scopes.packetContext } := hscJB0
            have htcJB : ctxJB.tcIsTranslated = ctx2.tcIsTranslated := htcJB0
            have hsctJB : ctxJB.scIsTranslated = some sc.isTranslated := hsctJB0
            have hectJB : ctxJB.ecIsTranslated = ctx2.ecIsTranslated := hectJB0
            obtain ⟨ctxJC, hr2b, hscJC0, htcJC0, hsctJC0, hectJC0, hstkJC, hrootJC⟩ :=
              rerun_root .eventHeader _ (eh2, ctxIC) hr2
                { ctxJB with
                  scopes := { ctxJB.scopes with
                    packetContext := pc2, eventHeader := ctxL1.scopes.eventHeader } }
                (by show ctxJB.tcIsTranslated = ctxIB.tcIsTranslated; rw [htcJB, htcIB, htc])
                (by show ctxJB.scIsTranslated = ctxIB.scIsTranslated; rw [hsctJB, hsctIB])
                (by
                  show ctxJB.ecIsTranslated = ctxIB.ecIsTranslated
                  rw [hectJB, hectIB, hect])
                (by
                  refine eraseScopes_ext ?_ rfl ?_ ?_ ?_ ?_
                  · show eraseOpt ctxJB.scopes.packetHeader = eraseOpt ctxIB.scopes.packetHeader
                    rw [hscJB, hscIB]
                    dsimp only []
                    rw [hscopes]
                  · show eraseOpt ctxL1.scopes.eventHeader = eraseOpt sc.eventHeaderFc
                    rw [hehL, hehE]
                  · show eraseOpt ctxJB.scopes.eventCommonContext =
                      eraseOpt ctxIB.scopes.eventCommonContext
                    rw [hscJB, hscIB]
                    dsimp only []
                    rw [hscopes]
                  · show eraseOpt ctxJB.scopes.eventSpecContext =
                      eraseOpt ctxIB.scopes.eventSpecContext
                    rw [hscJB, hscIB]
                    dsimp only []
                    rw [hscopes]
                  · show eraseOpt ctxJB.scopes.eventPayload = eraseOpt ctxIB.scopes.eventPayload
                    rw [hscJB, hscIB]
                    dsimp only []
                    rw [hscopes])
                hstkIB hstkJB
            have hscJC : ctxJC.scopes = { ctxJB.scopes with
                packetContext := pc2, eventHeader := ctxL1.scopes.eventHeader } := hscJC0
            have htcJC : ctxJC.tcIsTranslated = ctxJB.tcIsTranslated := htcJC0
            have hsctJC : ctxJC.scIsTranslated = ctxJB.scIsTranslated := hsctJC0
            have hectJC : ctxJC.ecIsTranslated = ctxJB.ecIsTranslated := hectJC0
            obtain ⟨ctxJD, hr3b, hscJD0, htcJD0, hsctJD0, hectJD0, hstkJD, hrootJD⟩ :=
              rerun_root .eventCommonContext _ (ecc2, ctxID) hr3
                { ctxJC with
                  scopes := { ctxJC.scopes with
                    eventHeader := eh2, eventCommonContext := ctxL1.scopes.eventCommonContext } }
                (by
                  show ctxJC.tcIsTranslated = ctxIC.tcIsTranslated
                  rw [htcJC, htcIC, htcJB, htcIB, htc])
                (by
                  show ctxJC.scIsTranslated = ctxIC.scIsTranslated
                  rw [hsctJC, hsctIC, hsctJB, hsctIB])
                (by
                  show ctxJC.ecIsTranslated = ctxIC.ecIsTranslated
                  rw [hectJC, hectIC, hectJB, hectIB, hect])
                (by
                  refine eraseScopes_ext ?_ ?_ rfl ?_ ?_ ?_
                  · show eraseOpt ctxJC.scopes.packetHeader = eraseOpt ctxIC.scopes.packetHeader
                    rw [hscJC, hscIC]
                    dsimp only []
                    rw [hscJB, hscIB]
                    dsimp only []
                    rw [hscopes]
                  · show eraseOpt ctxJC.scopes.packetContext =
                      eraseOpt ctxIC.scopes.packetContext
                    rw [hscJC, hscIC]
                  · show eraseOpt ctxL1.scopes.eventCommonContext =
                      eraseOpt sc.eventCommonContextFc
                    rw [heccLEr, heccE]
                  · show eraseOpt ctxJC.scopes.eventSpecContext =
                      eraseOpt ctxIC.scopes.eventSpecContext
                    rw [hscJC, hscIC]
                    dsimp only []
                    rw [hscJB, hscIB]
                    dsimp only []
                    rw [hscopes]
                  · show eraseOpt ctxJC.scopes.eventPayload = eraseOpt ctxIC.scopes.eventPayload
                    rw [hscJC, hscIC]
                    dsimp only []
                    rw [hscJB, hscIB]
                    dsimp only []
                    rw [hscopes])
                hstkIC hstkJC
            have hscJD : ctxJD.scopes = { ctxJC.scopes with
                eventHeader := eh2, eventCommonContext := ctxL1.scopes.eventCommonContext } :=
              hscJD0
            have htcJD : ctxJD.tcIsTranslated = ctxJC.tcIsTranslated := htcJD0
            have hsctJD : ctxJD.scIsTranslated = ctxJC.scIsTranslated := hsctJD0
            have hectJD : ctxJD.ecIsTranslated = ctxJC.ecIsTranslated := hectJD0
            obtain ⟨ctxLB, hl2, hrelLB, heccd⟩ := rerun_event_loop sc.eventClasses _
              (ecs2, ctxL1) hl
              { ctxJD with scopes := { ctxJD.scopes with eventCommonContext := ecc2 } }
              (by
                refine ⟨?_, ?_, ?_, ?_, ?_, ?_, ?_, ?_, ?_, ?_, ?_, hstkID⟩
                · show ctxJD.tcIsTranslated = ctxID.tcIsTranslated
                  rw [htcJD, htcID, htcJC, htcIC, htcJB, htcIB, htc]
                · show ctxJD.scIsTranslated = ctxID.scIsTranslated
                  rw [hsctJD, hsctID, hsctJC, hsctIC, hsctJB, hsctIB]
                · show ctxJD.ecIsTranslated = ctxID.ecIsTranslated
                  rw [hectJD, hectID, hectJC, hectIC, hectJB, hectIB, hect]
                · show ctxJD.rootScope = ctxID.rootScope
                  rw [hrootJD, hrootID]
                · refine eraseScopes_ext ?_ ?_ ?_ rfl ?_ ?_
                  · show eraseOpt ctxJD.scopes.packetHeader = eraseOpt ctxID.scopes.packetHeader
                    rw [hscJD, hscID]
                    dsimp only []
                    rw [hscJC, hscIC]
                    dsimp only []
                    rw [hscJB, hscIB]
                    dsimp only []
                    rw [hscopes]
                  · show eraseOpt ctxJD.scopes.packetContext =
                      eraseOpt ctxID.scopes.packetContext
                    rw [hscJD, hscID]
                    dsimp only []
                    rw [hscJC, hscIC]
                  · show eraseOpt ctxJD.scopes.eventHeader = eraseOpt ctxID.scopes.eventHeader
                    rw [hscJD, hscID]
                  · show eraseOpt ctxJD.scopes.eventSpecContext =
                      eraseOpt ctxID.scopes.eventSpecContext
                    rw [hscJD, hscID]
                    dsimp only []
                    rw [hscJC, hscIC]
                    dsimp only []
                    rw [hscJB, hscIB]
                    dsimp only []
                    rw [hscopes]
                  · show eraseOpt ctxJD.scopes.eventPayload = eraseOpt ctxID.scopes.eventPayload
                    rw [hscJD, hscID]
                    dsimp only []
                    rw [hscJC, hscIC]
                    dsimp only []
                    rw [hscJB, hscIB]
                    dsimp only []
                    rw [hscopes]
                · show ctxJD.scopes.packetHeader = ctxID.scopes.packetHeader
                  rw [hscJD, hscID]
                  dsimp only []
                  rw [hscJC, hscIC]
                  dsimp only []
                  rw [hscJB, hscIB]
                  dsimp only []
                  rw [hscopes]
                · show ctxJD.scopes.packetContext = ctxID.scopes.packetContext
                  rw [hscJD, hscID]
                  dsimp only []
                  rw [hscJC, hscIC]
                · show ctxJD.scopes.eventHeader = ctxID.scopes.eventHeader
                  rw [hscJD, hscID]
                · show ctxJD.scopes.eventSpecContext = ctxID.scopes.eventSpecContext
                  rw [hscJD, hscID]
                  dsimp only []
                  rw [hscJC, hscIC]
                  dsimp only []
                  rw [hscJB, hscIB]
                  dsimp only []
                  rw [hscopes]
                · show ctxJD.scopes.eventPayload = ctxID.scopes.eventPayload
                  rw [hscJD, hscID]
                  dsimp only []
                  rw [hscJC, hscIC]
                  dsimp only []
                  rw [hscJB, hscIB]
                  dsimp only []
                  rw [hscopes]
                · exact hstkJD)
            obtain ⟨htcB, hsctB, hectB, hrootB, hesB, hpHB, hpcB, hehB, hspecB, hplB,
              hstkB2, hstkB1⟩ := hrelLB
            have heccB : ctxLB.scopes.eventCommonContext = ctxL1.scopes.eventCommonContext := by
              cases heccd with
              | inl hL => exact hL
              | inr hR =>
                have h2 : ctxLB.scopes.eventCommonContext = ecc2 := hR.1
                have h1 : ctxL1.scopes.eventCommonContext = ecc2 := hR.2
                rw [h2, h1]
            refine ⟨{ ctxLB with
                scopes := { ctxLB.scopes with
                  packetContext := none, eventHeader := none, eventCommonContext := none },
                scIsTranslated := none }, ?_, ?_, rfl, hectB, hrootB, ?_, ?_⟩
            · simp only [resolveStreamClassFieldClasses]
              rw [if_neg (show ¬({ sc with
                  packetContextFc := ctxL1.scopes.packetContext,
                  eventHeaderFc := ctxL1.scopes.eventHeader,
                  eventCommonContextFc := ctxL1.scopes.eventCommonContext,
                  eventClasses := ecs2 } : StreamClass).isTranslated = true from hts)]
              rw [hr1b]
              dsimp only []
              rw [hr2b]
              dsimp only []
              rw [hr3b]
              dsimp only []
              rw [hl2]
              dsimp only []
              rw [hpcB, hehB, heccB]
            · exact htcB
            · show _ = ({ ctxL1 with
                scopes := { ctxL1.scopes with
                  packetContext := none, eventHeader := none, eventCommonContext := none },
                scIsTranslated := none } : ResolveContext).scopes
              dsimp only []
              rw [show ctxLB.scopes.packetHeader = ctxL1.scopes.packetHeader from hpHB,
                show ctxLB.scopes.eventSpecContext = ctxL1.scopes.eventSpecContext from hspecB,
                show ctxLB.scopes.eventPayload = ctxL1.scopes.eventPayload from hplB]
            · exact hstkB2

theorem rerun_stream_loop :
    ∀ (scs : List StreamClass) (ctx1 : ResolveContext)
      (out1 : List StreamClass × ResolveContext),
      resolveStreamClassesLoop ctx1 scs = .ok out1 →
      ∀ ctx2 : ResolveContext,
        ctx2.tcIsTranslated = ctx1.tcIsTranslated →
        ctx2.scIsTranslated = ctx1.scIsTranslated →
        ctx2.ecIsTranslated = ctx1.ecIsTranslated →
        ctx2.rootScope = ctx1.rootScope →
        ctx2.scopes = ctx1.scopes →
        ctx1.fieldClassStack = [] → ctx2.fieldClassStack = [] →
        ∃ ctxB, resolveStreamClassesLoop ctx2 out1.1 = .ok (out1.1, ctxB) ∧
          ctxB.tcIsTranslated = out1.2.tcIsTranslated ∧
          ctxB.scIsTranslated = out1.2.scIsTranslated ∧
          ctxB.ecIsTranslated = out1.2.ecIsTranslated ∧
          ctxB.rootScope = out1.2.rootScope ∧
          ctxB.scopes = out1.2.scopes ∧
          ctxB.fieldClassStack = [] := by
  intro scs
  induction scs with
  | nil =>
    intro ctx1 out1 h ctx2 htc hsct hect hroot hscopes hstk1 hstk2
    simp only [resolveStreamClassesLoop] at h
    cases h
    exact ⟨ctx2, rfl, htc, hsct, hect, hroot, hscopes, hstk2⟩
  | cons sc rest ih =>
    intro ctx1 out1 h ctx2 htc hsct hect hroot hscopes hstk1 hstk2
    simp only [resolveStreamClassesLoop] at h
    cases h1 : resolveStreamClassFieldClasses ctx1 sc with
    | error e => rw [h1] at h; exact absurd h (by simp)
    | ok p =>
      obtain ⟨sc2, ctxA⟩ := p
      rw [h1] at h
      dsimp only [] at h
      cases h2 : resolveStreamClassesLoop ctxA rest with
      | error e => rw [h2] at h; exact absurd h (by simp)
      | ok q =>
        obtain ⟨rest2, ctxC⟩ := q
        rw [h2] at h
        cases h
        have hstkA : ctxA.fieldClassStack = [] := by
          have h0 : ctxA.fieldClassStack = ctx1.fieldClassStack :=
            (resolveStreamClassFieldClasses_ghost ctx1 sc (sc2, ctxA) h1).1
          rw [h0, hstk1]
        obtain ⟨ctxB1, hs2, f1tc, f1sct, f1ect, f1root, f1scopes, f1stk⟩ :=
          rerun_stream sc ctx1 (sc2, ctxA) h1 ctx2 htc hsct hect hroot hscopes hstk1 hstk2
        obtain ⟨ctxB, hl2, f2tc, f2sct, f2ect, f2root, f2scopes, f2stk⟩ :=
          ih ctxA (rest2, ctxC) h2 ctxB1 f1tc f1sct f1ect f1root f1scopes hstkA f1stk
        refine ⟨ctxB, ?_, f2tc, f2sct, f2ect, f2root, f2scopes, f2stk⟩
        simp only [resolveStreamClassesLoop]
        rw [hs2]
        dsimp only []
        rw [hl2]

theorem rerun_trace :
    ∀ (tc : TraceClass) (out : TraceClass × List (List Frame)),
      ctfTraceClassResolveFieldClasses tc = .ok out →
      ∃ l2, ctfTraceClassResolveFieldClasses out.1 = .ok (out.1, l2) := by
  intro tc out h
  simp only [ctfTraceClassResolveFieldClasses] at h
  by_cases htr : tc.isTranslated = true
  · rw [if_pos htr] at h
    dsimp only [] at h
    cases hl : resolveStreamClassesLoop
        { tcIsTranslated := tc.isTranslated, scIsTranslated := none, ecIsTranslated := none,
          scopes := ⟨tc.packetHeaderFc, none, none, none, none, none⟩,
          rootScope := .packetHeader, fieldClassStack := [], curFc := none,
          rootEntryStacks := [] } tc.streamClasses with
    | error e => rw [hl] at h; exact absurd h (by simp)
    | ok q =>
      obtain ⟨scs2, ctx2L⟩ := q
      rw [hl] at h
      cases h
      obtain ⟨hpHL0, _⟩ := resolveStreamClassesLoop_slots tc.streamClasses _ (scs2, ctx2L) hl
      have hpHL : ctx2L.scopes.packetHeader = tc.packetHeaderFc := hpHL0
      obtain ⟨ctxB, hl2, f2tc, f2sct, f2ect, f2root, f2scopes, f2stk⟩ :=
        rerun_stream_loop tc.streamClasses _ (scs2, ctx2L) hl
          { tcIsTranslated := tc.isTranslated, scIsTranslated := none, ecIsTranslated := none,
            scopes := ⟨ctx2L.scopes.packetHeader, none, none, none, none, none⟩,
            rootScope := .packetHeader, fieldClassStack := [], curFc := none,
            rootEntryStacks := [] }
          rfl rfl rfl rfl (by rw [hpHL]) rfl rfl
      refine ⟨ctxB.rootEntryStacks, ?_⟩
      simp only [ctfTraceClassResolveFieldClasses]
      rw [if_pos (show ({ tc with
          packetHeaderFc := ctx2L.scopes.packetHeader,
          streamClasses := scs2 } : TraceClass).isTranslated = true from htr)]
      dsimp only []
      rw [hl2]
      dsimp only []
      rw [show ctxB.scopes.packetHeader = ctx2L.scopes.packetHeader from by rw [f2scopes]]
  · rw [if_neg htr] at h
    cases hr : resolveRootClass .packetHeader
        { tcIsTranslated := tc.isTranslated, scIsTranslated := none, ecIsTranslated := none,
          scopes := ⟨tc.packetHeaderFc, none, none, none, none, none⟩,
          rootScope := .packetHeader, fieldClassStack := [], curFc := none,
          rootEntryStacks := [] } with
    | error e => rw [hr] at h; exact absurd h (by simp)
    | ok p =>
      obtain ⟨ph2, ctxH1⟩ := p
      rw [hr] at h
      dsimp only [] at h
      obtain ⟨hstkH0, hscH0, htcH0, hsctH0, hectH0, _⟩ :=
        resolveRootClass_spec _ _ (ph2, ctxH1) hr
      have hscH1 : ctxH1.scopes = ⟨tc.packetHeaderFc, none, none, none, none, none⟩ := hscH0
      have htcH1 : ctxH1.tcIsTranslated = tc.isTranslated := htcH0
      have hsctH1 : ctxH1.scIsTranslated = none := hsctH0
      have hectH1 : ctxH1.ecIsTranslated = none := hectH0
      have hstkH1 : ctxH1.fieldClassStack = [] := hstkH0
      have hrootH1 : ctxH1.rootScope = .unknown :=
        resolveRootClass_rootScope_final _ _ (ph2, ctxH1) hr
      have hpHE : eraseOpt ph2 = eraseOpt tc.packetHeaderFc :=
        resolveRootClass_erase _ _ (ph2, ctxH1) hr
      cases hl : resolveStreamClassesLoop
          { ctxH1 with scopes := { ctxH1.scopes with packetHeader := ph2 } }
          tc.streamClasses with
      | error e => rw [hl] at h; exact absurd h (by simp)
      | ok q =>
        obtain ⟨scs2, ctx2L⟩ := q
        rw [hl] at h
        cases h
        obtain ⟨hpHL0, _⟩ := resolveStreamClassesLoop_slots tc.streamClasses _ (scs2, ctx2L) hl
        have hpHL : ctx2L.scopes.packetHeader = ph2 := hpHL0
        obtain ⟨ctxJH, hrb, hscJH0, htcJH0, hsctJH0, hectJH0, hstkJH, hrootJH⟩ :=
          rerun_root .packetHeader _ (ph2, ctxH1) hr
            { tcIsTranslated := tc.isTranslated, scIsTranslated := none,
              ecIsTranslated := none,
              scopes := ⟨ctx2L.scopes.packetHeader, none, none, none, none, none⟩,
              rootScope := .packetHeader, fieldClassStack := [], curFc := none,
              rootEntryStacks := [] }
            rfl rfl rfl
            (by
              refine eraseScopes_ext ?_ rfl rfl rfl rfl rfl
              show eraseOpt ctx2L.scopes.packetHeader = eraseOpt tc.packetHeaderFc
              rw [hpHL, hpHE])
            rfl rfl
        have hscJH : ctxJH.scopes =
            ⟨ctx2L.scopes.packetHeader, none, none, none, none, none⟩ := hscJH0
        have htcJH : ctxJH.tcIsTranslated = tc.isTranslated := htcJH0
        have hsctJH : ctxJH.scIsTranslated = none := hsctJH0
        have hectJH : ctxJH.ecIsTranslated = none := hectJH0
        obtain ⟨ctxB, hl2, f2tc, f2sct, f2ect, f2root, f2scopes, f2stk⟩ :=
          rerun_stream_loop tc.streamClasses _ (scs2, ctx2L) hl
            { ctxJH with scopes := { ctxJH.scopes with packetHeader := ph2 } }
            (by show ctxJH.tcIsTranslated = ctxH1.tcIsTranslated; rw [htcJH, htcH1])
            (by show ctxJH.scIsTranslated = ctxH1.scIsTranslated; rw [hsctJH, hsctH1])
            (by show ctxJH.ecIsTranslated = ctxH1.ecIsTranslated; rw [hectJH, hectH1])
            (by show ctxJH.rootScope = ctxH1.rootScope; rw [hrootJH, hrootH1])
            (by
              show ({ ctxJH with
                scopes := { ctxJH.scopes with packetHeader := ph2 } } :
                  ResolveContext).scopes =
                ({ ctxH1 with
                  scopes := { ctxH1.scopes with packetHeader := ph2 } } :
                    ResolveContext).scopes
              dsimp only []
              rw [hscJH, hscH1])
            hstkH1 hstkJH
        refine ⟨ctxB.rootEntryStacks, ?_⟩
        simp only [ctfTraceClassResolveFieldClasses]
        rw [if_neg (show ¬({ tc with
            packetHeaderFc := ctx2L.scopes.packetHeader,
            streamClasses := scs2 } : TraceClass).isTranslated = true from htr)]
        rw [hrb]
        dsimp only []
        rw [hl2]
        dsimp only []
        rw [show ctxB.scopes.packetHeader = ctx2L.scopes.packetHeader from by rw [f2scopes]]

theorem translated_event_noop (ctx : ResolveContext) (ec : EventClass)
    (hts : ec.isTranslated = true) :
    resolveEventClassFieldClasses ctx ec = .ok (ec,
      { ctx with
        scopes := { ctx.scopes with eventSpecContext := none, eventPayload := none },
        ecIsTranslated := none }) := by
  simp [resolveEventClassFieldClasses, hts]

theorem translated_event_loop_noop :
    ∀ (ecs : List EventClass) (ctx : ResolveContext),
      ecs.all (·.isTranslated) = true →
      ∃ ctx2, resolveEventClassesLoop ctx ecs = .ok (ecs, ctx2) ∧
        ctx2.scopes.packetHeader = ctx.scopes.packetHeader ∧
        ctx2.scopes.packetContext = ctx.scopes.packetContext ∧
        ctx2.scopes.eventHeader = ctx.scopes.eventHeader ∧
        ctx2.scopes.eventCommonContext = ctx.scopes.eventCommonContext ∧
        ctx2.rootEntryStacks = ctx.rootEntryStacks := by
  intro ecs
  induction ecs with
  | nil =>
    intro ctx hall
    exact ⟨ctx, rfl, rfl, rfl, rfl, rfl, rfl⟩
  | cons ec rest ih =>
    intro ctx hall
    simp only [List.all_cons, Bool.and_eq_true] at hall
    obtain ⟨ctx2, hl, s1, s2, s3, s4, s5⟩ := ih
      { ctx with
        scopes := { ctx.scopes with eventSpecContext := none, eventPayload := none },
        ecIsTranslated := none } hall.2
    refine ⟨ctx2, ?_, ?_, ?_, ?_, ?_, ?_⟩
    · simp only [resolveEventClassesLoop, translated_event_noop ctx ec hall.1]
      rw [hl]
    · rw [s1]
    · rw [s2]
    · rw [s3]
    · rw [s4]
    · rw [s5]

theorem translated_stream_noop (ctx : ResolveContext) (sc : StreamClass)
    (hts : sc.isTranslated = true) (hecs : sc.eventClasses.all (·.isTranslated) = true) :
    ∃ ctx2, resolveStreamClassFieldClasses ctx sc = .ok (sc, ctx2) ∧
      ctx2.scopes.packetHeader = ctx.scopes.packetHeader ∧
      ctx2.rootEntryStacks = ctx.rootEntryStacks := by
  obtain ⟨ctxL, hl, s1, s2, s3, s4, s5⟩ := translated_event_loop_noop sc.eventClasses
    { ctx with
      scIsTranslated := some sc.isTranslated,
      scopes := { ctx.scopes with
        packetContext := sc.packetContextFc,
        eventHeader := sc.eventHeaderFc,
        eventCommonContext := sc.eventCommonContextFc } } hecs
  refine ⟨{ ctxL with
      scopes := { ctxL.scopes with
        packetContext := none, eventHeader := none, eventCommonContext := none },
      scIsTranslated := none }, ?_, ?_, ?_⟩
  · simp only [resolveStreamClassFieldClasses]
    rw [if_pos hts]
    dsimp only []
    rw [hl]
    dsimp only []
    rw [show ctxL.scopes.packetContext = sc.packetContextFc from s2,
      show ctxL.scopes.eventHeader = sc.eventHeaderFc from s3,
      show ctxL.scopes.eventCommonContext = sc.eventCommonContextFc from s4]
  · show ctxL.scopes.packetHeader = ctx.scopes.packetHeader
    rw [s1]
  · show ctxL.rootEntryStacks = ctx.rootEntryStacks
    rw [s5]

theorem translated_stream_loop_noop :
    ∀ (scs : List StreamClass) (ctx : ResolveContext),
      scs.all (fun sc => sc.isTranslated &&
        sc.eventClasses.all (fun ec => ec.isTranslated)) = true →
      ∃ ctx2, resolveStreamClassesLoop ctx scs = .ok (scs, ctx2) ∧
        ctx2.scopes.packetHeader = ctx.scopes.packetHeader ∧
        ctx2.rootEntryStacks = ctx.rootEntryStacks := by
  intro scs
  induction scs with
  | nil =>
    intro ctx hall
    exact ⟨ctx, rfl, rfl, rfl⟩
  | cons sc rest ih =>
    intro ctx hall
    simp only [List.all_cons, Bool.and_eq_true] at hall
    obtain ⟨ctxA, hs, p1, p2⟩ := translated_stream_noop ctx sc hall.1.1 hall.1.2
    obtain ⟨ctx2, hl, q1, q2⟩ := ih ctxA hall.2
    refine ⟨ctx2, ?_, by rw [q1, p1], by rw [q2, p2]⟩
    simp only [resolveStreamClassesLoop]
    rw [hs]
    dsimp only []
    rw [hl]

theorem translated_trace_noop :
    ∀ tc : TraceClass, allTranslated tc = true →
      ctfTraceClassResolveFieldClasses tc = .ok (tc, []) := by
  intro tc hall
  simp only [allTranslated, Bool.and_eq_true] at hall
  obtain ⟨htr, hscs⟩ := hall
  obtain ⟨ctx2, hl, p1, p2⟩ := translated_stream_loop_noop tc.streamClasses
    { tcIsTranslated := tc.isTranslated, scIsTranslated := none, ecIsTranslated := none,
      scopes := ⟨tc.packetHeaderFc, none, none, none, none, none⟩,
      rootScope := .packetHeader, fieldClassStack := [], curFc := none,
      rootEntryStacks := [] } hscs
  simp only [ctfTraceClassResolveFieldClasses]
  rw [if_pos htr]
  dsimp only []
  rw [hl]
  dsimp only []
  rw [show ctx2.scopes.packetHeader = tc.packetHeaderFc from p1,
    show ctx2.rootEntryStacks = ([] : List (List Frame)) from p2]

/-- C7: re-invoking `ctf_trace_class_resolve_field_classes` on a trace
class whose trace, stream, and event layers are all marked translated
mutates nothing and returns success (with no root resolution performed at
all, witnessed by the empty ghost record); more generally, re-invoking the
resolver on its own output returns that very output unchanged: the resolver
reads only the erased part of every tree, which resolution preserves, and
every class it stores on a resolve is recomputed identically on a rerun. -/
theorem c7_idempotence :
    (∀ tc : TraceClass, allTranslated tc = true →
        ctfTraceClassResolveFieldClasses tc = .ok (tc, [])) ∧
      (∀ (tc : TraceClass) (out : TraceClass × List (List Frame)),
        ctfTraceClassResolveFieldClasses tc = .ok out →
        ∃ l2, ctfTraceClassResolveFieldClasses out.1 = .ok (out.1, l2)) :=
  ⟨translated_trace_noop, rerun_trace⟩

/-- C7, witness: the fully translated sample trace class is returned
untouched with an empty ghost record, and a minimal untranslated trace
class resolves to itself, so its rerun also succeeds on its own output. -/
theorem c7_idempotence_witness :
    (allTranslated translatedTrace = true ∧
        ctfTraceClassResolveFieldClasses translatedTrace = .ok (translatedTrace, [])) ∧
      (ctfTraceClassResolveFieldClasses ⟨false, none, []⟩ = .ok (⟨false, none, []⟩, [[]]) ∧
        ∃ l2, ctfTraceClassResolveFieldClasses ⟨false, none, []⟩ =
          .ok (⟨false, none, []⟩, l2)) :=
  ⟨⟨rfl, c7_idempotence.1 translatedTrace rfl⟩,
    ⟨rfl, c7_idempotence.2 ⟨false, none, []⟩ (⟨false, none, []⟩, [[]]) rfl⟩⟩
